import Mathlib

/-!
Verification of the chrome-dom-snap core against its specification.

This file gives a shallow embedding of the two core modules of the
repository and proves (or refutes) the frozen claims about them:

* `packages/shared/lib/utils/url-utils.ts` — the Snapshot Store
  (`saveSnapshot`, `deleteSnapshot`, `renameSnapshot`,
  `clearSnapshotsForUrl`, `clearAllSnapshots`, `getStorageInfo`,
  `performAutomaticCleanup`);
* `packages/shared/lib/utils/dom-serializer.ts` — the DOM serializer
  (`serializeNode`, `validateDOMContent`) and the tree morpher
  (`morphElement`).

Conventions of the embedding:

* The async chrome.storage read-modify-write of each store operation is
  modelled as a pure function on an explicit store state (`StoreState`).
  JavaScript objects keyed by strings are modelled as association lists
  in key insertion order, which is exactly the `Object.entries` order
  the code iterates in.
* JavaScript numbers holding byte counts are modelled as `Int` (for the
  metadata aggregates, which the code freely decrements) and `Nat` (for
  individual snapshot sizes / timestamps).  The single fractional
  comparison in the code, `currentSize <= settings.maxTotalSize * 0.8`,
  is modelled exactly over the integers as
  `5 * currentSize <= 4 * maxTotalSize`.
* `normalizeUrl` is applied by the store entry points before any lookup;
  the model takes the already-normalized key as the argument, and the id
  produced by `generateSnapshotId` is taken as an argument of `saveSnapshot`
  (`Date.now()` likewise becomes an explicit `now` argument).
-/

/-- `Snapshot.metadata` as persisted by the store (viewport flattened). -/
structure SnapMeta where
  size : Nat
  pageTitle : String
  viewportWidth : Nat
  viewportHeight : Nat
  url : String
deriving Repr, DecidableEq

/-- One persisted snapshot (the `Snapshot` interface of `url-utils.ts`). -/
structure Snapshot where
  id : String
  timestamp : Nat
  name : String
  domContent : String
  metadata : SnapMeta
deriving Repr, DecidableEq

/-- `StorageSchema.settings`. -/
structure Settings where
  maxSnapshotsPerUrl : Nat
  autoCleanup : Bool
  maxTotalSize : Int
deriving Repr, DecidableEq

/-- `StorageSchema.metadata`: the global aggregate. -/
structure StoreMetadata where
  totalSize : Int
  snapshotCount : Int
  lastCleanup : Nat
deriving Repr, DecidableEq

/-- `StorageSchema.snapshots`: groups keyed by normalized URL, in key
insertion order (JavaScript object iteration order). -/
abbrev SnapshotGroups := List (String × List Snapshot)

/-- The whole persisted store. -/
structure StoreState where
  snapshots : SnapshotGroups
  settings : Settings
  metadata : StoreMetadata
deriving Repr, DecidableEq

/-- `DEFAULT_SETTINGS` of `url-utils.ts`. -/
def DEFAULT_SETTINGS : Settings :=
  { maxSnapshotsPerUrl := 50, autoCleanup := true, maxTotalSize := 8 * 1024 * 1024 }

/-- `DEFAULT_METADATA` of `url-utils.ts`. -/
def DEFAULT_METADATA : StoreMetadata :=
  { totalSize := 0, snapshotCount := 0, lastCleanup := 0 }

/-- `snapshots[key] || []`: the group stored under a key (first entry with
that key, as in a JavaScript object). -/
def getGroup (groups : SnapshotGroups) (key : String) : List Snapshot :=
  match groups.find? (fun e => e.1 == key) with
  | some e => e.2
  | none => []

/-- `snapshots[key] = l`: replace the first entry with that key in place,
or append a new entry (JavaScript object key insertion order). -/
def setGroup (groups : SnapshotGroups) (key : String) (l : List Snapshot) :
    SnapshotGroups :=
  match groups with
  | [] => [(key, l)]
  | e :: rest =>
    if e.1 == key then (key, l) :: rest else e :: setGroup rest key l

/-- All snapshots of all groups paired with their group key, in
`Object.entries` iteration order (the list `allSnapshots` built by
`performAutomaticCleanup`). -/
def flattenPairs (groups : SnapshotGroups) : List (Snapshot × String) :=
  groups.flatMap (fun e => e.2.map (fun snap => (snap, e.1)))

/-- Sum of `metadata.size` over all snapshots of all groups. -/
def sumSizes (groups : SnapshotGroups) : Int :=
  ((flattenPairs groups).map (fun p => (p.1.metadata.size : Int))).sum

/-- Number of snapshots across all groups. -/
def snapCount (groups : SnapshotGroups) : Nat :=
  (flattenPairs groups).length

/-- All snapshot ids across all groups, in iteration order. -/
def allIds (groups : SnapshotGroups) : List String :=
  (flattenPairs groups).map (fun p => p.1.id)

/-- `getSnapshotsForUrl` (after URL normalization). -/
def getSnapshotsForUrl (s : StoreState) (normalizedUrl : String) : List Snapshot :=
  getGroup s.snapshots normalizedUrl

/-- `getSnapshotById`: linear scan across all groups. -/
def getSnapshotById (s : StoreState) (snapshotId : String) : Option Snapshot :=
  (flattenPairs s.snapshots).find? (fun p => p.1.id == snapshotId) |>.map (·.1)

/-- Remove the first snapshot with the given id from a group
(`findIndex` + `splice(index, 1)`), returning it. -/
def removeFirstById : List Snapshot → String → Option (Snapshot × List Snapshot)
  | [], _ => none
  | snap :: rest, sid =>
    if snap.id == sid then some (snap, rest)
    else
      match removeFirstById rest sid with
      | some r => some (r.1, snap :: r.2)
      | none => none

/-- The removal step inside `performAutomaticCleanup`: in the entry stored
under `url`, remove the first snapshot whose id is `sid`; delete the entry
if it becomes empty (`delete snapshots[url]`).  `none` when nothing was
removed (`index === -1`). -/
def removeSnapFromGroups : SnapshotGroups → String → String →
    Option (Snapshot × SnapshotGroups)
  | [], _, _ => none
  | (url, l) :: rest, target, sid =>
    if url == target then
      match removeFirstById l sid with
      | some r => some (r.1, if r.2.isEmpty then rest else (target, r.2) :: rest)
      | none => none
    else
      match removeSnapFromGroups rest target sid with
      | some r => some (r.1, (url, l) :: r.2)
      | none => none

/-- The comparison `currentSize <= settings.maxTotalSize * 0.8` of
`performAutomaticCleanup`, written exactly over the integers
(`x <= 0.8 * m` iff `5 * x <= 4 * m`). -/
def leTargetSize (maxTotalSize currentSize : Int) : Bool :=
  5 * currentSize ≤ 4 * maxTotalSize

/-- The eviction loop of `performAutomaticCleanup`: walk the
timestamp-sorted list, `break` once `currentSize` is at or below the 80%
target, otherwise remove the snapshot from its group and keep going.
Returns the surviving groups, the running size and the removal count. -/
def cleanupLoop (maxTotalSize : Int) :
    List (Snapshot × String) → SnapshotGroups → Int → Nat →
    SnapshotGroups × Int × Nat
  | [], groups, currentSize, removedCount => (groups, currentSize, removedCount)
  | p :: rest, groups, currentSize, removedCount =>
    if leTargetSize maxTotalSize currentSize then (groups, currentSize, removedCount)
    else
      match removeSnapFromGroups groups p.2 p.1.id with
      | some r =>
          cleanupLoop maxTotalSize rest r.2
            (currentSize - p.1.metadata.size) (removedCount + 1)
      | none => cleanupLoop maxTotalSize rest groups currentSize removedCount

/-- Stable insertion used to model `Array.prototype.sort` (which is
required to be stable) with comparator
`(a, b) => a.snapshot.timestamp - b.snapshot.timestamp`: an element is
placed after everything strictly older and before everything of equal or
newer timestamp, preserving the original order of ties. -/
def insertByTimestamp (p : Snapshot × String) :
    List (Snapshot × String) → List (Snapshot × String)
  | [] => [p]
  | q :: rest =>
    if q.1.timestamp < p.1.timestamp then q :: insertByTimestamp p rest
    else p :: q :: rest

/-- Stable sort by ascending timestamp (model of `allSnapshots.sort`). -/
def sortByTimestamp : List (Snapshot × String) → List (Snapshot × String)
  | [] => []
  | p :: rest => insertByTimestamp p (sortByTimestamp rest)

/-- `performAutomaticCleanup`: flatten, sort ascending by timestamp, evict
oldest-first down to the 80% target, then rewrite the metadata. -/
def performAutomaticCleanup (snapshots : SnapshotGroups)
    (metadata : StoreMetadata) (settings : Settings) (now : Nat) :
    SnapshotGroups × StoreMetadata :=
  let allSnapshots := flattenPairs snapshots
  let allSnapshots := sortByTimestamp allSnapshots
  let r := cleanupLoop settings.maxTotalSize allSnapshots snapshots
    metadata.totalSize 0
  (r.1,
    { totalSize := r.2.1,
      snapshotCount := metadata.snapshotCount - r.2.2,
      lastCleanup := now })

/-- `saveSnapshot` (with the generated id already inside `fullSnapshot`
and `Date.now()` passed as `now`): evict the group's oldest member when
the group is at the per-key maximum, append, bump the aggregates, and run
the automatic cleanup when the total size exceeds the budget.  Returns
the new id and the stored state. -/
def saveSnapshot (s : StoreState) (normalizedUrl : String)
    (fullSnapshot : Snapshot) (now : Nat) : String × StoreState :=
  let urlSnapshots := getGroup s.snapshots normalizedUrl
  let evicted :=
    if urlSnapshots.length ≥ s.settings.maxSnapshotsPerUrl then
      match urlSnapshots with
      | [] => (urlSnapshots, s.metadata)
      | oldestSnapshot :: rest =>
          (rest,
            { s.metadata with
              totalSize := s.metadata.totalSize - oldestSnapshot.metadata.size,
              snapshotCount := s.metadata.snapshotCount - 1 })
    else (urlSnapshots, s.metadata)
  let urlSnapshots2 := evicted.1 ++ [fullSnapshot]
  let snapshots2 := setGroup s.snapshots normalizedUrl urlSnapshots2
  let metadata2 :=
    { evicted.2 with
      totalSize := evicted.2.totalSize + fullSnapshot.metadata.size,
      snapshotCount := evicted.2.snapshotCount + 1 }
  let cleaned :=
    if metadata2.totalSize > s.settings.maxTotalSize then
      performAutomaticCleanup snapshots2 metadata2 s.settings now
    else (snapshots2, metadata2)
  (fullSnapshot.id,
    { snapshots := cleaned.1, settings := s.settings, metadata := cleaned.2 })

/-- The group scan of `deleteSnapshot`: find the first group containing
the id, remove the snapshot, drop the group entry if it became empty. -/
def deleteFromGroups : SnapshotGroups → String →
    Option (Snapshot × SnapshotGroups)
  | [], _ => none
  | (url, l) :: rest, sid =>
    match removeFirstById l sid with
    | some r =>
        some (r.1, if r.2.isEmpty then rest else (url, r.2) :: rest)
    | none =>
        match deleteFromGroups rest sid with
        | some r => some (r.1, (url, l) :: r.2)
        | none => none

/-- `deleteSnapshot`: returns whether the id was found, and the stored
state (unchanged when not found). -/
def deleteSnapshot (s : StoreState) (snapshotId : String) : Bool × StoreState :=
  match deleteFromGroups s.snapshots snapshotId with
  | some r =>
      (true,
        { s with
          snapshots := r.2,
          metadata :=
            { s.metadata with
              totalSize := s.metadata.totalSize - r.1.metadata.size,
              snapshotCount := s.metadata.snapshotCount - 1 } })
  | none => (false, s)

/-- JavaScript `String.prototype.trim` whitespace (ASCII part). -/
def isJsWhitespace (c : Char) : Bool :=
  c == ' ' || c == '\t' || c == '\n' || c == '\r' ||
  c == (Char.ofNat 11) || c == (Char.ofNat 12)

/-- JavaScript `String.prototype.trim`. -/
def jsTrim (s : String) : String :=
  String.mk (((s.data.dropWhile isJsWhitespace).reverse.dropWhile
    isJsWhitespace).reverse)

/-- Rename the first snapshot with the given id inside one group
(`urlSnapshots.find(...)` followed by a field write on the found
object). -/
def renameFirst : List Snapshot → String → String → List Snapshot
  | [], _, _ => []
  | snap :: rest, sid, newName =>
    if snap.id == sid then { snap with name := newName } :: rest
    else snap :: renameFirst rest sid newName

/-- Rename the first snapshot with the given id across all groups. -/
def renameInGroups : SnapshotGroups → String → String → Bool × SnapshotGroups
  | [], _, _ => (false, [])
  | (url, l) :: rest, sid, newName =>
    if l.any (fun snap => snap.id == sid) then
      (true, (url, renameFirst l sid newName) :: rest)
    else
      let r := renameInGroups rest sid newName
      (r.1, (url, l) :: r.2)

/-- `renameSnapshot`: validation throws (`Except.error`) on an empty or
whitespace-only name and on a name longer than 100 characters (the length
check runs on the untrimmed string); otherwise the first snapshot with
the id gets the trimmed name.  Returns `found` and the stored state. -/
def renameSnapshot (s : StoreState) (snapshotId : String) (newName : String) :
    Except String (Bool × StoreState) :=
  if newName == "" || (jsTrim newName).length == 0 then
    .error "Snapshot name cannot be empty"
  else if newName.length > 100 then
    .error "Snapshot name cannot exceed 100 characters"
  else
    let trimmedName := jsTrim newName
    let r := renameInGroups s.snapshots snapshotId trimmedName
    .ok (r.1, { s with snapshots := r.2 })

/-- `clearSnapshotsForUrl` (after URL normalization): drop the whole
group, decrement the aggregates by the sum of its members. -/
def clearSnapshotsForUrl (s : StoreState) (normalizedUrl : String) :
    Nat × StoreState :=
  let urlSnapshots := getGroup s.snapshots normalizedUrl
  let deletedCount := urlSnapshots.length
  if deletedCount > 0 then
    let totalSize :=
      (urlSnapshots.map (fun snap => (snap.metadata.size : Int))).sum
    (deletedCount,
      { s with
        snapshots := s.snapshots.filter (fun e => !(e.1 == normalizedUrl)),
        metadata :=
          { s.metadata with
            totalSize := s.metadata.totalSize - totalSize,
            snapshotCount := s.metadata.snapshotCount - deletedCount } })
  else (0, s)

/-- `clearAllSnapshots`: counts everything; when anything existed, resets
the groups and the metadata (recording `Date.now()` as `lastCleanup`) and
keeps the settings; an empty store is left untouched. -/
def clearAllSnapshots (s : StoreState) (now : Nat) : Nat × StoreState :=
  let totalDeleted := snapCount s.snapshots
  if totalDeleted > 0 then
    (totalDeleted,
      { snapshots := [],
        settings := s.settings,
        metadata := { DEFAULT_METADATA with lastCleanup := now } })
  else (0, s)

/-- The derived usage read (`getStorageInfo`).  `usedPercentage` is a
JavaScript float division, modelled exactly over the rationals. -/
structure StorageInfo where
  totalSize : Int
  snapshotCount : Int
  usedPercentage : ℚ
  maxSize : Int
deriving Repr, DecidableEq

/-- `getStorageInfo`. -/
def getStorageInfo (s : StoreState) : StorageInfo :=
  { totalSize := s.metadata.totalSize,
    snapshotCount := s.metadata.snapshotCount,
    usedPercentage := (s.metadata.totalSize : ℚ) / (s.settings.maxTotalSize : ℚ) * 100,
    maxSize := s.settings.maxTotalSize }

/-!
## DOM model (`dom-serializer.ts`)

A detached DOM tree: elements with attributes (an element's attribute
list never repeats a name, tracked by `wfNode`), text nodes, comments and
a doctype node.  `cloneNode(true)` of such a value is the value itself;
aliasing questions are handled separately by the heap model further down.
-/

/-- A DOM node, as walked by `serializeNode` and `morphElement`. -/
inductive DomNode where
  | element (tagName : String) (attributes : List (String × String))
      (children : List DomNode)
  | text (content : String)
  | comment (content : String)
  | doctype (name : String)
deriving Repr

/-- `SerializationOptions` with the defaults applied. -/
structure SerializationOptions where
  includeStyles : Bool
  includeScripts : Bool
  maxSize : Nat
  timeout : Nat
deriving Repr, DecidableEq

/-- `DEFAULT_OPTIONS` of `dom-serializer.ts`. -/
def DEFAULT_OPTIONS : SerializationOptions :=
  { includeStyles := true, includeScripts := false,
    maxSize := 5 * 1024 * 1024, timeout := 10000 }

/-- `Node.ELEMENT_NODE` test. -/
def isElementNode : DomNode → Bool
  | DomNode.element _ _ _ => true
  | _ => false

/-- `element.children.length`: only element children count. -/
def elementChildCount (children : List DomNode) : Nat :=
  (children.filter isElementNode).length

mutual
/-- `node.textContent` of an element: the concatenated data of all text
node descendants (comments contribute nothing). -/
def descendantTextContent : DomNode → String
  | DomNode.text s => s
  | DomNode.comment _ => ""
  | DomNode.doctype _ => ""
  | DomNode.element _ _ children => forestTextContent children

/-- `textContent` concatenated over a child list. -/
def forestTextContent : List DomNode → String
  | [] => ""
  | c :: rest => descendantTextContent c ++ forestTextContent rest
end

/-- The void-element list of `serializeNode` (`selfClosingTags`). -/
def selfClosingTags : List String :=
  ["img", "br", "hr", "input", "meta", "link", "area", "base", "col",
   "embed", "source", "track", "wbr"]

/-- `value.replace(/c/g, rep)` for a single-character pattern. -/
def replaceChar (l : List Char) (c : Char) (rep : List Char) : List Char :=
  l.flatMap (fun x => if x == c then rep else [x])

/-- Attribute-value escaping of `serializeNode`:
`attr.value.replace(/"/g, '&quot;')`. -/
def escapeAttrValue (v : String) : String :=
  String.mk (replaceChar v.data '"' "&quot;".data)

/-- Text-node escaping of `serializeNode`: the three sequential global
replacements `&` → `&amp;`, then `<` → `&lt;`, then `>` → `&gt;`. -/
def escapeText (s : String) : String :=
  String.mk
    (replaceChar
      (replaceChar (replaceChar s.data '&' "&amp;".data) '<' "&lt;".data)
      '>' "&gt;".data)

/-- The attribute loop of `serializeNode`: emit
`` ${attr.name}="${escaped value}"`` for each attribute in order. -/
def serializeAttributes : List (String × String) → String
  | [] => ""
  | (n, v) :: rest =>
    " " ++ n ++ "=\"" ++ escapeAttrValue v ++ "\"" ++ serializeAttributes rest

mutual
/-- `serializeNode`: recursive depth-first serialization.  Script/style
elements are dropped according to the options; an element with no element
children, empty `textContent` and a void tag self-closes; text content is
entity-escaped; comments and the doctype are emitted literally. -/
def serializeNode (options : SerializationOptions) : DomNode → String
  | DomNode.element tagNameRaw attributes children =>
    let tagName := tagNameRaw.toLower
    if tagName == "script" && !options.includeScripts then ""
    else if tagName == "style" && !options.includeStyles then ""
    else
      let html := "<" ++ tagName ++ serializeAttributes attributes
      if elementChildCount children == 0 && forestTextContent children == "" &&
          selfClosingTags.contains tagName then
        html ++ " />"
      else
        html ++ ">" ++ serializeChildren options children ++ "</" ++ tagName ++ ">"
  | DomNode.text s => escapeText s
  | DomNode.comment s => "<!--" ++ s ++ "-->"
  | DomNode.doctype n => "<!DOCTYPE " ++ n ++ ">"

/-- The child loop of `serializeNode`. -/
def serializeChildren (options : SerializationOptions) : List DomNode → String
  | [] => ""
  | c :: rest => serializeNode options c ++ serializeChildren options rest
end

/-- Entity decoding of the three text escapes, written from the spec's
round-trip property ("decodes back to the original text"); not part of
the repository code. -/
def htmlDecodeEntities : List Char → List Char
  | '&' :: 'a' :: 'm' :: 'p' :: ';' :: rest => '&' :: htmlDecodeEntities rest
  | '&' :: 'l' :: 't' :: ';' :: rest => '<' :: htmlDecodeEntities rest
  | '&' :: 'g' :: 't' :: ';' :: rest => '>' :: htmlDecodeEntities rest
  | c :: rest => c :: htmlDecodeEntities rest
  | [] => []

/-!
## Content validator (`validateDOMContent`)
-/

/-- Substring test over character lists (`String.prototype.includes` is
case-sensitive). -/
def isSubstrOf (pat : List Char) : List Char → Bool
  | [] => pat.isEmpty
  | c :: rest => pat.isPrefixOf (c :: rest) || isSubstrOf pat rest

/-- `haystack.includes(pat)`. -/
def strContains (s pat : String) : Bool :=
  isSubstrOf pat.data s.data

/-- Case-insensitive substring test (what a `/.../i` regex does for the
plain-text patterns `javascript:` and `data:text/html`; also used to
state what the spec claims about the `<html` check). -/
def containsCaseInsensitive (s pat : String) : Bool :=
  isSubstrOf (pat.data.map Char.toLower) (s.data.map Char.toLower)

/-- After a lowercased `<script` was consumed: `[^>]*>` takes everything
up to the first `>`, then `[\s\S]*?<\/script>` needs a later
`</script>`. -/
def scriptTailMatches (l : List Char) : Bool :=
  match l.dropWhile (fun c => !(c == '>')) with
  | '>' :: tail => isSubstrOf "</script>".data tail
  | _ => false

/-- Scan for a match of `/<script[^>]*>[\s\S]*?<\/script>/i` in an
already-lowercased character list. -/
def scriptScan : List Char → Bool
  | [] => false
  | c :: rest =>
    ("<script".data.isPrefixOf (c :: rest) &&
      scriptTailMatches ((c :: rest).drop 7)) || scriptScan rest

/-- `/<script[^>]*>[\s\S]*?<\/script>/gi.test(domContent)`. -/
def matchesScriptBlock (s : String) : Bool :=
  scriptScan (s.data.map Char.toLower)

/-- Result of `validateDOMContent`. -/
structure ValidationResult where
  isValid : Bool
  errors : List String
deriving Repr, DecidableEq

/-- `calculateDOMSize`: `new Blob([domContent]).size`, the UTF-8 byte
length. -/
def calculateDOMSize (domContent : String) : Nat :=
  domContent.utf8ByteSize

/-- `validateDOMContent`: accumulate the structural errors, then the
short-circuiting unsafe-pattern check; `isValid` iff no error. -/
def validateDOMContent (domContent : String) : ValidationResult :=
  let errors : List String := []
  let errors :=
    if !(strContains domContent "<html") then
      errors ++ ["Missing HTML root element"]
    else errors
  let size := calculateDOMSize domContent
  let errors :=
    if size == 0 then errors ++ ["Empty DOM content"] else errors
  let errors :=
    if size > 10 * 1024 * 1024 then
      errors ++ ["DOM content too large: " ++ toString size ++ " bytes"]
    else errors
  let errors :=
    if matchesScriptBlock domContent ||
        containsCaseInsensitive domContent "javascript:" ||
        containsCaseInsensitive domContent "data:text/html" then
      errors ++ ["Potentially unsafe content detected"]
    else errors
  { isValid := errors.isEmpty, errors := errors }

/-!
## Tree morpher (`morphElement`)

`morphElement(current, target)` mutates the live element in place; the
model returns the new live node together with a count of the DOM
mutations performed (attribute removals and writes, child insertions,
removals, replacements, and text updates) — the quantity a
MutationObserver would see.
-/

/-- `target.hasAttribute(name)`. -/
def hasAttr (attributes : List (String × String)) (n : String) : Bool :=
  attributes.any (fun p => p.1 == n)

/-- `element.getAttribute(name)` (`none` models `null`). -/
def getAttr (attributes : List (String × String)) (n : String) : Option String :=
  (attributes.find? (fun p => p.1 == n)).map (·.2)

/-- `element.setAttribute(name, value)`: overwrite in place when the name
exists, else append. -/
def setAttr (attributes : List (String × String)) (n v : String) :
    List (String × String) :=
  if hasAttr attributes n then
    attributes.map (fun p => if p.1 == n then (n, v) else p)
  else attributes ++ [(n, v)]

/-- DOM `Node.isEqualNode` attribute condition: equal counts and every
attribute of the first list has an equally named and valued attribute in
the second. -/
def attrsEqual (a1 a2 : List (String × String)) : Bool :=
  a1.length == a2.length &&
    a1.all (fun p => a2.any (fun q => q.1 == p.1 && q.2 == p.2))

mutual
/-- `Node.isEqualNode`: same kind, same tag/data, attribute lists equal
as sets, children pairwise equal. -/
def isEqualNode : DomNode → DomNode → Bool
  | DomNode.element t1 a1 c1, DomNode.element t2 a2 c2 =>
    t1 == t2 && attrsEqual a1 a2 && childrenEqualNode c1 c2
  | DomNode.text s1, DomNode.text s2 => s1 == s2
  | DomNode.comment s1, DomNode.comment s2 => s1 == s2
  | DomNode.doctype n1, DomNode.doctype n2 => n1 == n2
  | _, _ => false

/-- Pairwise `isEqualNode` over child lists of equal length. -/
def childrenEqualNode : List DomNode → List DomNode → Bool
  | [], [] => true
  | c :: cs, d :: ds => isEqualNode c d && childrenEqualNode cs ds
  | _, _ => false
end

/-- The second attribute loop of `morphElement`: for every target
attribute in order, write it on the accumulator only when the current
value differs.  Also counts the writes. -/
def setAttrsLoop : List (String × String) × Nat → List (String × String) →
    List (String × String) × Nat
  | acc, [] => acc
  | acc, q :: rest =>
    if getAttr acc.1 q.1 == some q.2 then setAttrsLoop acc rest
    else setAttrsLoop (setAttr acc.1 q.1 q.2, acc.2 + 1) rest

/-- The attribute phase of `morphElement`: remove every live attribute
absent on the target (the code iterates backwards so that removal during
iteration is sound; the net effect is a filter), then add/update the
target attributes.  Returns the new list and the mutation count. -/
def syncAttributes (currentAttrs targetAttrs : List (String × String)) :
    List (String × String) × Nat :=
  let kept := currentAttrs.filter (fun p => hasAttr targetAttrs p.1)
  let removedCount := currentAttrs.length - kept.length
  let r := setAttrsLoop (kept, 0) targetAttrs
  (r.1, removedCount + r.2)

mutual
/-- `morphElement`: no-op when the nodes are already `isEqualNode`-equal;
otherwise sync the attributes and reconcile the children positionally.
The live tag name is never rewritten.  (The function is only invoked on
element nodes; the fallthrough returns the node unchanged.) -/
def morphElement (current target : DomNode) : DomNode × Nat :=
  if isEqualNode current target then (current, 0)
  else
    match current, target with
    | DomNode.element ct ca cc, DomNode.element _ ta tc =>
      let attrResult := syncAttributes ca ta
      let childResult := morphChildList cc tc
      (DomNode.element ct attrResult.1 childResult.1,
        attrResult.2 + childResult.2)
    | c, _ => (c, 0)

/-- The index-aligned child walk of `morphElement`: append clones of
extra target children, remove extra live children, update text in place,
recurse into same-tag element pairs, replace everything else with a
clone.  (`cloneNode(true)` of a pure tree is the tree itself.) -/
def morphChildList : List DomNode → List DomNode → List DomNode × Nat
  | [], [] => ([], 0)
  | [], t :: ts =>
    let r := morphChildList [] ts
    (t :: r.1, r.2 + 1)
  | _ :: cs, [] => ([], cs.length + 1)
  | c :: cs, t :: ts =>
    let head : DomNode × Nat :=
      match c, t with
      | DomNode.text s1, DomNode.text s2 =>
        if s1 == s2 then (c, 0) else (DomNode.text s2, 1)
      | DomNode.element ct _ _, DomNode.element tt _ _ =>
        if ct == tt then morphElement c t else (t, 1)
      | _, _ => (t, 1)
    let rest := morphChildList cs ts
    (head.1 :: rest.1, head.2 + rest.2)
end

/-- Attribute-name uniqueness of one attribute list (a DOM element never
carries two attributes of the same name). -/
def namesNodupB : List (String × String) → Bool
  | [] => true
  | p :: rest => !(rest.any (fun q => q.1 == p.1)) && namesNodupB rest

mutual
/-- Well-formedness of a modelled DOM node: attribute names are unique on
every element, recursively. -/
def wfNode : DomNode → Bool
  | DomNode.element _ a children => namesNodupB a && wfForest children
  | _ => true

/-- `wfNode` over a child list. -/
def wfForest : List DomNode → Bool
  | [] => true
  | c :: rest => wfNode c && wfForest rest
end

/-- Lexicographic order on attributes (name first, then value), used only
to state serialization equality up to attribute reordering. -/
def attrLe (p q : String × String) : Bool :=
  decide (p.1 < q.1) || (p.1 == q.1 && decide (p.2 ≤ q.2))

/-- Insertion into an `attrLe`-sorted list. -/
def insertAttrSorted (x : String × String) :
    List (String × String) → List (String × String)
  | [] => [x]
  | y :: rest =>
    if attrLe x y then x :: y :: rest else y :: insertAttrSorted x rest

/-- Insertion sort of an attribute list by `attrLe`. -/
def sortAttrs : List (String × String) → List (String × String)
  | [] => []
  | x :: rest => insertAttrSorted x (sortAttrs rest)

mutual
/-- Order-normalize every attribute list in a tree (sort by `attrLe`);
two `isEqualNode`-equal well-formed trees normalize identically, which is
how "equal up to attribute ordering" is stated. -/
def normalizeNode : DomNode → DomNode
  | DomNode.element t a children => DomNode.element t (sortAttrs a) (normalizeForest children)
  | n => n

/-- `normalizeNode` over a child list. -/
def normalizeForest : List DomNode → List DomNode
  | [] => []
  | c :: rest => normalizeNode c :: normalizeForest rest
end

/-- Accessors for stating facts about morph results. -/
def DomNode.tagOf : DomNode → String
  | DomNode.element t _ _ => t
  | _ => ""

/-- Attribute list of an element node (`[]` otherwise). -/
def DomNode.attrsOf : DomNode → List (String × String)
  | DomNode.element _ a _ => a
  | _ => []

/-- Child list of an element node (`[]` otherwise). -/
def DomNode.childrenOf : DomNode → List DomNode
  | DomNode.element _ _ children => children
  | _ => []

/-!
## Heap model of the morpher (for the frame property)

The pure tree model above cannot express aliasing, so the question
"does `morphElement` ever mutate the *target* tree?" is settled on a
second embedding in which DOM nodes live in an explicit heap of
numbered nodes and `cloneNode(true)` allocates fresh ids.  Inserting a
target child *without* cloning would reparent it (mutating the target
tree); the code always clones, and the frame theorem below shows the
entire target-reachable region of the heap is untouched.
-/

/-- Heap node payload: an element with child ids, a text node, or a
comment. -/
inductive HNodeData where
  | element (tagName : String) (attrs : List (String × String))
      (children : List Nat)
  | text (content : String)
  | comment (content : String)
deriving Repr, DecidableEq

/-- Child ids of a payload. -/
def HNodeData.childIds : HNodeData → List Nat
  | HNodeData.element _ _ children => children
  | _ => []

/-- A DOM heap: a partial map from node ids to payloads plus an
allocation bound (every live id is below `nextId`). -/
structure DomHeap where
  nodes : Nat → Option HNodeData
  nextId : Nat

/-- Allocate a fresh node. -/
def allocNode (h : DomHeap) (d : HNodeData) : Nat × DomHeap :=
  (h.nextId,
    { nodes := fun i => if i = h.nextId then some d else h.nodes i,
      nextId := h.nextId + 1 })

/-- Overwrite the payload of an existing node (attribute sync, text
update, child-list surgery). -/
def writeNode (h : DomHeap) (id : Nat) (d : HNodeData) : DomHeap :=
  { nodes := fun i => if i = id then some d else h.nodes i,
    nextId := h.nextId }

/-- Child ids of the node stored at `id` (empty when absent / non
element). -/
def childIdsAt (h : DomHeap) (id : Nat) : List Nat :=
  match h.nodes id with
  | some d => d.childIds
  | none => []

/-- Rewrite the child list of the element at `id`. -/
def updateChildrenAt (h : DomHeap) (id : Nat) (f : List Nat → List Nat) :
    DomHeap :=
  match h.nodes id with
  | some (HNodeData.element t a children) =>
    writeNode h id (HNodeData.element t a (f children))
  | _ => h

mutual
/-- `cloneNode(true)`: deep-copy the subtree at `id`, allocating only
fresh ids; fuel bounds the depth (a real DOM tree is finite and
acyclic).  Returns the clone's root id. -/
def cloneH (h : DomHeap) (id : Nat) : Nat → Nat × DomHeap
  | 0 => allocNode h (HNodeData.text "")
  | fuel + 1 =>
    match h.nodes id with
    | some (HNodeData.element t a children) =>
      let r := cloneListH h children fuel
      allocNode r.2 (HNodeData.element t a r.1)
    | some d => allocNode h d
    | none => allocNode h (HNodeData.text "")
termination_by f => (f, 0)

/-- Deep-clone a list of nodes in order. -/
def cloneListH (h : DomHeap) (ids : List Nat) (fuel : Nat) :
    List Nat × DomHeap :=
  match ids with
  | [] => ([], h)
  | id :: rest =>
    let r := cloneH h id fuel
    let r2 := cloneListH r.2 rest fuel
    (r.1 :: r2.1, r2.2)
termination_by (fuel, ids.length + 1)
end

/-- Heap version of `Node.isEqualNode` (fuel-bounded; its value is
irrelevant to the frame property — either branch of the guard leaves the
target untouched). -/
def isEqualNodeH (h : DomHeap) (a b : Nat) : Nat → Bool
  | 0 => false
  | fuel + 1 =>
    match h.nodes a, h.nodes b with
    | some (HNodeData.element t1 a1 c1), some (HNodeData.element t2 a2 c2) =>
      t1 == t2 && attrsEqual a1 a2 && c1.length == c2.length &&
        (c1.zip c2).all (fun p => isEqualNodeH h p.1 p.2 fuel)
    | some (HNodeData.text s1), some (HNodeData.text s2) => s1 == s2
    | some (HNodeData.comment s1), some (HNodeData.comment s2) => s1 == s2
    | _, _ => false

mutual
/-- Heap version of `morphElement`.  The attribute phase is a single
payload write on the live node (computed by the same `syncAttributes`);
the child phase walks snapshots of both child lists, cloning target
children before inserting them — never linking a target node into the
live tree. -/
def morphH : Nat → DomHeap → Nat → Nat → DomHeap
  | 0, h, _, _ => h
  | fuel + 1, h, current, target =>
    if isEqualNodeH h current target (fuel + 1) then h
    else
      match h.nodes current, h.nodes target with
      | some (HNodeData.element ct ca cc), some (HNodeData.element _ ta _) =>
        let h1 := writeNode h current
          (HNodeData.element ct (syncAttributes ca ta).1 cc)
        morphChildrenH fuel h1 current cc (childIdsAt h target)
      | _, _ => h
termination_by fuel _ _ _ => (fuel, 0)

/-- Heap version of the child loop: `currentKids`/`targetKids` are the
`Array.from` snapshots; append a fresh clone, remove, update text,
recurse into same-tag element pairs, or replace by a fresh clone. -/
def morphChildrenH : Nat → DomHeap → Nat → List Nat → List Nat → DomHeap
  | _, h, _, [], [] => h
  | fuel, h, parent, [], t :: ts =>
    let r := cloneH h t fuel
    let h2 := updateChildrenAt r.2 parent (fun kids => kids ++ [r.1])
    morphChildrenH fuel h2 parent [] ts
  | fuel, h, parent, c :: cs, [] =>
    let h2 := updateChildrenAt h parent (fun kids => kids.erase c)
    morphChildrenH fuel h2 parent cs []
  | fuel, h, parent, c :: cs, t :: ts =>
    let h2 :=
      match h.nodes c, h.nodes t with
      | some (HNodeData.text s1), some (HNodeData.text s2) =>
        if s1 == s2 then h else writeNode h c (HNodeData.text s2)
      | some (HNodeData.element ct _ _), some (HNodeData.element tt _ _) =>
        if ct == tt then morphH fuel h c t
        else
          let r := cloneH h t fuel
          updateChildrenAt r.2 parent
            (fun kids => kids.map (fun k => if k = c then r.1 else k))
      | _, _ =>
        let r := cloneH h t fuel
        updateChildrenAt r.2 parent
          (fun kids => kids.map (fun k => if k = c then r.1 else k))
    morphChildrenH fuel h2 parent cs ts
termination_by fuel _ _ cs ts => (fuel, cs.length + ts.length + 1)
end

/-- Ids reachable from a root in at most `fuel` child steps. -/
def reachH : Nat → DomHeap → Nat → List Nat
  | 0, _, id => [id]
  | fuel + 1, h, id => id :: (childIdsAt h id).flatMap (reachH fuel h)

/-- Heap well-formedness: nodes live below `nextId` and only reference
nodes below `nextId`. -/
def heapWF (h : DomHeap) : Prop :=
  (∀ i, h.nextId ≤ i → h.nodes i = none) ∧
  (∀ i d, h.nodes i = some d → ∀ j, j ∈ d.childIds → j < h.nextId)

/-!
## Operation sequences over the store (for the metadata invariant)
-/

/-- One Snapshot Store mutation, with the environment inputs
(`generateSnapshotId` result inside the snapshot, `Date.now()` as
explicit arguments). -/
inductive StoreOp where
  | save (normalizedUrl : String) (fullSnapshot : Snapshot) (now : Nat)
  | del (snapshotId : String)
  | rename (snapshotId newName : String)
  | clearGroup (normalizedUrl : String)
  | clearAll (now : Nat)
  | cleanup (now : Nat)
deriving Repr

/-- Run one operation, keeping the resulting state (a thrown rename
validation error leaves the store untouched). -/
def applyOp (s : StoreState) : StoreOp → StoreState
  | StoreOp.save url snap now => (saveSnapshot s url snap now).2
  | StoreOp.del sid => (deleteSnapshot s sid).2
  | StoreOp.rename sid n =>
    match renameSnapshot s sid n with
    | Except.ok r => r.2
    | Except.error _ => s
  | StoreOp.clearGroup url => (clearSnapshotsForUrl s url).2
  | StoreOp.clearAll now => (clearAllSnapshots s now).2
  | StoreOp.cleanup now =>
    let r := performAutomaticCleanup s.snapshots s.metadata s.settings now
    { s with snapshots := r.1, metadata := r.2 }

/-- A saved snapshot carries a freshly generated id (what
`generateSnapshotId` provides). -/
def freshFor (s : StoreState) : StoreOp → Bool
  | StoreOp.save _ snap _ => !((allIds s.snapshots).contains snap.id)
  | _ => true

/-- The metadata invariant of the spec: the aggregates match the actual
group contents. -/
abbrev storeInv (s : StoreState) : Prop :=
  s.metadata.totalSize = sumSizes s.snapshots ∧
  s.metadata.snapshotCount = (snapCount s.snapshots : Int)

/-- Store well-formedness: the invariant plus the representation
properties every reachable chrome.storage state has — object keys are
unique, generated snapshot ids are unique, and no empty group entry is
ever stored. -/
abbrev storeWF (s : StoreState) : Prop :=
  storeInv s ∧ (s.snapshots.map Prod.fst).Nodup ∧
  (allIds s.snapshots).Nodup ∧ ∀ e ∈ s.snapshots, e.2 ≠ []

/-- All states reachable from `s` by store operations with fresh ids. -/
inductive Reaches : StoreState → StoreState → Prop where
  | refl (s : StoreState) : Reaches s s
  | step (s t : StoreState) (op : StoreOp) : Reaches s t →
      freshFor t op = true → Reaches s (applyOp t op)

/-!
## Support definitions used by the statements below
-/

/-- The per-character effect of the three sequential text escapes. -/
def escChar (c : Char) : List Char :=
  if c == '&' then "&amp;".data
  else if c == '<' then "&lt;".data
  else if c == '>' then "&gt;".data
  else [c]

/-- The number of snapshots the eviction loop removes: walking the given
(oldest-first) size list, count until the running size is at or below
the 80% target. -/
def evictCount (maxTotalSize cur : Int) : List Int → Nat
  | [] => 0
  | sz :: rest =>
    if leTargetSize maxTotalSize cur then 0
    else evictCount maxTotalSize (cur - sz) rest + 1

/-- Batch form of repeated single-snapshot removal: drop the snapshots
with the given ids from every group, dropping group entries that become
empty. -/
def filterIds (groups : SnapshotGroups) (ids : List String) : SnapshotGroups :=
  groups.filterMap (fun e =>
    let l2 := e.2.filter (fun snap => !(ids.contains snap.id))
    if l2.isEmpty then none else some (e.1, l2))

/-- Sum of `metadata.size` over one group. -/
def groupSizes (l : List Snapshot) : Int :=
  (l.map (fun snap => (snap.metadata.size : Int))).sum

/-- The region `T` (the target tree's node ids) is closed under child
edges. -/
def targetClosed (h : DomHeap) (T : List Nat) : Prop :=
  ∀ t ∈ T, ∀ j ∈ childIdsAt h t, j ∈ T

/-- No live node outside `T` points into `T` (the target tree is a
detached tree of its own: nothing aliases it). -/
def targetIsolated (h : DomHeap) (T : List Nat) : Prop :=
  ∀ i, i < h.nextId → i ∉ T → ∀ j ∈ childIdsAt h i, j ∉ T

/-- All ids of `T` are allocated (below the allocation bound). -/
def targetBelow (h : DomHeap) (T : List Nat) : Prop :=
  ∀ t ∈ T, t < h.nextId

/-- All unallocated ids are empty. -/
def heapBounded (h : DomHeap) : Prop :=
  ∀ i, h.nextId ≤ i → h.nodes i = none

/-- The frame invariant of the morph: a bounded heap with a closed,
isolated, allocated target region. -/
def frameInv (h : DomHeap) (T : List Nat) : Prop :=
  heapBounded h ∧ targetClosed h T ∧ targetIsolated h T ∧ targetBelow h T

/-- One heap evolves from another without touching the target region:
every node of `T` keeps its exact payload, allocation only grows, and
the frame invariant survives. -/
def framePreserved (h h2 : DomHeap) (T : List Nat) : Prop :=
  (∀ t ∈ T, h2.nodes t = h.nodes t) ∧ h.nextId ≤ h2.nextId ∧ frameInv h2 T

/-!
# Theorems

Helper lemmas first, then one named theorem per claim (with witnesses and
counterexamples where required).
-/

theorem flattenPairs_cons (e : String × List Snapshot) (rest : SnapshotGroups) :
    flattenPairs (e :: rest) =
      e.2.map (fun snap => (snap, e.1)) ++ flattenPairs rest := by
  simp [flattenPairs]

theorem flattenPairs_nil : flattenPairs [] = [] := rfl

theorem sumSizes_eq (g : SnapshotGroups) :
    sumSizes g = ((flattenPairs g).map (fun p => (p.1.metadata.size : Int))).sum := rfl

theorem snapCount_nil : snapCount [] = 0 := rfl

theorem sumSizes_cons (e : String × List Snapshot) (rest : SnapshotGroups) :
    sumSizes (e :: rest) = groupSizes e.2 + sumSizes rest := by
  simp only [sumSizes, flattenPairs_cons, List.map_append, List.sum_append,
    groupSizes, List.map_map]
  rfl

theorem snapCount_cons (e : String × List Snapshot) (rest : SnapshotGroups) :
    snapCount (e :: rest) = e.2.length + snapCount rest := by
  simp [snapCount, flattenPairs_cons]

/-!
## Validator lemmas (claim C4)
-/

theorem tooLarge_ne (x other : String) (h29 : other.length < 29) :
    ("DOM content too large: " ++ x ++ " bytes") ≠ other := by
  intro h
  have h2 := congrArg String.length h
  rw [String.length_append, String.length_append] at h2
  have e1 : ("DOM content too large: " : String).length = 23 := rfl
  have e2 : (" bytes" : String).length = 6 := rfl
  omega

/-- C4 (amended): `validateDOMContent` reports "Missing HTML root
element" exactly when the content does not contain `<html` as a
**case-sensitive** substring (`String.prototype.includes`), and the
result is valid exactly when the accumulated error list is empty. -/
theorem claim_C4 (c : String) :
    (validateDOMContent c).errors.contains "Missing HTML root element"
      = !(strContains c "<html")
    ∧ (validateDOMContent c).isValid = (validateDOMContent c).errors.isEmpty := by
  constructor
  · unfold validateDOMContent
    have hne : ("Missing HTML root element" ==
        "DOM content too large: " ++ toString (calculateDOMSize c) ++ " bytes") = false := by
      rw [beq_eq_false_iff_ne]
      intro h
      exact tooLarge_ne (toString (calculateDOMSize c)) "Missing HTML root element"
        (by decide) h.symm
    split_ifs <;> simp_all [List.contains, List.elem_cons] <;> split_ifs <;> simp_all
  · rfl

/-- C4 as literally stated is false: `"<HTML></HTML>"` contains `<html`
case-insensitively, yet the validator (whose check is case-sensitive)
still reports the missing-root-element error. -/
theorem claim_C4_counterexample :
    (validateDOMContent "<HTML></HTML>").errors.contains "Missing HTML root element" = true
    ∧ containsCaseInsensitive "<HTML></HTML>" "<html" = true := by
  constructor
  · decide
  · decide

/-!
## Escaping lemmas (claim C6)
-/

theorem replaceChar_append (a b : List Char) (c : Char) (rep : List Char) :
    replaceChar (a ++ b) c rep = replaceChar a c rep ++ replaceChar b c rep := by
  simp [replaceChar]

theorem listEsc_single (c : Char) :
    replaceChar (replaceChar (replaceChar [c] '&' "&amp;".data) '<' "&lt;".data)
      '>' "&gt;".data = escChar c := by
  by_cases h1 : c = '&'
  · subst h1; decide
  · by_cases h2 : c = '<'
    · subst h2; decide
    · by_cases h3 : c = '>'
      · subst h3; decide
      · simp [replaceChar, escChar, h1, h2, h3]

theorem escapeText_data (l : List Char) :
    replaceChar (replaceChar (replaceChar l '&' "&amp;".data) '<' "&lt;".data)
      '>' "&gt;".data = l.flatMap escChar := by
  induction l with
  | nil => rfl
  | cons c rest ih =>
    have hsplit : c :: rest = [c] ++ rest := rfl
    rw [hsplit, replaceChar_append, replaceChar_append, replaceChar_append,
      List.flatMap_append, listEsc_single, ih]
    simp [escChar]

theorem decode_cons_ne (c : Char) (l : List Char) (hc : c ≠ '&') :
    htmlDecodeEntities (c :: l) = c :: htmlDecodeEntities l := by
  simp [htmlDecodeEntities, hc]

theorem decode_escChar (l : List Char) :
    htmlDecodeEntities (l.flatMap escChar) = l := by
  induction l with
  | nil => rfl
  | cons c rest ih =>
    rw [List.flatMap_cons]
    by_cases h1 : c = '&'
    · subst h1
      show htmlDecodeEntities ('&' :: 'a' :: 'm' :: 'p' :: ';' :: rest.flatMap escChar) = _
      rw [htmlDecodeEntities, ih]
    · by_cases h2 : c = '<'
      · subst h2
        show htmlDecodeEntities ('&' :: 'l' :: 't' :: ';' :: rest.flatMap escChar) = _
        rw [htmlDecodeEntities, ih]
      · by_cases h3 : c = '>'
        · subst h3
          show htmlDecodeEntities ('&' :: 'g' :: 't' :: ';' :: rest.flatMap escChar) = _
          rw [htmlDecodeEntities, ih]
        · have he : escChar c = [c] := by simp [escChar, h1, h2, h3]
          rw [he, List.singleton_append, decode_cons_ne c _ h1, ih]

/-- C6: a serialized text node is its content with `&`, `<`, `>`
escaped in that order; entity-decoding the result recovers the original
text exactly; and an escaped attribute value never contains a raw double
quote, so the surrounding `name="value"` syntax cannot be broken. -/
theorem claim_C6 :
    (∀ (options : SerializationOptions) (t : String),
        serializeNode options (DomNode.text t) = escapeText t)
    ∧ (∀ t : String, String.mk (htmlDecodeEntities (escapeText t).data) = t)
    ∧ (∀ v : String, (escapeAttrValue v).data.all (fun c => c != '"') = true)
    ∧ (∀ (n v : String) (rest : List (String × String)),
        serializeAttributes ((n, v) :: rest)
          = " " ++ n ++ "=\"" ++ escapeAttrValue v ++ "\"" ++ serializeAttributes rest) := by
  refine ⟨fun options t => by simp [serializeNode], fun t => ?_, fun v => ?_, fun n v rest => rfl⟩
  · show String.mk (htmlDecodeEntities (String.mk _).data) = t
    rw [show ∀ l : List Char, (String.mk l).data = l from fun _ => rfl]
    rw [escapeText_data, decode_escChar]
  · show (replaceChar v.data _ _).all _ = true
    induction v.data with
    | nil => rfl
    | cons c rest ih =>
      have hsplit : c :: rest = [c] ++ rest := rfl
      rw [hsplit, replaceChar_append, List.all_append, ih]
      by_cases h : c = '"'
      · subst h; decide
      · simp [replaceChar, h]

/-!
## Rename lemmas (claim C5)
-/

theorem renameFirst_found (l : List Snapshot) (sid nm : String)
    (h : l.any (fun snap => snap.id == sid) = true) :
    ∃ s2, (renameFirst l sid nm).find? (fun snap => snap.id == sid) = some s2 ∧
      s2.name = nm := by
  induction l with
  | nil => simp at h
  | cons snap rest ih =>
    by_cases hh : (snap.id == sid) = true
    · refine ⟨{ snap with name := nm }, ?_, rfl⟩
      rw [renameFirst, if_pos hh]
      simp [List.find?, hh]
    · simp only [List.any_cons, hh, Bool.false_or] at h
      obtain ⟨s2, hf, hn⟩ := ih h
      refine ⟨s2, ?_, hn⟩
      rw [renameFirst, if_neg hh]
      simp [List.find?, hh, hf]

theorem renameInGroups_found (groups : SnapshotGroups) (sid nm : String)
    (g2 : SnapshotGroups) (h : renameInGroups groups sid nm = (true, g2)) :
    ∃ p, (flattenPairs g2).find? (fun q => q.1.id == sid) = some p ∧
      p.1.name = nm := by
  induction groups generalizing g2 with
  | nil => simp [renameInGroups] at h
  | cons e rest ih =>
    obtain ⟨url, l⟩ := e
    by_cases ha : l.any (fun snap => snap.id == sid) = true
    · rw [renameInGroups, if_pos ha] at h
      have hg : g2 = (url, renameFirst l sid nm) :: rest := by
        have := congrArg Prod.snd h
        exact this.symm
      subst hg
      obtain ⟨s2, hf, hn⟩ := renameFirst_found l sid nm ha
      refine ⟨(s2, url), ?_, hn⟩
      rw [flattenPairs, List.flatMap_cons, List.find?_append]
      have hmap : List.find? (fun q => q.1.id == sid)
          ((renameFirst l sid nm).map (fun snap => (snap, url))) = some (s2, url) := by
        rw [List.find?_map]
        rw [show ((fun q : Snapshot × String => q.1.id == sid) ∘ fun snap => (snap, url))
          = fun snap : Snapshot => snap.id == sid from rfl, hf]
        rfl
      rw [hmap]
      rfl
    · rw [renameInGroups, if_neg ha] at h
      have hb2 : renameInGroups rest sid nm = (true, (renameInGroups rest sid nm).2) := by
        have h1 := congrArg Prod.fst h
        simp at h1
        exact Prod.ext h1 rfl
      have hg : g2 = (url, l) :: (renameInGroups rest sid nm).2 := by
        have := congrArg Prod.snd h
        exact this.symm
      subst hg
      obtain ⟨p, hf, hn⟩ := ih _ hb2
      refine ⟨p, ?_, hn⟩
      rw [flattenPairs, List.flatMap_cons, List.find?_append]
      have hnone : List.find? (fun q => q.1.id == sid)
          (l.map (fun snap => (snap, url))) = none := by
        rw [List.find?_map]
        have hn2 : List.find? ((fun q : Snapshot × String => q.1.id == sid) ∘
            fun snap => (snap, url)) l = none := by
          rw [List.find?_eq_none]
          intro x hx hpx
          exact absurd (List.any_eq_true.mpr ⟨x, hx, hpx⟩) (by simpa using ha)
        rw [hn2]; rfl
      rw [hnone]
      exact hf

/-- C5 (amended): `renameSnapshot` fails exactly when the new name trims
to the empty string or the *untrimmed* name is longer than 100
characters (the code checks `newName.length` before trimming); any
accepted name is stored in trimmed form on the first snapshot carrying
the id, and the settings/metadata are untouched. -/
theorem claim_C5 (s : StoreState) (sid nm : String) :
    ((∃ e, renameSnapshot s sid nm = Except.error e) ↔
      ((jsTrim nm).length = 0 ∨ 100 < nm.length))
    ∧ (∀ (b : Bool) (s2 : StoreState),
        renameSnapshot s sid nm = Except.ok (b, s2) →
          s2.settings = s.settings ∧ s2.metadata = s.metadata ∧
            (b = true → ∃ snap, getSnapshotById s2 sid = some snap ∧
              snap.name = jsTrim nm)) := by
  constructor
  · constructor
    · rintro ⟨e, he⟩
      unfold renameSnapshot at he
      split_ifs at he with h1 h2
      · rcases Bool.or_eq_true_iff.mp h1 with h | h
        · left
          have hnm : nm = "" := by simpa using h
          subst hnm; rfl
        · left; simpa using h
      · right; simpa using h2
    · intro h
      unfold renameSnapshot
      by_cases h1 : (nm == "" || (jsTrim nm).length == 0) = true
      · rw [if_pos h1]; exact ⟨_, rfl⟩
      · rw [if_neg h1]
        rcases h with h | h
        · exact absurd (by simp [h] : (nm == "" || (jsTrim nm).length == 0) = true) h1
        · rw [if_pos h]
          exact ⟨_, rfl⟩
  · intro b s2 h
    unfold renameSnapshot at h
    split_ifs at h
    injection h with h
    have hb : (renameInGroups s.snapshots sid (jsTrim nm)).1 = b := by
      have := congrArg Prod.fst h
      simpa using this
    have hs2 : s2 = { s with snapshots := (renameInGroups s.snapshots sid (jsTrim nm)).2 } := by
      have := congrArg Prod.snd h
      simpa using this.symm
    subst hs2
    refine ⟨rfl, rfl, ?_⟩
    intro htrue
    have hrg : renameInGroups s.snapshots sid (jsTrim nm)
        = (true, (renameInGroups s.snapshots sid (jsTrim nm)).2) :=
      Prod.ext (hb.trans htrue) rfl
    obtain ⟨p, hf, hn⟩ := renameInGroups_found _ _ _ _ hrg
    exact ⟨p.1, by simp [getSnapshotById, hf], hn⟩

/-- C5 as literally stated is false: a 101-character name that trims to
a single character is rejected by the length check, which runs before
trimming. -/
theorem claim_C5_counterexample :
    renameSnapshot
        { snapshots := [], settings := DEFAULT_SETTINGS, metadata := DEFAULT_METADATA }
        "idX" (String.mk ('a' :: List.replicate 100 ' '))
      = Except.error "Snapshot name cannot exceed 100 characters"
    ∧ (jsTrim (String.mk ('a' :: List.replicate 100 ' '))).length ≤ 100 := by
  constructor
  · rfl
  · decide

/-- Witness for C5: renaming to `"  My Snap  "` succeeds and stores the
trimmed `"My Snap"`. -/
theorem claim_C5_witness :
    ∃ snap,
      getSnapshotById
        { snapshots := [("u",
            [{ id := "id1", timestamp := 1, name := "My Snap", domContent := "d", metadata := { size := 1, pageTitle := "p", viewportWidth := 1, viewportHeight := 1, url := "u" } }])],
          settings := DEFAULT_SETTINGS,
          metadata := { totalSize := 1, snapshotCount := 1, lastCleanup := 0 } }
        "id1" = some snap ∧ snap.name = "My Snap" := by
  have h := (claim_C5
    { snapshots := [("u",
        [{ id := "id1", timestamp := 1, name := "old", domContent := "d", metadata := { size := 1, pageTitle := "p", viewportWidth := 1, viewportHeight := 1, url := "u" } }])],
      settings := DEFAULT_SETTINGS,
      metadata := { totalSize := 1, snapshotCount := 1, lastCleanup := 0 } }
    "id1" "  My Snap  ").2 true
    { snapshots := [("u",
        [{ id := "id1", timestamp := 1, name := "My Snap", domContent := "d", metadata := { size := 1, pageTitle := "p", viewportWidth := 1, viewportHeight := 1, url := "u" } }])],
      settings := DEFAULT_SETTINGS,
      metadata := { totalSize := 1, snapshotCount := 1, lastCleanup := 0 } }
    (by rfl)
  have h2 := h.2.2 rfl
  have ht : jsTrim "  My Snap  " = "My Snap" := by decide
  rw [ht] at h2
  exact h2

/-!
## Clear-all lemmas (claim C9)
-/

theorem mem_length_le_snapCount (g : SnapshotGroups) (e : String × List Snapshot)
    (he : e ∈ g) : e.2.length ≤ snapCount g := by
  induction g with
  | nil => simp at he
  | cons a rest ih =>
    rw [snapCount_cons]
    rcases List.mem_cons.mp he with rfl | hm
    · omega
    · have := ih hm
      omega

theorem getGroup_of_snapCount_zero (g : SnapshotGroups) (h : snapCount g = 0) :
    ∀ key, getGroup g key = [] := by
  intro key
  unfold getGroup
  cases hf : g.find? (fun e => e.1 == key) with
  | none => rfl
  | some e =>
    have he : e ∈ g := List.mem_of_find?_eq_some hf
    have h2 := mem_length_le_snapCount g e he
    have h3 : e.2 = [] := List.length_eq_zero.mp (by omega)
    exact h3

theorem sumSizes_of_snapCount_zero (g : SnapshotGroups) (h : snapCount g = 0) :
    sumSizes g = 0 := by
  have hf : flattenPairs g = [] := List.length_eq_zero.mp h
  rw [sumSizes_eq, hf]
  rfl

/-- C9 (amended): `clearAllSnapshots` returns the number of snapshots
that existed, afterwards the usage read reports zero size and zero
count, every group key yields an empty list, and the settings are kept;
the `lastCleanup` timestamp is recorded **when at least one snapshot
existed** — on an already-empty store the operation is a no-op and the
old timestamp survives. -/
theorem claim_C9 (s : StoreState) (now : Nat) (hinv : storeInv s) :
    (clearAllSnapshots s now).1 = snapCount s.snapshots
    ∧ (getStorageInfo (clearAllSnapshots s now).2).totalSize = 0
    ∧ (getStorageInfo (clearAllSnapshots s now).2).snapshotCount = 0
    ∧ (∀ key, getSnapshotsForUrl (clearAllSnapshots s now).2 key = [])
    ∧ (clearAllSnapshots s now).2.settings = s.settings
    ∧ (0 < (clearAllSnapshots s now).1 →
        (clearAllSnapshots s now).2.metadata.lastCleanup = now) := by
  unfold clearAllSnapshots
  by_cases h : snapCount s.snapshots > 0
  · rw [if_pos h]
    exact ⟨rfl, rfl, rfl, fun key => rfl, rfl, fun _ => rfl⟩
  · rw [if_neg h]
    have h0 : snapCount s.snapshots = 0 := by omega
    refine ⟨h0.symm, ?_, ?_, ?_, rfl, by omega⟩
    · show s.metadata.totalSize = 0
      rw [hinv.1, sumSizes_of_snapCount_zero _ h0]
    · show s.metadata.snapshotCount = 0
      rw [hinv.2, h0]
      rfl
    · intro key
      exact getGroup_of_snapCount_zero _ h0 key

/-- C9 as literally stated is false: on an empty store `clearAllSnapshots`
does not record the cleanup timestamp (the write is skipped when nothing
was deleted). -/
theorem claim_C9_counterexample :
    ((clearAllSnapshots
        { snapshots := [], settings := DEFAULT_SETTINGS, metadata := DEFAULT_METADATA }
        5).2.metadata.lastCleanup == 5) = false := by
  rfl

/-- Witness for C9 on a store holding one snapshot. -/
theorem claim_C9_witness :
    (clearAllSnapshots
        { snapshots := [("u",
            [{ id := "i1", timestamp := 2, name := "n", domContent := "d", metadata := { size := 3, pageTitle := "p", viewportWidth := 1, viewportHeight := 1, url := "u" } }])],
          settings := DEFAULT_SETTINGS,
          metadata := { totalSize := 3, snapshotCount := 1, lastCleanup := 0 } }
        7).2.metadata.lastCleanup = 7 :=
  (claim_C9
    { snapshots := [("u",
        [{ id := "i1", timestamp := 2, name := "n", domContent := "d", metadata := { size := 3, pageTitle := "p", viewportWidth := 1, viewportHeight := 1, url := "u" } }])],
      settings := DEFAULT_SETTINGS,
      metadata := { totalSize := 3, snapshotCount := 1, lastCleanup := 0 } }
    7 (by constructor <;> decide)).2.2.2.2.2 (by decide)

/-- C8: when the live node is already structurally and content equal to
the target (`Node.isEqualNode`), `morphElement` returns immediately: the
live tree is unchanged and the mutation count is zero. -/
theorem claim_C8 (live target : DomNode) (h : isEqualNode live target = true) :
    morphElement live target = (live, 0) := by
  unfold morphElement
  rw [if_pos h]

/-- Witness for C8 on a concrete pair of equal trees. -/
theorem claim_C8_witness :
    morphElement
        (DomNode.element "DIV" [("a", "1")] [DomNode.text "x"])
        (DomNode.element "DIV" [("a", "1")] [DomNode.text "x"])
      = (DomNode.element "DIV" [("a", "1")] [DomNode.text "x"], 0) :=
  claim_C8 (DomNode.element "DIV" [("a", "1")] [DomNode.text "x"])
    (DomNode.element "DIV" [("a", "1")] [DomNode.text "x"]) (by decide)

-- Batch A: setGroup/getGroup lemmas

theorem setGroup_decomp (g : SnapshotGroups) (key : String) (l : List Snapshot) :
    ((∀ e ∈ g, e.1 ≠ key) ∧ setGroup g key l = g ++ [(key, l)] ∧ getGroup g key = [])
    ∨ (∃ pre l0 post, g = pre ++ (key, l0) :: post ∧ (∀ e ∈ pre, e.1 ≠ key) ∧
        setGroup g key l = pre ++ (key, l) :: post ∧ getGroup g key = l0) := by
  induction g with
  | nil =>
    left
    exact ⟨by simp, rfl, rfl⟩
  | cons a rest ih =>
    by_cases h : (a.1 == key) = true
    · right
      have hk : a.1 = key := by simpa using h
      refine ⟨[], a.2, rest, ?_, by simp, ?_, ?_⟩
      · simp [← hk]
      · rw [setGroup, if_pos h]
        simp
      · unfold getGroup
        simp [List.find?, h]
    · rcases ih with ⟨hne, hset, hget⟩ | ⟨pre, l0, post, hg, hpre, hset, hget⟩
      · left
        refine ⟨?_, ?_, ?_⟩
        · intro e he
          rcases List.mem_cons.mp he with rfl | hm
          · simpa using h
          · exact hne e hm
        · rw [setGroup, if_neg h, hset]
          rfl
        · unfold getGroup
          unfold getGroup at hget
          simp only [List.find?, h]
          exact hget
      · right
        refine ⟨a :: pre, l0, post, by rw [hg]; rfl, ?_, ?_, ?_⟩
        · intro e he
          rcases List.mem_cons.mp he with rfl | hm
          · simpa using h
          · exact hpre e hm
        · rw [setGroup, if_neg h, hset]
          rfl
        · unfold getGroup
          unfold getGroup at hget
          simp only [List.find?, h]
          exact hget

theorem flattenPairs_append (a b : SnapshotGroups) :
    flattenPairs (a ++ b) = flattenPairs a ++ flattenPairs b := by
  simp [flattenPairs]

theorem sumSizes_append (a b : SnapshotGroups) :
    sumSizes (a ++ b) = sumSizes a + sumSizes b := by
  simp [sumSizes, flattenPairs_append]

theorem snapCount_append (a b : SnapshotGroups) :
    snapCount (a ++ b) = snapCount a + snapCount b := by
  simp [snapCount, flattenPairs_append]

theorem groupSizes_entry (url : String) (l : List Snapshot) (rest : SnapshotGroups) :
    sumSizes ((url, l) :: rest) = groupSizes l + sumSizes rest :=
  sumSizes_cons (url, l) rest

theorem sumSizes_setGroup (g : SnapshotGroups) (key : String) (l : List Snapshot) :
    sumSizes (setGroup g key l) + groupSizes (getGroup g key)
      = sumSizes g + groupSizes l := by
  rcases setGroup_decomp g key l with ⟨_, hset, hget⟩ | ⟨pre, l0, post, hg, _, hset, hget⟩
  · rw [hset, hget, sumSizes_append]
    have : sumSizes [(key, l)] = groupSizes l := by
      rw [sumSizes_cons]
      show groupSizes l + sumSizes [] = groupSizes l
      simp [sumSizes, flattenPairs]
    rw [this]
    show sumSizes g + groupSizes l + groupSizes [] = sumSizes g + groupSizes l
    simp [groupSizes]
  · rw [hset, hget, hg, sumSizes_append, sumSizes_append, sumSizes_cons, sumSizes_cons]
    ring

theorem snapCount_setGroup (g : SnapshotGroups) (key : String) (l : List Snapshot) :
    snapCount (setGroup g key l) + (getGroup g key).length
      = snapCount g + l.length := by
  rcases setGroup_decomp g key l with ⟨_, hset, hget⟩ | ⟨pre, l0, post, hg, _, hset, hget⟩
  · rw [hset, hget, snapCount_append]
    have : snapCount [(key, l)] = l.length := by
      rw [snapCount_cons]; simp [snapCount, flattenPairs]
    rw [this]
    simp
  · rw [hset, hget, hg, snapCount_append, snapCount_append, snapCount_cons, snapCount_cons]
    dsimp only
    omega

theorem getGroup_setGroup (g : SnapshotGroups) (key : String) (l : List Snapshot) :
    getGroup (setGroup g key l) key = l := by
  induction g with
  | nil =>
    unfold setGroup getGroup
    simp [List.find?]
  | cons a rest ih =>
    by_cases h : (a.1 == key) = true
    · rw [setGroup, if_pos h]
      unfold getGroup
      simp [List.find?]
    · rw [setGroup, if_neg h]
      unfold getGroup
      simp only [List.find?, h]
      exact ih

-- sort lemmas + keys/ids lemmas

theorem insertByTimestamp_perm (p : Snapshot × String) (l : List (Snapshot × String)) :
    List.Perm (insertByTimestamp p l) (p :: l) := by
  induction l with
  | nil => rfl
  | cons q rest ih =>
    rw [insertByTimestamp]
    by_cases h : q.1.timestamp < p.1.timestamp
    · rw [if_pos h]
      exact List.Perm.trans (List.Perm.cons q ih) (List.Perm.swap p q rest)
    · rw [if_neg h]

theorem sortByTimestamp_perm (l : List (Snapshot × String)) :
    List.Perm (sortByTimestamp l) l := by
  induction l with
  | nil => rfl
  | cons p rest ih =>
    rw [sortByTimestamp]
    exact List.Perm.trans (insertByTimestamp_perm p _) (List.Perm.cons p ih)

theorem insertByTimestamp_sorted (p : Snapshot × String) (l : List (Snapshot × String))
    (h : List.Sorted (fun a b : Snapshot × String => a.1.timestamp ≤ b.1.timestamp) l) :
    List.Sorted (fun a b : Snapshot × String => a.1.timestamp ≤ b.1.timestamp)
      (insertByTimestamp p l) := by
  induction l with
  | nil => simp [insertByTimestamp]
  | cons q rest ih =>
    rw [insertByTimestamp]
    rw [List.sorted_cons] at h
    by_cases hlt : q.1.timestamp < p.1.timestamp
    · rw [if_pos hlt]
      rw [List.sorted_cons]
      refine ⟨?_, ih h.2⟩
      intro b hb
      have hb2 := (insertByTimestamp_perm p rest).mem_iff.mp hb
      rcases List.mem_cons.mp hb2 with rfl | hm
      · omega
      · exact h.1 b hm
    · rw [if_neg hlt]
      rw [List.sorted_cons]
      refine ⟨?_, List.sorted_cons.mpr h⟩
      intro b hb
      rcases List.mem_cons.mp hb with rfl | hm
      · omega
      · have := h.1 b hm
        omega

theorem sortByTimestamp_sorted (l : List (Snapshot × String)) :
    List.Sorted (fun a b : Snapshot × String => a.1.timestamp ≤ b.1.timestamp)
      (sortByTimestamp l) := by
  induction l with
  | nil => simp [sortByTimestamp]
  | cons p rest ih =>
    rw [sortByTimestamp]
    exact insertByTimestamp_sorted p _ ih

-- C2 support lemmas

theorem removeFirstById_length (l : List Snapshot) (sid : String)
    (r : Snapshot × List Snapshot) (h : removeFirstById l sid = some r) :
    r.2.length + 1 = l.length := by
  induction l generalizing r with
  | nil => simp [removeFirstById] at h
  | cons snap rest ih =>
    rw [removeFirstById] at h
    by_cases hh : (snap.id == sid) = true
    · rw [if_pos hh] at h
      injection h with h
      rw [← h]
      simp
    · rw [if_neg hh] at h
      cases hr : removeFirstById rest sid with
      | none => rw [hr] at h; simp at h
      | some r0 =>
        rw [hr] at h
        injection h with h
        have := ih r0 hr
        rw [← h]
        simp
        omega

theorem getGroup_not_mem (g : SnapshotGroups) (key : String)
    (h : key ∉ g.map Prod.fst) : getGroup g key = [] := by
  unfold getGroup
  cases hf : g.find? (fun e => e.1 == key) with
  | none => rfl
  | some e =>
    exfalso
    have he : e ∈ g := List.mem_of_find?_eq_some hf
    have hk := List.find?_some hf
    simp only [beq_iff_eq] at hk
    exact h (by
      rw [List.mem_map]
      exact ⟨e, he, hk⟩)

theorem getGroup_cons_self (u key : String) (l : List Snapshot) (rest : SnapshotGroups)
    (h : (u == key) = true) : getGroup ((u, l) :: rest) key = l := by
  unfold getGroup
  simp [List.find?, h]

theorem getGroup_cons_ne (u key : String) (l : List Snapshot) (rest : SnapshotGroups)
    (h : (u == key) = false) : getGroup ((u, l) :: rest) key = getGroup rest key := by
  unfold getGroup
  simp only [List.find?, h]

theorem removeSnap_keys_sublist (g : SnapshotGroups) (url sid : String)
    (r : Snapshot × SnapshotGroups) (h : removeSnapFromGroups g url sid = some r) :
    List.Sublist (r.2.map Prod.fst) (g.map Prod.fst) := by
  induction g generalizing r with
  | nil => simp [removeSnapFromGroups] at h
  | cons e rest ih =>
    obtain ⟨u, l⟩ := e
    rw [removeSnapFromGroups] at h
    by_cases hu : (u == url) = true
    · rw [if_pos hu] at h
      have hu2 : u = url := by simpa using hu
      subst hu2
      cases hr : removeFirstById l sid with
      | none => rw [hr] at h; simp at h
      | some r0 =>
        rw [hr] at h
        injection h with h
        rw [← h]
        by_cases he : r0.2.isEmpty = true
        · rw [if_pos he]
          simp only [List.map_cons]
          exact List.sublist_cons_self _ _
        · rw [if_neg he]
          simp
    · rw [if_neg hu] at h
      cases hr : removeSnapFromGroups rest url sid with
      | none => rw [hr] at h; simp at h
      | some r0 =>
        rw [hr] at h
        injection h with h
        rw [← h]
        simp only [List.map_cons]
        exact List.Sublist.cons₂ _ (ih r0 hr)

theorem removeSnap_getGroup_le (g : SnapshotGroups) (url sid : String)
    (hkeys : (g.map Prod.fst).Nodup)
    (r : Snapshot × SnapshotGroups) (h : removeSnapFromGroups g url sid = some r) :
    ∀ key, (getGroup r.2 key).length ≤ (getGroup g key).length := by
  induction g generalizing r with
  | nil => simp [removeSnapFromGroups] at h
  | cons e rest ih =>
    obtain ⟨u, l⟩ := e
    intro key
    rw [List.map_cons, List.nodup_cons] at hkeys
    rw [removeSnapFromGroups] at h
    by_cases hu : (u == url) = true
    · rw [if_pos hu] at h
      have hu2 : u = url := by simpa using hu
      subst hu2
      cases hr : removeFirstById l sid with
      | none => rw [hr] at h; simp at h
      | some r0 =>
        rw [hr] at h
        injection h with h
        have hlen := removeFirstById_length l sid r0 hr
        rw [← h]
        by_cases hk : (u == key) = true
        · rw [getGroup_cons_self _ _ _ _ hk]
          have hkey : u = key := by simpa using hk
          by_cases he : r0.2.isEmpty = true
          · rw [if_pos he]
            rw [getGroup_not_mem rest key (hkey ▸ hkeys.1)]
            simp
          · rw [if_neg he, getGroup_cons_self _ _ _ _ hk]
            omega
        · have hkf : (u == key) = false := by simpa using hk
          rw [getGroup_cons_ne _ _ _ _ hkf]
          by_cases he : r0.2.isEmpty = true
          · rw [if_pos he]
          · rw [if_neg he, getGroup_cons_ne _ _ _ _ hkf]
    · rw [if_neg hu] at h
      cases hr : removeSnapFromGroups rest url sid with
      | none => rw [hr] at h; simp at h
      | some r0 =>
        rw [hr] at h
        injection h with h
        rw [← h]
        by_cases hk : (u == key) = true
        · rw [getGroup_cons_self _ _ _ _ hk, getGroup_cons_self _ _ _ _ hk]
        · have hkf : (u == key) = false := by simpa using hk
          rw [getGroup_cons_ne _ _ _ _ hkf, getGroup_cons_ne _ _ _ _ hkf]
          exact ih hkeys.2 r0 hr key

theorem cleanupLoop_groups (maxT : Int) (l : List (Snapshot × String))
    (g : SnapshotGroups) (cur : Int) (rem : Nat)
    (hkeys : (g.map Prod.fst).Nodup) :
    ((cleanupLoop maxT l g cur rem).1.map Prod.fst).Nodup ∧
    ∀ key, (getGroup (cleanupLoop maxT l g cur rem).1 key).length
      ≤ (getGroup g key).length := by
  induction l generalizing g cur rem with
  | nil => exact ⟨hkeys, fun key => le_rfl⟩
  | cons p rest ih =>
    rw [cleanupLoop]
    by_cases ht : leTargetSize maxT cur = true
    · rw [if_pos ht]
      exact ⟨hkeys, fun key => le_rfl⟩
    · rw [if_neg ht]
      cases hr : removeSnapFromGroups g p.2 p.1.id with
      | none => exact ih g cur rem hkeys
      | some r =>
        have hsub := removeSnap_keys_sublist g p.2 p.1.id r hr
        have hk2 : (r.2.map Prod.fst).Nodup := List.Nodup.sublist hsub hkeys
        obtain ⟨ha, hb⟩ := ih r.2 (cur - p.1.metadata.size) (rem + 1) hk2
        refine ⟨ha, fun key => ?_⟩
        exact le_trans (hb key) (removeSnap_getGroup_le g p.2 p.1.id hkeys r hr key)

theorem keys_setGroup_nodup (g : SnapshotGroups) (key : String) (l : List Snapshot)
    (hkeys : (g.map Prod.fst).Nodup) :
    ((setGroup g key l).map Prod.fst).Nodup := by
  rcases setGroup_decomp g key l with ⟨hne, hset, _⟩ | ⟨pre, l0, post, hg, _, hset, _⟩
  · rw [hset, List.map_append]
    rw [List.nodup_append]
    refine ⟨hkeys, by simp, ?_⟩
    intro x hx
    simp only [List.map_cons, List.map_nil, List.mem_cons, List.not_mem_nil, or_false]
    intro hxk
    subst hxk
    obtain ⟨e, he, hek⟩ := List.mem_map.mp hx
    exact hne e he hek
  · have : (setGroup g key l).map Prod.fst = g.map Prod.fst := by
      rw [hset, hg]
      simp
    rw [this]
    exact hkeys

-- save bound lemma + C2

theorem saveSnapshot_group_bound (t : StoreState) (key2 : String) (d : Snapshot)
    (now2 : Nat) (hkeys : (t.snapshots.map Prod.fst).Nodup)
    (hmax : 1 ≤ t.settings.maxSnapshotsPerUrl)
    (hlen : (getGroup t.snapshots key2).length = t.settings.maxSnapshotsPerUrl) :
    (getGroup (saveSnapshot t key2 d now2).2.snapshots key2).length
      ≤ t.settings.maxSnapshotsPerUrl := by
  unfold saveSnapshot
  cases hG : getGroup t.snapshots key2 with
  | nil =>
    rw [hG] at hlen
    simp at hlen
    omega
  | cons oldest rest0 =>
    rw [hG] at hlen
    have hge : (oldest :: rest0).length ≥ t.settings.maxSnapshotsPerUrl := by omega
    dsimp only
    rw [if_pos hge]
    dsimp only
    set snapshots2 := setGroup t.snapshots key2 (rest0 ++ [d]) with hs2
    have hkeys2 : (snapshots2.map Prod.fst).Nodup := keys_setGroup_nodup _ _ _ hkeys
    have hgot : getGroup snapshots2 key2 = rest0 ++ [d] := getGroup_setGroup _ _ _
    have hlen2 : (getGroup snapshots2 key2).length = t.settings.maxSnapshotsPerUrl := by
      rw [hgot]
      simp at hlen ⊢
      omega
    by_cases hover : t.metadata.totalSize - oldest.metadata.size + d.metadata.size
        > t.settings.maxTotalSize
    · rw [if_pos hover]
      dsimp only [performAutomaticCleanup]
      have := (cleanupLoop_groups t.settings.maxTotalSize
        (sortByTimestamp (flattenPairs snapshots2)) snapshots2
        (t.metadata.totalSize - oldest.metadata.size + d.metadata.size) 0 hkeys2).2 key2
      rw [hlen2] at this
      exact this
    · rw [if_neg hover]
      rw [hlen2]

/-- C2 (amended): with `maxSnapshotsPerUrl = 2` and a group currently
holding `[a, b]` (insertion order), saving `c` evicts exactly the
insertion-oldest member `a` (regardless of timestamps), leaves `[b, c]`,
and the aggregates reflect only the survivors; in general — provided the
per-key maximum is at least 1 — saving into a group at the maximum never
leaves it above the maximum.  (With a per-key maximum of 0 the code
grows the group past the maximum, see the counterexample.) -/
theorem claim_C2 (s : StoreState) (key : String) (a b c : Snapshot) (now : Nat)
    (hinv : storeInv s)
    (h2 : s.settings.maxSnapshotsPerUrl = 2)
    (hg : getGroup s.snapshots key = [a, b])
    (hnc : s.metadata.totalSize - a.metadata.size + c.metadata.size
      ≤ s.settings.maxTotalSize) :
    getSnapshotsForUrl (saveSnapshot s key c now).2 key = [b, c]
    ∧ (saveSnapshot s key c now).2.metadata.totalSize
        = s.metadata.totalSize - a.metadata.size + c.metadata.size
    ∧ (saveSnapshot s key c now).2.metadata.snapshotCount = s.metadata.snapshotCount
    ∧ storeInv (saveSnapshot s key c now).2
    ∧ (∀ (t : StoreState) (key2 : String) (d : Snapshot) (now2 : Nat),
        storeWF t → 1 ≤ t.settings.maxSnapshotsPerUrl →
        (getGroup t.snapshots key2).length = t.settings.maxSnapshotsPerUrl →
        (getSnapshotsForUrl (saveSnapshot t key2 d now2).2 key2).length
          ≤ t.settings.maxSnapshotsPerUrl) := by
  have hsave : (saveSnapshot s key c now).2 =
      { snapshots := setGroup s.snapshots key ([b] ++ [c]),
        settings := s.settings,
        metadata :=
          { totalSize := s.metadata.totalSize - a.metadata.size + c.metadata.size,
            snapshotCount := s.metadata.snapshotCount - 1 + 1,
            lastCleanup := s.metadata.lastCleanup } } := by
    unfold saveSnapshot
    rw [hg]
    have hge : ([a, b] : List Snapshot).length ≥ s.settings.maxSnapshotsPerUrl := by
      rw [h2]
      simp
    dsimp only
    rw [if_pos hge]
    dsimp only
    rw [if_neg (by omega : ¬ s.metadata.totalSize - a.metadata.size + c.metadata.size
      > s.settings.maxTotalSize)]
  refine ⟨?_, ?_, ?_, ?_, ?_⟩
  · rw [hsave]
    show getGroup (setGroup s.snapshots key ([b] ++ [c])) key = [b, c]
    rw [getGroup_setGroup]
    rfl
  · rw [hsave]
  · rw [hsave]
    show s.metadata.snapshotCount - 1 + 1 = s.metadata.snapshotCount
    omega
  · rw [hsave]
    constructor
    · show s.metadata.totalSize - a.metadata.size + c.metadata.size
        = sumSizes (setGroup s.snapshots key ([b] ++ [c]))
      have h1 := sumSizes_setGroup s.snapshots key ([b] ++ [c])
      rw [hg] at h1
      have h2a : groupSizes [a, b] = (a.metadata.size : Int) + b.metadata.size := by
        simp [groupSizes]
      have h2b : groupSizes ([b] ++ [c]) = (b.metadata.size : Int) + c.metadata.size := by
        simp [groupSizes]
      rw [h2a, h2b] at h1
      rw [hinv.1]
      omega
    · show s.metadata.snapshotCount - 1 + 1
        = ((snapCount (setGroup s.snapshots key ([b] ++ [c]))) : Int)
      have h1 := snapCount_setGroup s.snapshots key ([b] ++ [c])
      rw [hg] at h1
      simp only [List.length_cons, List.length_append, List.length_nil] at h1
      have h3 : snapCount (setGroup s.snapshots key ([b] ++ [c])) = snapCount s.snapshots := by
        omega
      rw [h3, ← hinv.2]
      omega
  · intro t key2 d now2 hwf hmax hlen
    exact saveSnapshot_group_bound t key2 d now2 hwf.2.1 hmax hlen

/-- C2 as literally stated is false in the degenerate configuration
`maxSnapshotsPerUrl = 0`: the empty group is at the maximum, yet saving
grows it to 1 (`shift()` on an empty array is a silent no-op). -/
theorem claim_C2_counterexample :
    ({ snapshots := [],
       settings := { maxSnapshotsPerUrl := 0, autoCleanup := true, maxTotalSize := 8 * 1024 * 1024 },
       metadata := DEFAULT_METADATA } : StoreState).settings.maxSnapshotsPerUrl
      < (getSnapshotsForUrl
          (saveSnapshot
            { snapshots := [],
              settings := { maxSnapshotsPerUrl := 0, autoCleanup := true, maxTotalSize := 8 * 1024 * 1024 },
              metadata := DEFAULT_METADATA }
            "u"
            { id := "i1", timestamp := 1, name := "n", domContent := "d", metadata := { size := 1, pageTitle := "p", viewportWidth := 1, viewportHeight := 1, url := "u" } }
            0).2 "u").length := by
  decide

/-- Witness for C2 on a concrete two-snapshot group. -/
theorem claim_C2_witness :
    getSnapshotsForUrl
        (saveSnapshot
          { snapshots := [("u",
              [{ id := "i1", timestamp := 1, name := "n1", domContent := "d", metadata := { size := 1, pageTitle := "p", viewportWidth := 1, viewportHeight := 1, url := "u" } },
               { id := "i2", timestamp := 2, name := "n2", domContent := "d", metadata := { size := 2, pageTitle := "p", viewportWidth := 1, viewportHeight := 1, url := "u" } }])],
            settings := { maxSnapshotsPerUrl := 2, autoCleanup := true, maxTotalSize := 8 * 1024 * 1024 },
            metadata := { totalSize := 3, snapshotCount := 2, lastCleanup := 0 } }
          "u"
          { id := "i3", timestamp := 3, name := "n3", domContent := "d", metadata := { size := 3, pageTitle := "p", viewportWidth := 1, viewportHeight := 1, url := "u" } }
          9).2 "u"
      = [{ id := "i2", timestamp := 2, name := "n2", domContent := "d", metadata := { size := 2, pageTitle := "p", viewportWidth := 1, viewportHeight := 1, url := "u" } },
         { id := "i3", timestamp := 3, name := "n3", domContent := "d", metadata := { size := 3, pageTitle := "p", viewportWidth := 1, viewportHeight := 1, url := "u" } }] :=
  (claim_C2
    { snapshots := [("u",
        [{ id := "i1", timestamp := 1, name := "n1", domContent := "d", metadata := { size := 1, pageTitle := "p", viewportWidth := 1, viewportHeight := 1, url := "u" } },
         { id := "i2", timestamp := 2, name := "n2", domContent := "d", metadata := { size := 2, pageTitle := "p", viewportWidth := 1, viewportHeight := 1, url := "u" } }])],
      settings := { maxSnapshotsPerUrl := 2, autoCleanup := true, maxTotalSize := 8 * 1024 * 1024 },
      metadata := { totalSize := 3, snapshotCount := 2, lastCleanup := 0 } }
    "u"
    { id := "i1", timestamp := 1, name := "n1", domContent := "d", metadata := { size := 1, pageTitle := "p", viewportWidth := 1, viewportHeight := 1, url := "u" } }
    { id := "i2", timestamp := 2, name := "n2", domContent := "d", metadata := { size := 2, pageTitle := "p", viewportWidth := 1, viewportHeight := 1, url := "u" } }
    { id := "i3", timestamp := 3, name := "n3", domContent := "d", metadata := { size := 3, pageTitle := "p", viewportWidth := 1, viewportHeight := 1, url := "u" } }
    9 (by constructor <;> decide) (by decide) (by decide) (by decide)).1

-- cleanup machinery: removal = filtering, under id uniqueness

theorem contains_singleton (a x : String) : ([a].contains x) = (x == a) := by
  by_cases h : x = a <;> simp [h, List.contains]

theorem allIds_cons (u : String) (l : List Snapshot) (rest : SnapshotGroups) :
    allIds ((u, l) :: rest) = l.map (fun snap => snap.id) ++ allIds rest := by
  simp [allIds, flattenPairs_cons]

theorem mem_flattenPairs_key (g : SnapshotGroups) (p : Snapshot × String)
    (h : p ∈ flattenPairs g) : p.2 ∈ g.map Prod.fst := by
  induction g with
  | nil => simp [flattenPairs] at h
  | cons e rest ih =>
    rw [flattenPairs_cons, List.mem_append] at h
    rcases h with h | h
    · obtain ⟨snap, _, hp⟩ := List.mem_map.mp h
      rw [List.map_cons, List.mem_cons]
      left
      rw [← hp]
    · rw [List.map_cons, List.mem_cons]
      right
      exact ih h

theorem removeFirstById_of_mem (l : List Snapshot) (snap : Snapshot)
    (hl : (l.map (fun s => s.id)).Nodup) (hm : snap ∈ l) :
    removeFirstById l snap.id
      = some (snap, l.filter (fun x => !(x.id == snap.id))) := by
  induction l with
  | nil => simp at hm
  | cons s0 rest ih =>
    rw [List.map_cons, List.nodup_cons] at hl
    rw [removeFirstById]
    by_cases h0 : (s0.id == snap.id) = true
    · rw [if_pos h0]
      have hid : s0.id = snap.id := by simpa using h0
      have hs : s0 = snap := by
        rcases List.mem_cons.mp hm with rfl | hr
        · rfl
        · exact absurd (List.mem_map.mpr ⟨snap, hr, hid.symm⟩) hl.1
      subst hs
      have hrest : rest.filter (fun x => !(x.id == s0.id)) = rest := by
        rw [List.filter_eq_self]
        intro x hx
        simp only [Bool.not_eq_eq_eq_not, Bool.not_true, beq_eq_false_iff_ne]
        intro hc
        apply hl.1
        rw [List.mem_map]
        exact ⟨x, hx, hc⟩
      simp [List.filter_cons, hrest]
    · rw [if_neg h0]
      have hm2 : snap ∈ rest := by
        rcases List.mem_cons.mp hm with rfl | hr
        · exact absurd (by simp : (snap.id == snap.id) = true) h0
        · exact hr
      rw [ih hl.2 hm2]
      have h0f : (s0.id == snap.id) = false := by simpa using h0
      simp [List.filter_cons, h0f]


theorem flattenPairs_filterIds (g : SnapshotGroups) (ids : List String) :
    flattenPairs (filterIds g ids)
      = (flattenPairs g).filter (fun q => !(ids.contains q.1.id)) := by
  induction g with
  | nil => rfl
  | cons e rest ih =>
    obtain ⟨u, l⟩ := e
    unfold filterIds at ih
    rw [flattenPairs_cons, List.filter_append]
    have hmapfil : (l.map (fun snap => (snap, u))).filter
        (fun q => !(ids.contains q.1.id))
        = (l.filter (fun snap => !(ids.contains snap.id))).map (fun snap => (snap, u)) := by
      rw [List.filter_map]
      rfl
    rw [hmapfil]
    unfold filterIds
    rw [List.filterMap_cons]
    dsimp only
    by_cases he : (l.filter (fun snap => !(ids.contains snap.id))).isEmpty = true
    · rw [if_pos he]
      have : l.filter (fun snap => !(ids.contains snap.id)) = [] :=
        List.isEmpty_iff.mp he
      rw [this]
      simp only [List.map_nil, List.nil_append]
      exact ih
    · rw [if_neg he]
      rw [flattenPairs_cons]
      dsimp only
      rw [ih]

theorem filterIds_keys_sublist (g : SnapshotGroups) (ids : List String) :
    List.Sublist ((filterIds g ids).map Prod.fst) (g.map Prod.fst) := by
  induction g with
  | nil => simp [filterIds]
  | cons e rest ih =>
    unfold filterIds
    rw [List.filterMap_cons]
    dsimp only
    by_cases he : (e.2.filter (fun snap => !(ids.contains snap.id))).isEmpty = true
    · rw [if_pos he]
      rw [List.map_cons]
      exact List.Sublist.cons _ ih
    · rw [if_neg he]
      rw [List.map_cons, List.map_cons]
      exact List.Sublist.cons₂ _ ih

theorem filterIds_no_empty (g : SnapshotGroups) (ids : List String) :
    ∀ e ∈ filterIds g ids, e.2 ≠ [] := by
  intro e he
  unfold filterIds at he
  obtain ⟨a, _, ha⟩ := List.mem_filterMap.mp he
  by_cases h : (a.2.filter (fun snap => !(ids.contains snap.id))).isEmpty = true
  · rw [if_pos h] at ha
    simp at ha
  · rw [if_neg h] at ha
    injection ha with ha
    rw [← ha]
    dsimp only
    intro hc
    rw [hc] at h
    simp at h

theorem filterIds_nil_ids (g : SnapshotGroups) (hne : ∀ e ∈ g, e.2 ≠ []) :
    filterIds g [] = g := by
  induction g with
  | nil => rfl
  | cons e rest ih =>
    unfold filterIds
    rw [List.filterMap_cons]
    dsimp only
    have hf : e.2.filter (fun snap => !(([] : List String).contains snap.id)) = e.2 := by
      rw [List.filter_eq_self]
      intro x _
      rfl
    rw [hf]
    rw [if_neg (by
      intro hc
      exact hne e (List.mem_cons_self e rest) (List.isEmpty_iff.mp hc))]
    have ih2 : filterIds rest [] = rest :=
      ih (fun x hx => hne x (List.mem_cons_of_mem e hx))
    unfold filterIds at ih2
    rw [ih2]

-- cleanup machinery batch 2

theorem filterIds_cons_ids (g : SnapshotGroups) (a : String) (ids : List String) :
    filterIds (filterIds g [a]) ids = filterIds g (a :: ids) := by
  induction g with
  | nil => rfl
  | cons e rest ih =>
    have hfil : ∀ l : List Snapshot,
        (l.filter (fun snap => !(([a] : List String).contains snap.id))).filter
            (fun snap => !(ids.contains snap.id))
          = l.filter (fun snap => !(((a :: ids) : List String).contains snap.id)) := by
      intro l
      rw [List.filter_filter]
      apply List.filter_congr
      intro x _
      rw [contains_singleton]
      show (!(ids.contains x.id) && !(x.id == a)) = !((a :: ids).contains x.id)
      rw [List.contains_cons]
      rw [Bool.not_or]
      rw [Bool.and_comm]
  
    show filterIds (List.filterMap _ (e :: rest)) ids = List.filterMap _ (e :: rest)
    rw [List.filterMap_cons, List.filterMap_cons]
    dsimp only
    by_cases h1 : (e.2.filter (fun snap => !(([a] : List String).contains snap.id))).isEmpty = true
    · rw [if_pos h1]
      have h2 : (e.2.filter (fun snap => !(((a :: ids) : List String).contains snap.id))).isEmpty = true := by
        rw [← hfil]
        rw [List.isEmpty_iff.mp h1]
        rfl
      rw [if_pos h2]
      exact ih
    · rw [if_neg h1]
      by_cases h2 : ((e.2.filter (fun snap => !(([a] : List String).contains snap.id))).filter
          (fun snap => !(ids.contains snap.id))).isEmpty = true
      · have h3 : (e.2.filter (fun snap => !(((a :: ids) : List String).contains snap.id))).isEmpty = true := by
          rw [← hfil]
          exact h2
        rw [if_pos h3]
        unfold filterIds
        rw [List.filterMap_cons]
        dsimp only
        rw [if_pos h2]
        exact ih
      · have h3 : ¬ (e.2.filter (fun snap => !(((a :: ids) : List String).contains snap.id))).isEmpty = true := by
          rw [← hfil]
          exact h2
        rw [if_neg h3]
        unfold filterIds
        rw [List.filterMap_cons]
        dsimp only
        rw [if_neg h2]
        rw [hfil]
        have ih2 := ih
        unfold filterIds at ih2
        rw [ih2]

theorem filterIds_no_occurrence (g : SnapshotGroups) (ids : List String)
    (hne : ∀ e ∈ g, e.2 ≠ [])
    (h : ∀ q ∈ flattenPairs g, ids.contains q.1.id = false) :
    filterIds g ids = g := by
  induction g with
  | nil => rfl
  | cons e rest ih =>
    unfold filterIds
    rw [List.filterMap_cons]
    dsimp only
    have hf : e.2.filter (fun snap => !(ids.contains snap.id)) = e.2 := by
      rw [List.filter_eq_self]
      intro x hx
      have hq : ((x, e.1) : Snapshot × String) ∈ flattenPairs (e :: rest) := by
        rw [flattenPairs_cons, List.mem_append]
        left
        exact List.mem_map.mpr ⟨x, hx, rfl⟩
      rw [h (x, e.1) hq]
      rfl
    rw [hf]
    rw [if_neg (by
      intro hc
      exact hne e (List.mem_cons_self e rest) (List.isEmpty_iff.mp hc))]
    have ih2 := ih (fun x hx => hne x (List.mem_cons_of_mem e hx))
      (fun q hq => h q (by
        rw [flattenPairs_cons, List.mem_append]
        right
        exact hq))
    unfold filterIds at ih2
    rw [ih2]

theorem removeSnap_eq_filterIds (g : SnapshotGroups) (snap : Snapshot) (url : String)
    (hkeys : (g.map Prod.fst).Nodup) (hids : (allIds g).Nodup)
    (hne : ∀ e ∈ g, e.2 ≠ [])
    (hp : ((snap, url) : Snapshot × String) ∈ flattenPairs g) :
    removeSnapFromGroups g url snap.id = some (snap, filterIds g [snap.id]) := by
  induction g with
  | nil => simp [flattenPairs] at hp
  | cons e rest ih =>
    obtain ⟨u, l⟩ := e
    rw [List.map_cons, List.nodup_cons] at hkeys
    rw [allIds_cons, List.nodup_append] at hids
    rw [flattenPairs_cons, List.mem_append] at hp
    rw [removeSnapFromGroups]
    rcases hp with hp | hp
    · obtain ⟨s2, hs2, hpe⟩ := List.mem_map.mp hp
      have hu : u = url := congrArg Prod.snd hpe
      have hsnap : s2 = snap := congrArg Prod.fst hpe
      rw [hsnap] at hs2
      rw [if_pos (by simpa using hu)]
      rw [removeFirstById_of_mem l snap hids.1 hs2]
      have hfil : l.filter (fun x => !(x.id == snap.id))
          = l.filter (fun x => !(([snap.id] : List String).contains x.id)) := by
        apply List.filter_congr
        intro x _
        rw [contains_singleton]
      have hrest : filterIds rest [snap.id] = rest := by
        apply filterIds_no_occurrence
        · intro x hx
          exact hne x (List.mem_cons_of_mem _ hx)
        · intro q hq
          rw [contains_singleton, beq_eq_false_iff_ne]
          intro hc
          exact hids.2.2 (List.mem_map.mpr ⟨snap, hs2, rfl⟩)
            (by rw [← hc]; exact List.mem_map.mpr ⟨q, hq, rfl⟩)
      unfold filterIds
      rw [List.filterMap_cons]
      dsimp only
      rw [← hfil]
      have hrest2 := hrest
      unfold filterIds at hrest2
      rw [hrest2, hu]
      by_cases hemp : (l.filter (fun x => !(x.id == snap.id))).isEmpty = true
      · simp only [hemp]
        simp
      · have hne2 : (l.filter (fun x => !(x.id == snap.id))).isEmpty = false := by
          cases hres : (l.filter (fun x => !(x.id == snap.id))).isEmpty
          · rfl
          · exact absurd hres hemp
        simp only [hne2]
        simp
    · have hukey : url ∈ rest.map Prod.fst := mem_flattenPairs_key rest (snap, url) hp
      have hune : (u == url) = false := by
        rw [beq_eq_false_iff_ne]
        intro hc
        rw [hc] at hkeys
        exact hkeys.1 hukey
      rw [if_neg (by simp [hune])]
      have ihr := ih hkeys.2 hids.2.1 (fun x hx => hne x (List.mem_cons_of_mem _ hx)) hp
      rw [ihr]
      have hfl : l.filter (fun x => !(([snap.id] : List String).contains x.id)) = l := by
        rw [List.filter_eq_self]
        intro x hx
        have hx_ne : x.id ≠ snap.id := by
          intro hc
          exact hids.2.2 (List.mem_map.mpr ⟨x, hx, rfl⟩)
            (by rw [hc]; exact List.mem_map.mpr ⟨(snap, url), hp, rfl⟩)
        simp [contains_singleton, hx_ne]
      unfold filterIds
      rw [List.filterMap_cons]
      dsimp only
      rw [hfl]
      rw [if_neg (by
        intro hc
        exact hne (u, l) (List.mem_cons_self _ _) (List.isEmpty_iff.mp hc))]

-- cleanupLoop characterization

theorem cleanupLoop_spec (maxT : Int) (l : List (Snapshot × String))
    (g : SnapshotGroups) (cur : Int) (rem : Nat)
    (hkeys : (g.map Prod.fst).Nodup) (hids : (allIds g).Nodup)
    (hne : ∀ e ∈ g, e.2 ≠ [])
    (hmem : ∀ p ∈ l, p ∈ flattenPairs g)
    (hl : (l.map (fun p => p.1.id)).Nodup) :
    cleanupLoop maxT l g cur rem =
      (filterIds g (List.map (fun p => p.1.id)
        (List.take (evictCount maxT cur (List.map (fun p => (p.1.metadata.size : Int)) l)) l)),
       cur - (List.map (fun p => (p.1.metadata.size : Int))
        (List.take (evictCount maxT cur (List.map (fun p => (p.1.metadata.size : Int)) l)) l)).sum,
       rem + evictCount maxT cur (List.map (fun p => (p.1.metadata.size : Int)) l)) := by
  induction l generalizing g cur rem with
  | nil =>
    rw [cleanupLoop]
    rw [show evictCount maxT cur (List.map (fun p : Snapshot × String =>
      (p.1.metadata.size : Int)) []) = 0 from rfl]
    simp [filterIds_nil_ids g hne]
  | cons p rest ih =>
    rw [cleanupLoop]
    by_cases ht : leTargetSize maxT cur = true
    · rw [if_pos ht]
      have hk : evictCount maxT cur (List.map (fun q : Snapshot × String =>
          (q.1.metadata.size : Int)) (p :: rest)) = 0 := by
        rw [List.map_cons, evictCount, if_pos ht]
      rw [hk]
      simp [filterIds_nil_ids g hne]
    · rw [if_neg ht]
      have hp : ((p.1, p.2) : Snapshot × String) ∈ flattenPairs g :=
        hmem p (List.mem_cons_self p rest)
      rw [removeSnap_eq_filterIds g p.1 p.2 hkeys hids hne hp]
      dsimp only
      rw [List.map_cons, List.nodup_cons] at hl
      have hflat : flattenPairs (filterIds g [p.1.id])
          = (flattenPairs g).filter (fun q => !(([p.1.id] : List String).contains q.1.id)) :=
        flattenPairs_filterIds g [p.1.id]
      have hkeys2 : ((filterIds g [p.1.id]).map Prod.fst).Nodup :=
        List.Nodup.sublist (filterIds_keys_sublist g [p.1.id]) hkeys
      have hids2 : (allIds (filterIds g [p.1.id])).Nodup := by
        have hsub : List.Sublist (allIds (filterIds g [p.1.id])) (allIds g) := by
          unfold allIds
          rw [hflat]
          exact List.Sublist.map _ (List.filter_sublist _)
        exact List.Nodup.sublist hsub hids
      have hne2 : ∀ e ∈ filterIds g [p.1.id], e.2 ≠ [] := filterIds_no_empty g [p.1.id]
      have hmem2 : ∀ q ∈ rest, q ∈ flattenPairs (filterIds g [p.1.id]) := by
        intro q hq
        rw [hflat, List.mem_filter]
        refine ⟨hmem q (List.mem_cons_of_mem p hq), ?_⟩
        have hqne : q.1.id ≠ p.1.id := by
          intro hc
          apply hl.1
          rw [List.mem_map]
          exact ⟨q, hq, hc⟩
        simp [contains_singleton, hqne]
      have ihr := ih (filterIds g [p.1.id]) (cur - p.1.metadata.size) (rem + 1)
        hkeys2 hids2 hne2 hmem2 hl.2
      rw [ihr]
      rw [filterIds_cons_ids]
      have hk : evictCount maxT cur (List.map (fun q : Snapshot × String =>
            (q.1.metadata.size : Int)) (p :: rest))
          = evictCount maxT (cur - p.1.metadata.size)
              (List.map (fun q : Snapshot × String => (q.1.metadata.size : Int)) rest) + 1 := by
        rw [List.map_cons, evictCount, if_neg ht]
      rw [hk]
      rw [List.take_succ_cons]
      rw [List.map_cons, List.map_cons]
      rw [List.sum_cons]
      refine congrArg₂ Prod.mk rfl (congrArg₂ Prod.mk (by ring) (by omega))

-- evictCount properties and the take/filter identity

theorem evictCount_le_length (maxT cur : Int) (sizes : List Int) :
    evictCount maxT cur sizes ≤ sizes.length := by
  induction sizes generalizing cur with
  | nil => exact Nat.le_refl 0
  | cons sz rest ih =>
    rw [evictCount]
    by_cases h : leTargetSize maxT cur = true
    · rw [if_pos h]
      simp
    · rw [if_neg h]
      have := ih (cur - sz)
      simp
      omega

theorem evictCount_not_le (maxT cur : Int) (sizes : List Int) (j : Nat)
    (hj : j < evictCount maxT cur sizes) :
    leTargetSize maxT (cur - (List.take j sizes).sum) = false := by
  induction sizes generalizing cur j with
  | nil => simp [evictCount] at hj
  | cons sz rest ih =>
    rw [evictCount] at hj
    by_cases h : leTargetSize maxT cur = true
    · rw [if_pos h] at hj
      omega
    · rw [if_neg h] at hj
      cases j with
      | zero =>
        rw [List.take_zero, List.sum_nil]
        have : cur - 0 = cur := by ring
        rw [this]
        cases hres : leTargetSize maxT cur
        · rfl
        · exact absurd hres h
      | succ j2 =>
        rw [List.take_succ_cons, List.sum_cons]
        have harith : cur - (sz + (List.take j2 rest).sum)
            = (cur - sz) - (List.take j2 rest).sum := by ring
        rw [harith]
        exact ih (cur - sz) j2 (by omega)

theorem evictCount_reached (maxT cur : Int) (sizes : List Int)
    (h : evictCount maxT cur sizes < sizes.length) :
    leTargetSize maxT (cur - (List.take (evictCount maxT cur sizes) sizes).sum) = true := by
  induction sizes generalizing cur with
  | nil => simp at h
  | cons sz rest ih =>
    rw [evictCount]
    by_cases hle : leTargetSize maxT cur = true
    · rw [if_pos hle]
      rw [List.take_zero, List.sum_nil]
      have : cur - 0 = cur := by ring
      rw [this]
      exact hle
    · rw [if_neg hle]
      rw [List.take_succ_cons, List.sum_cons]
      have harith : cur - (sz + (List.take (evictCount maxT (cur - sz) rest) rest).sum)
          = (cur - sz) - (List.take (evictCount maxT (cur - sz) rest) rest).sum := by ring
      rw [harith]
      apply ih (cur - sz)
      rw [evictCount, if_neg hle] at h
      simp at h
      omega

theorem filter_take_of_nodup (l : List (Snapshot × String)) (k : Nat)
    (h : (l.map (fun p => p.1.id)).Nodup) :
    l.filter (fun q => ((List.map (fun p => p.1.id) (List.take k l)).contains q.1.id))
      = List.take k l := by
  induction l generalizing k with
  | nil => simp
  | cons q rest ih =>
    rw [List.map_cons, List.nodup_cons] at h
    cases k with
    | zero =>
      rw [List.take_zero, List.map_nil]
      rw [List.filter_eq_nil_iff]
      intro x _
      simp [List.contains]
    | succ k2 =>
      rw [List.take_succ_cons, List.map_cons]
      rw [List.filter_cons]
      have hq : ((q.1.id :: List.map (fun p => p.1.id) (List.take k2 rest)).contains q.1.id)
          = true := by
        rw [List.contains_cons]
        simp
      rw [if_pos hq]
      have hcongr : rest.filter
          (fun x => ((q.1.id :: List.map (fun p => p.1.id) (List.take k2 rest)).contains x.1.id))
          = rest.filter
            (fun x => ((List.map (fun p => p.1.id) (List.take k2 rest)).contains x.1.id)) := by
        apply List.filter_congr
        intro x hx
        rw [List.contains_cons]
        have hxne : (x.1.id == q.1.id) = false := by
          rw [beq_eq_false_iff_ne]
          intro hc
          apply h.1
          rw [List.mem_map]
          exact ⟨x, hx, hc⟩
        rw [hxne]
        rw [Bool.false_or]
      rw [hcongr, ih k2 h.2]

-- performAutomaticCleanup characterization and invariant transfer

theorem performAutomaticCleanup_spec (g : SnapshotGroups) (md : StoreMetadata)
    (st : Settings) (now : Nat)
    (hkeys : (g.map Prod.fst).Nodup) (hids : (allIds g).Nodup)
    (hne : ∀ e ∈ g, e.2 ≠ []) :
    performAutomaticCleanup g md st now =
      (filterIds g (List.map (fun p => p.1.id)
        (List.take (evictCount st.maxTotalSize md.totalSize
          (List.map (fun p => (p.1.metadata.size : Int)) (sortByTimestamp (flattenPairs g))))
          (sortByTimestamp (flattenPairs g)))),
       { totalSize := md.totalSize - (List.map (fun p => (p.1.metadata.size : Int))
          (List.take (evictCount st.maxTotalSize md.totalSize
            (List.map (fun p => (p.1.metadata.size : Int)) (sortByTimestamp (flattenPairs g))))
            (sortByTimestamp (flattenPairs g)))).sum,
         snapshotCount := md.snapshotCount - (evictCount st.maxTotalSize md.totalSize
            (List.map (fun p => (p.1.metadata.size : Int)) (sortByTimestamp (flattenPairs g)))),
         lastCleanup := now }) := by
  unfold performAutomaticCleanup
  dsimp only
  have hmem : ∀ p ∈ sortByTimestamp (flattenPairs g), p ∈ flattenPairs g := by
    intro p hp
    exact (sortByTimestamp_perm (flattenPairs g)).mem_iff.mp hp
  have hids2 : ((flattenPairs g).map (fun p => p.1.id)).Nodup := hids
  have hl : ((sortByTimestamp (flattenPairs g)).map (fun p => p.1.id)).Nodup :=
    (((sortByTimestamp_perm (flattenPairs g)).map (fun p => p.1.id))).nodup_iff.mpr hids2
  rw [cleanupLoop_spec st.maxTotalSize (sortByTimestamp (flattenPairs g)) g
    md.totalSize 0 hkeys hids hne hmem hl]
  simp

theorem sum_sizes_filterIds (g : SnapshotGroups) (k : Nat)
    (hids : (allIds g).Nodup) :
    sumSizes (filterIds g (List.map (fun p => p.1.id)
        (List.take k (sortByTimestamp (flattenPairs g)))))
      = sumSizes g - (List.map (fun p => (p.1.metadata.size : Int))
          (List.take k (sortByTimestamp (flattenPairs g)))).sum
    ∧ (snapCount (filterIds g (List.map (fun p => p.1.id)
        (List.take k (sortByTimestamp (flattenPairs g))))) : Int)
      = (snapCount g : Int)
        - (List.take k (sortByTimestamp (flattenPairs g))).length := by
  have hperm := sortByTimestamp_perm (flattenPairs g)
  have hids2 : ((flattenPairs g).map (fun p => p.1.id)).Nodup := hids
  have hl : ((sortByTimestamp (flattenPairs g)).map (fun p => p.1.id)).Nodup :=
    (hperm.map (fun p => p.1.id)).nodup_iff.mpr hids2
  have hflat := flattenPairs_filterIds g (List.map (fun p => p.1.id)
    (List.take k (sortByTimestamp (flattenPairs g))))
  have hpartition := List.filter_append_perm
    (fun q : Snapshot × String => ((List.map (fun p => p.1.id)
      (List.take k (sortByTimestamp (flattenPairs g)))).contains q.1.id))
    (flattenPairs g)
  have hkeptperm : List.Perm
      ((flattenPairs g).filter (fun q => ((List.map (fun p => p.1.id)
        (List.take k (sortByTimestamp (flattenPairs g)))).contains q.1.id)))
      ((sortByTimestamp (flattenPairs g)).filter (fun q => ((List.map (fun p => p.1.id)
        (List.take k (sortByTimestamp (flattenPairs g)))).contains q.1.id))) :=
    (hperm.filter _).symm
  have hfiltake := filter_take_of_nodup (sortByTimestamp (flattenPairs g)) k hl
  have hkept2 : List.Perm
      ((flattenPairs g).filter (fun q => ((List.map (fun p => p.1.id)
        (List.take k (sortByTimestamp (flattenPairs g)))).contains q.1.id)))
      (List.take k (sortByTimestamp (flattenPairs g))) := by
    rw [hfiltake] at hkeptperm
    exact hkeptperm
  constructor
  · rw [sumSizes_eq, hflat, sumSizes_eq]
    have hsum2 := (hpartition.map (fun p : Snapshot × String =>
      (p.1.metadata.size : Int))).sum_eq
    rw [List.map_append, List.sum_append] at hsum2
    have hremoved := (hkept2.map (fun p : Snapshot × String =>
      (p.1.metadata.size : Int))).sum_eq
    omega
  · rw [snapCount, hflat, snapCount]
    have hlen := hpartition.length_eq
    rw [List.length_append] at hlen
    have hremoved := hkept2.length_eq
    omega

/-- C3: when the automatic cleanup runs (`saveSnapshot` triggers it as
soon as the post-insert total exceeds `maxTotalSize`), it flattens all
snapshots of all groups, sorts them by timestamp ascending (stably), and
removes the oldest one at a time, stopping as soon as the running size
is at or below `0.8 * maxTotalSize` (never earlier); the survivors are
the original groups with exactly the removed prefix filtered out, with
emptied groups deleted, and the metadata records the new size, count and
cleanup timestamp consistently. -/
theorem claim_C3 (s : StoreState) (now : Nat) (hwf : storeWF s) :
    let sorted := sortByTimestamp (flattenPairs s.snapshots)
    let sizes := List.map (fun p => (p.1.metadata.size : Int)) sorted
    let k := evictCount s.settings.maxTotalSize s.metadata.totalSize sizes
    let r := performAutomaticCleanup s.snapshots s.metadata s.settings now
    List.Sorted (fun p q : Snapshot × String => p.1.timestamp ≤ q.1.timestamp) sorted
    ∧ List.Perm sorted (flattenPairs s.snapshots)
    ∧ r.1 = filterIds s.snapshots (List.map (fun p => p.1.id) (List.take k sorted))
    ∧ r.2.totalSize = s.metadata.totalSize - (List.take k sizes).sum
    ∧ r.2.snapshotCount = s.metadata.snapshotCount - k
    ∧ r.2.lastCleanup = now
    ∧ (∀ j, j < k → leTargetSize s.settings.maxTotalSize
        (s.metadata.totalSize - (List.take j sizes).sum) = false)
    ∧ (k < sorted.length → leTargetSize s.settings.maxTotalSize
        (s.metadata.totalSize - (List.take k sizes).sum) = true)
    ∧ r.2.totalSize = sumSizes r.1
    ∧ r.2.snapshotCount = (snapCount r.1 : Int)
    ∧ (∀ e ∈ r.1, e.2 ≠ []) := by
  obtain ⟨hinv, hkeys, hids, hne⟩ := hwf
  intro sorted sizes k r
  have hps := performAutomaticCleanup_spec s.snapshots s.metadata s.settings now
    hkeys hids hne
  have hr1 : r.1 = filterIds s.snapshots (List.map (fun p => p.1.id)
      (List.take k sorted)) := by
    show (performAutomaticCleanup s.snapshots s.metadata s.settings now).1 = _
    rw [hps]
  have hmapsum : List.map (fun p : Snapshot × String => (p.1.metadata.size : Int))
      (List.take k sorted) = List.take k sizes := by
    show _ = List.take k (List.map _ sorted)
    rw [List.map_take]
  have hr2total : r.2.totalSize = s.metadata.totalSize - (List.take k sizes).sum := by
    show (performAutomaticCleanup s.snapshots s.metadata s.settings now).2.totalSize = _
    rw [hps]
    rw [show (({ totalSize := s.metadata.totalSize - (List.map (fun p => (p.1.metadata.size : Int)) (List.take k sorted)).sum, snapshotCount := s.metadata.snapshotCount - (k : Int), lastCleanup := now } : StoreMetadata)).totalSize = s.metadata.totalSize - (List.map (fun p => (p.1.metadata.size : Int)) (List.take k sorted)).sum from rfl]
    rw [hmapsum]
  have hr2count : r.2.snapshotCount = s.metadata.snapshotCount - k := by
    show (performAutomaticCleanup s.snapshots s.metadata s.settings now).2.snapshotCount = _
    rw [hps]
  have hr2last : r.2.lastCleanup = now := by
    show (performAutomaticCleanup s.snapshots s.metadata s.settings now).2.lastCleanup = _
    rw [hps]
  have hklen : k ≤ sorted.length := by
    have := evictCount_le_length s.settings.maxTotalSize s.metadata.totalSize sizes
    have hlen : sizes.length = sorted.length := List.length_map _ _
    omega
  have hsums := sum_sizes_filterIds s.snapshots k hids
  refine ⟨sortByTimestamp_sorted _, sortByTimestamp_perm _, hr1, hr2total, hr2count,
    hr2last, ?_, ?_, ?_, ?_, ?_⟩
  · intro j hj
    exact evictCount_not_le s.settings.maxTotalSize s.metadata.totalSize sizes j hj
  · intro hlt
    apply evictCount_reached s.settings.maxTotalSize s.metadata.totalSize sizes
    rw [List.length_map]
    exact hlt
  · rw [hr2total, hr1]
    rw [hsums.1]
    rw [hinv.1, hmapsum]
  · rw [hr2count, hr1]
    rw [hsums.2]
    rw [hinv.2]
    have htk : (List.take k sorted).length = k := by
      rw [List.length_take]
      omega
    rw [htk]
  · rw [hr1]
    exact filterIds_no_empty _ _

/-- Witness for C3: the spec scenario — `maxTotalSize = 1000`, snapshots
summing to 1200 bytes; eviction removes the timestamp-oldest snapshot
and stops at 800, which is at the 80% target. -/
theorem claim_C3_witness :
    let sorted := sortByTimestamp (flattenPairs ({ snapshots := [("u", [{ id := "i1", timestamp := 3, name := "n1", domContent := "d", metadata := { size := 400, pageTitle := "p", viewportWidth := 1, viewportHeight := 1, url := "u" } }, { id := "i2", timestamp := 1, name := "n2", domContent := "d", metadata := { size := 400, pageTitle := "p", viewportWidth := 1, viewportHeight := 1, url := "u" } }, { id := "i3", timestamp := 2, name := "n3", domContent := "d", metadata := { size := 400, pageTitle := "p", viewportWidth := 1, viewportHeight := 1, url := "u" } }])], settings := { maxSnapshotsPerUrl := 50, autoCleanup := true, maxTotalSize := 1000 }, metadata := { totalSize := 1200, snapshotCount := 3, lastCleanup := 0 } } : StoreState).snapshots)
    let sizes := List.map (fun p => (p.1.metadata.size : Int)) sorted
    let k := evictCount ({ snapshots := [("u", [{ id := "i1", timestamp := 3, name := "n1", domContent := "d", metadata := { size := 400, pageTitle := "p", viewportWidth := 1, viewportHeight := 1, url := "u" } }, { id := "i2", timestamp := 1, name := "n2", domContent := "d", metadata := { size := 400, pageTitle := "p", viewportWidth := 1, viewportHeight := 1, url := "u" } }, { id := "i3", timestamp := 2, name := "n3", domContent := "d", metadata := { size := 400, pageTitle := "p", viewportWidth := 1, viewportHeight := 1, url := "u" } }])], settings := { maxSnapshotsPerUrl := 50, autoCleanup := true, maxTotalSize := 1000 }, metadata := { totalSize := 1200, snapshotCount := 3, lastCleanup := 0 } } : StoreState).settings.maxTotalSize
      ({ snapshots := [("u", [{ id := "i1", timestamp := 3, name := "n1", domContent := "d", metadata := { size := 400, pageTitle := "p", viewportWidth := 1, viewportHeight := 1, url := "u" } }, { id := "i2", timestamp := 1, name := "n2", domContent := "d", metadata := { size := 400, pageTitle := "p", viewportWidth := 1, viewportHeight := 1, url := "u" } }, { id := "i3", timestamp := 2, name := "n3", domContent := "d", metadata := { size := 400, pageTitle := "p", viewportWidth := 1, viewportHeight := 1, url := "u" } }])], settings := { maxSnapshotsPerUrl := 50, autoCleanup := true, maxTotalSize := 1000 }, metadata := { totalSize := 1200, snapshotCount := 3, lastCleanup := 0 } } : StoreState).metadata.totalSize sizes
    let r := performAutomaticCleanup ({ snapshots := [("u", [{ id := "i1", timestamp := 3, name := "n1", domContent := "d", metadata := { size := 400, pageTitle := "p", viewportWidth := 1, viewportHeight := 1, url := "u" } }, { id := "i2", timestamp := 1, name := "n2", domContent := "d", metadata := { size := 400, pageTitle := "p", viewportWidth := 1, viewportHeight := 1, url := "u" } }, { id := "i3", timestamp := 2, name := "n3", domContent := "d", metadata := { size := 400, pageTitle := "p", viewportWidth := 1, viewportHeight := 1, url := "u" } }])], settings := { maxSnapshotsPerUrl := 50, autoCleanup := true, maxTotalSize := 1000 }, metadata := { totalSize := 1200, snapshotCount := 3, lastCleanup := 0 } } : StoreState).snapshots
      ({ snapshots := [("u", [{ id := "i1", timestamp := 3, name := "n1", domContent := "d", metadata := { size := 400, pageTitle := "p", viewportWidth := 1, viewportHeight := 1, url := "u" } }, { id := "i2", timestamp := 1, name := "n2", domContent := "d", metadata := { size := 400, pageTitle := "p", viewportWidth := 1, viewportHeight := 1, url := "u" } }, { id := "i3", timestamp := 2, name := "n3", domContent := "d", metadata := { size := 400, pageTitle := "p", viewportWidth := 1, viewportHeight := 1, url := "u" } }])], settings := { maxSnapshotsPerUrl := 50, autoCleanup := true, maxTotalSize := 1000 }, metadata := { totalSize := 1200, snapshotCount := 3, lastCleanup := 0 } } : StoreState).metadata ({ snapshots := [("u", [{ id := "i1", timestamp := 3, name := "n1", domContent := "d", metadata := { size := 400, pageTitle := "p", viewportWidth := 1, viewportHeight := 1, url := "u" } }, { id := "i2", timestamp := 1, name := "n2", domContent := "d", metadata := { size := 400, pageTitle := "p", viewportWidth := 1, viewportHeight := 1, url := "u" } }, { id := "i3", timestamp := 2, name := "n3", domContent := "d", metadata := { size := 400, pageTitle := "p", viewportWidth := 1, viewportHeight := 1, url := "u" } }])], settings := { maxSnapshotsPerUrl := 50, autoCleanup := true, maxTotalSize := 1000 }, metadata := { totalSize := 1200, snapshotCount := 3, lastCleanup := 0 } } : StoreState).settings 5
    List.Sorted (fun p q : Snapshot × String => p.1.timestamp ≤ q.1.timestamp) sorted
    ∧ List.Perm sorted (flattenPairs ({ snapshots := [("u", [{ id := "i1", timestamp := 3, name := "n1", domContent := "d", metadata := { size := 400, pageTitle := "p", viewportWidth := 1, viewportHeight := 1, url := "u" } }, { id := "i2", timestamp := 1, name := "n2", domContent := "d", metadata := { size := 400, pageTitle := "p", viewportWidth := 1, viewportHeight := 1, url := "u" } }, { id := "i3", timestamp := 2, name := "n3", domContent := "d", metadata := { size := 400, pageTitle := "p", viewportWidth := 1, viewportHeight := 1, url := "u" } }])], settings := { maxSnapshotsPerUrl := 50, autoCleanup := true, maxTotalSize := 1000 }, metadata := { totalSize := 1200, snapshotCount := 3, lastCleanup := 0 } } : StoreState).snapshots)
    ∧ r.1 = filterIds ({ snapshots := [("u", [{ id := "i1", timestamp := 3, name := "n1", domContent := "d", metadata := { size := 400, pageTitle := "p", viewportWidth := 1, viewportHeight := 1, url := "u" } }, { id := "i2", timestamp := 1, name := "n2", domContent := "d", metadata := { size := 400, pageTitle := "p", viewportWidth := 1, viewportHeight := 1, url := "u" } }, { id := "i3", timestamp := 2, name := "n3", domContent := "d", metadata := { size := 400, pageTitle := "p", viewportWidth := 1, viewportHeight := 1, url := "u" } }])], settings := { maxSnapshotsPerUrl := 50, autoCleanup := true, maxTotalSize := 1000 }, metadata := { totalSize := 1200, snapshotCount := 3, lastCleanup := 0 } } : StoreState).snapshots
        (List.map (fun p => p.1.id) (List.take k sorted))
    ∧ r.2.totalSize = ({ snapshots := [("u", [{ id := "i1", timestamp := 3, name := "n1", domContent := "d", metadata := { size := 400, pageTitle := "p", viewportWidth := 1, viewportHeight := 1, url := "u" } }, { id := "i2", timestamp := 1, name := "n2", domContent := "d", metadata := { size := 400, pageTitle := "p", viewportWidth := 1, viewportHeight := 1, url := "u" } }, { id := "i3", timestamp := 2, name := "n3", domContent := "d", metadata := { size := 400, pageTitle := "p", viewportWidth := 1, viewportHeight := 1, url := "u" } }])], settings := { maxSnapshotsPerUrl := 50, autoCleanup := true, maxTotalSize := 1000 }, metadata := { totalSize := 1200, snapshotCount := 3, lastCleanup := 0 } } : StoreState).metadata.totalSize - (List.take k sizes).sum
    ∧ r.2.snapshotCount = ({ snapshots := [("u", [{ id := "i1", timestamp := 3, name := "n1", domContent := "d", metadata := { size := 400, pageTitle := "p", viewportWidth := 1, viewportHeight := 1, url := "u" } }, { id := "i2", timestamp := 1, name := "n2", domContent := "d", metadata := { size := 400, pageTitle := "p", viewportWidth := 1, viewportHeight := 1, url := "u" } }, { id := "i3", timestamp := 2, name := "n3", domContent := "d", metadata := { size := 400, pageTitle := "p", viewportWidth := 1, viewportHeight := 1, url := "u" } }])], settings := { maxSnapshotsPerUrl := 50, autoCleanup := true, maxTotalSize := 1000 }, metadata := { totalSize := 1200, snapshotCount := 3, lastCleanup := 0 } } : StoreState).metadata.snapshotCount - k
    ∧ r.2.lastCleanup = 5
    ∧ (∀ j, j < k → leTargetSize ({ snapshots := [("u", [{ id := "i1", timestamp := 3, name := "n1", domContent := "d", metadata := { size := 400, pageTitle := "p", viewportWidth := 1, viewportHeight := 1, url := "u" } }, { id := "i2", timestamp := 1, name := "n2", domContent := "d", metadata := { size := 400, pageTitle := "p", viewportWidth := 1, viewportHeight := 1, url := "u" } }, { id := "i3", timestamp := 2, name := "n3", domContent := "d", metadata := { size := 400, pageTitle := "p", viewportWidth := 1, viewportHeight := 1, url := "u" } }])], settings := { maxSnapshotsPerUrl := 50, autoCleanup := true, maxTotalSize := 1000 }, metadata := { totalSize := 1200, snapshotCount := 3, lastCleanup := 0 } } : StoreState).settings.maxTotalSize
        (({ snapshots := [("u", [{ id := "i1", timestamp := 3, name := "n1", domContent := "d", metadata := { size := 400, pageTitle := "p", viewportWidth := 1, viewportHeight := 1, url := "u" } }, { id := "i2", timestamp := 1, name := "n2", domContent := "d", metadata := { size := 400, pageTitle := "p", viewportWidth := 1, viewportHeight := 1, url := "u" } }, { id := "i3", timestamp := 2, name := "n3", domContent := "d", metadata := { size := 400, pageTitle := "p", viewportWidth := 1, viewportHeight := 1, url := "u" } }])], settings := { maxSnapshotsPerUrl := 50, autoCleanup := true, maxTotalSize := 1000 }, metadata := { totalSize := 1200, snapshotCount := 3, lastCleanup := 0 } } : StoreState).metadata.totalSize - (List.take j sizes).sum) = false)
    ∧ (k < sorted.length → leTargetSize ({ snapshots := [("u", [{ id := "i1", timestamp := 3, name := "n1", domContent := "d", metadata := { size := 400, pageTitle := "p", viewportWidth := 1, viewportHeight := 1, url := "u" } }, { id := "i2", timestamp := 1, name := "n2", domContent := "d", metadata := { size := 400, pageTitle := "p", viewportWidth := 1, viewportHeight := 1, url := "u" } }, { id := "i3", timestamp := 2, name := "n3", domContent := "d", metadata := { size := 400, pageTitle := "p", viewportWidth := 1, viewportHeight := 1, url := "u" } }])], settings := { maxSnapshotsPerUrl := 50, autoCleanup := true, maxTotalSize := 1000 }, metadata := { totalSize := 1200, snapshotCount := 3, lastCleanup := 0 } } : StoreState).settings.maxTotalSize
        (({ snapshots := [("u", [{ id := "i1", timestamp := 3, name := "n1", domContent := "d", metadata := { size := 400, pageTitle := "p", viewportWidth := 1, viewportHeight := 1, url := "u" } }, { id := "i2", timestamp := 1, name := "n2", domContent := "d", metadata := { size := 400, pageTitle := "p", viewportWidth := 1, viewportHeight := 1, url := "u" } }, { id := "i3", timestamp := 2, name := "n3", domContent := "d", metadata := { size := 400, pageTitle := "p", viewportWidth := 1, viewportHeight := 1, url := "u" } }])], settings := { maxSnapshotsPerUrl := 50, autoCleanup := true, maxTotalSize := 1000 }, metadata := { totalSize := 1200, snapshotCount := 3, lastCleanup := 0 } } : StoreState).metadata.totalSize - (List.take k sizes).sum) = true)
    ∧ r.2.totalSize = sumSizes r.1
    ∧ r.2.snapshotCount = (snapCount r.1 : Int)
    ∧ (∀ e ∈ r.1, e.2 ≠ []) :=
  claim_C3 ({ snapshots := [("u", [{ id := "i1", timestamp := 3, name := "n1", domContent := "d", metadata := { size := 400, pageTitle := "p", viewportWidth := 1, viewportHeight := 1, url := "u" } }, { id := "i2", timestamp := 1, name := "n2", domContent := "d", metadata := { size := 400, pageTitle := "p", viewportWidth := 1, viewportHeight := 1, url := "u" } }, { id := "i3", timestamp := 2, name := "n3", domContent := "d", metadata := { size := 400, pageTitle := "p", viewportWidth := 1, viewportHeight := 1, url := "u" } }])], settings := { maxSnapshotsPerUrl := 50, autoCleanup := true, maxTotalSize := 1000 }, metadata := { totalSize := 1200, snapshotCount := 3, lastCleanup := 0 } } : StoreState) 5 (by
    refine ⟨⟨?_, ?_⟩, ?_, ?_, ?_⟩ <;> decide)

-- delete / sublist machinery

theorem flattenPairs_sublist (g2 g : SnapshotGroups) (h : List.Sublist g2 g) :
    List.Sublist (flattenPairs g2) (flattenPairs g) := by
  induction h with
  | slnil => exact List.Sublist.refl _
  | cons e _ ih =>
    rw [flattenPairs_cons]
    exact List.sublist_append_of_sublist_right ih
  | cons₂ e _ ih =>
    rw [flattenPairs_cons, flattenPairs_cons]
    exact List.Sublist.append (List.Sublist.refl _) ih

theorem removeFirstById_sublist (l : List Snapshot) (sid : String)
    (r : Snapshot × List Snapshot) (h : removeFirstById l sid = some r) :
    List.Sublist r.2 l := by
  induction l generalizing r with
  | nil => simp [removeFirstById] at h
  | cons snap rest ih =>
    rw [removeFirstById] at h
    by_cases hh : (snap.id == sid) = true
    · rw [if_pos hh] at h
      injection h with h
      rw [← h]
      exact List.sublist_cons_self snap rest
    · rw [if_neg hh] at h
      cases hr : removeFirstById rest sid with
      | none => rw [hr] at h; simp at h
      | some r0 =>
        rw [hr] at h
        injection h with h
        rw [← h]
        exact List.Sublist.cons₂ snap (ih r0 hr)

theorem removeFirstById_groupSizes (l : List Snapshot) (sid : String)
    (r : Snapshot × List Snapshot) (h : removeFirstById l sid = some r) :
    groupSizes r.2 = groupSizes l - r.1.metadata.size := by
  induction l generalizing r with
  | nil => simp [removeFirstById] at h
  | cons snap rest ih =>
    rw [removeFirstById] at h
    by_cases hh : (snap.id == sid) = true
    · rw [if_pos hh] at h
      injection h with h
      rw [← h]
      show groupSizes rest = groupSizes (snap :: rest) - snap.metadata.size
      simp [groupSizes]
    · rw [if_neg hh] at h
      cases hr : removeFirstById rest sid with
      | none => rw [hr] at h; simp at h
      | some r0 =>
        rw [hr] at h
        injection h with h
        rw [← h]
        have := ih r0 hr
        show groupSizes (snap :: r0.2) = groupSizes (snap :: rest) - r0.1.metadata.size
        simp only [groupSizes, List.map_cons, List.sum_cons] at this ⊢
        omega

theorem deleteFromGroups_spec (g : SnapshotGroups) (sid : String)
    (r : Snapshot × SnapshotGroups) (h : deleteFromGroups g sid = some r) :
    sumSizes r.2 = sumSizes g - r.1.metadata.size
    ∧ (snapCount r.2 : Int) = (snapCount g : Int) - 1
    ∧ List.Sublist (r.2.map Prod.fst) (g.map Prod.fst)
    ∧ List.Sublist (flattenPairs r.2) (flattenPairs g)
    ∧ ((∀ e ∈ g, e.2 ≠ []) → ∀ e ∈ r.2, e.2 ≠ []) := by
  induction g generalizing r with
  | nil => simp [deleteFromGroups] at h
  | cons e rest ih =>
    obtain ⟨u, l⟩ := e
    rw [deleteFromGroups] at h
    cases hr : removeFirstById l sid with
    | some r0 =>
      rw [hr] at h
      injection h with h
      have hsz := removeFirstById_groupSizes l sid r0 hr
      have hln := removeFirstById_length l sid r0 hr
      have hsub := removeFirstById_sublist l sid r0 hr
      rw [← h]
      dsimp only
      by_cases hemp : r0.2.isEmpty = true
      · rw [if_pos hemp]
        have hr0 : r0.2 = [] := List.isEmpty_iff.mp hemp
        rw [hr0] at hsz hln
        refine ⟨?_, ?_, ?_, ?_, ?_⟩
        · rw [sumSizes_cons]
          dsimp only
          rw [show groupSizes ([] : List Snapshot) = 0 from rfl] at hsz
          omega
        · rw [snapCount_cons]
          simp at hln
          dsimp only
          omega
        · rw [List.map_cons]
          exact List.sublist_cons_self _ _
        · rw [flattenPairs_cons]
          exact List.sublist_append_right _ _
        · intro hne x hx
          exact hne x (List.mem_cons_of_mem _ hx)
      · rw [if_neg hemp]
        refine ⟨?_, ?_, ?_, ?_, ?_⟩
        · rw [sumSizes_cons, sumSizes_cons]
          dsimp only
          omega
        · rw [snapCount_cons, snapCount_cons]
          dsimp only
          omega
        · rw [List.map_cons, List.map_cons]
        · rw [flattenPairs_cons, flattenPairs_cons]
          dsimp only
          exact List.Sublist.append (List.Sublist.map _ hsub) (List.Sublist.refl _)
        · intro hne x hx
          rcases List.mem_cons.mp hx with rfl | hm
          · dsimp only
            intro hc
            rw [hc] at hemp
            simp at hemp
          · exact hne x (List.mem_cons_of_mem _ hm)
    | none =>
      rw [hr] at h
      cases hd : deleteFromGroups rest sid with
      | none => rw [hd] at h; simp at h
      | some r0 =>
        rw [hd] at h
        injection h with h
        obtain ⟨ih1, ih2, ih3, ih4, ih5⟩ := ih r0 hd
        rw [← h]
        refine ⟨?_, ?_, ?_, ?_, ?_⟩
        · rw [sumSizes_cons, sumSizes_cons]
          dsimp only
          omega
        · rw [snapCount_cons, snapCount_cons]
          dsimp only
          push_cast at ih2 ⊢
          omega
        · rw [List.map_cons, List.map_cons]
          exact List.Sublist.cons₂ _ ih3
        · rw [flattenPairs_cons, flattenPairs_cons]
          dsimp only
          exact List.Sublist.append (List.Sublist.refl _) ih4
        · intro hne x hx
          rcases List.mem_cons.mp hx with rfl | hm
          · exact hne _ (List.mem_cons_self _ _)
          · exact ih5 (fun y hy => hne y (List.mem_cons_of_mem _ hy)) x hm

-- rename and clear-group preservation

theorem renameFirst_shape (l : List Snapshot) (sid nm : String) :
    (renameFirst l sid nm).map (fun s => s.id) = l.map (fun s => s.id)
    ∧ groupSizes (renameFirst l sid nm) = groupSizes l
    ∧ (renameFirst l sid nm).length = l.length := by
  induction l with
  | nil => exact ⟨rfl, rfl, rfl⟩
  | cons snap rest ih =>
    rw [renameFirst]
    by_cases h : (snap.id == sid) = true
    · rw [if_pos h]
      refine ⟨?_, ?_, ?_⟩ <;> simp [groupSizes]
    · rw [if_neg h]
      refine ⟨?_, ?_, ?_⟩
      · simp only [List.map_cons, ih.1]
      · simp only [groupSizes, List.map_cons, List.sum_cons] at ih ⊢
        rw [ih.2.1]
      · simp only [List.length_cons, ih.2.2]

theorem renameInGroups_shape (g : SnapshotGroups) (sid nm : String) :
    allIds (renameInGroups g sid nm).2 = allIds g
    ∧ sumSizes (renameInGroups g sid nm).2 = sumSizes g
    ∧ snapCount (renameInGroups g sid nm).2 = snapCount g
    ∧ (renameInGroups g sid nm).2.map Prod.fst = g.map Prod.fst
    ∧ ((∀ e ∈ g, e.2 ≠ []) → ∀ e ∈ (renameInGroups g sid nm).2, e.2 ≠ []) := by
  induction g with
  | nil => exact ⟨rfl, rfl, rfl, rfl, fun h => h⟩
  | cons e rest ih =>
    obtain ⟨u, l⟩ := e
    rw [renameInGroups]
    by_cases h : l.any (fun snap => snap.id == sid) = true
    · rw [if_pos h]
      dsimp only
      obtain ⟨hids, hsz, hlen⟩ := renameFirst_shape l sid nm
      refine ⟨?_, ?_, ?_, ?_, ?_⟩
      · rw [allIds_cons, allIds_cons, hids]
      · rw [sumSizes_cons, sumSizes_cons]
        dsimp only
        rw [hsz]
      · rw [snapCount_cons, snapCount_cons]
        dsimp only
        rw [hlen]
      · rfl
      · intro hne x hx
        rcases List.mem_cons.mp hx with rfl | hm
        · dsimp only
          intro hc
          have := hne (u, l) (List.mem_cons_self _ _)
          apply this
          have : l.length = 0 := by rw [← hlen, hc]; rfl
          exact List.length_eq_zero.mp this
        · exact hne x (List.mem_cons_of_mem _ hm)
    · rw [if_neg h]
      dsimp only
      refine ⟨?_, ?_, ?_, ?_, ?_⟩
      · rw [allIds_cons, allIds_cons, ih.1]
      · rw [sumSizes_cons, sumSizes_cons, ih.2.1]
      · rw [snapCount_cons, snapCount_cons, ih.2.2.1]
      · rw [List.map_cons, List.map_cons, ih.2.2.2.1]
      · intro hne x hx
        rcases List.mem_cons.mp hx with rfl | hm
        · exact hne _ (List.mem_cons_self _ _)
        · exact ih.2.2.2.2 (fun y hy => hne y (List.mem_cons_of_mem _ hy)) x hm

theorem filter_key_shape (g : SnapshotGroups) (key : String)
    (hkeys : (g.map Prod.fst).Nodup) :
    sumSizes (g.filter (fun e => !(e.1 == key)))
        = sumSizes g - groupSizes (getGroup g key)
    ∧ (snapCount (g.filter (fun e => !(e.1 == key))) : Int)
        = (snapCount g : Int) - (getGroup g key).length
    ∧ List.Sublist ((g.filter (fun e => !(e.1 == key))).map Prod.fst) (g.map Prod.fst)
    ∧ List.Sublist (allIds (g.filter (fun e => !(e.1 == key)))) (allIds g)
    ∧ ((∀ e ∈ g, e.2 ≠ []) → ∀ e ∈ g.filter (fun e => !(e.1 == key)), e.2 ≠ []) := by
  have hsubg : List.Sublist (g.filter (fun e => !(e.1 == key))) g := List.filter_sublist g
  have hsubf : List.Sublist (flattenPairs (g.filter (fun e => !(e.1 == key))))
      (flattenPairs g) := flattenPairs_sublist _ _ hsubg
  refine ⟨?_, ?_, List.Sublist.map _ hsubg, List.Sublist.map _ hsubf, ?_⟩
  · clear hsubg hsubf
    induction g with
    | nil => simp [getGroup, sumSizes, flattenPairs, groupSizes]
    | cons e rest ih =>
      obtain ⟨u, l⟩ := e
      rw [List.map_cons, List.nodup_cons] at hkeys
      rw [List.filter_cons]
      by_cases h : (u == key) = true
      · rw [if_neg (by simp [h])]
        rw [getGroup_cons_self _ _ _ _ h]
        have hrest : rest.filter (fun e => !(e.1 == key)) = rest := by
          rw [List.filter_eq_self]
          intro x hx
          have : x.1 ≠ key := by
            intro hc
            apply hkeys.1
            have hu : u = key := by simpa using h
            rw [hu, ← hc]
            exact List.mem_map.mpr ⟨x, hx, rfl⟩
          simp [this]
        rw [hrest, sumSizes_cons]
        dsimp only
        omega
      · rw [if_pos (by simp [h])]
        rw [getGroup_cons_ne _ _ _ _ (by
          cases hres : (u == key)
          · rfl
          · exact absurd hres h)]
        rw [sumSizes_cons, sumSizes_cons]
        have := ih hkeys.2
        omega
  · clear hsubg hsubf
    induction g with
    | nil => simp [getGroup, snapCount, flattenPairs]
    | cons e rest ih =>
      obtain ⟨u, l⟩ := e
      rw [List.map_cons, List.nodup_cons] at hkeys
      rw [List.filter_cons]
      by_cases h : (u == key) = true
      · rw [if_neg (by simp [h])]
        rw [getGroup_cons_self _ _ _ _ h]
        have hrest : rest.filter (fun e => !(e.1 == key)) = rest := by
          rw [List.filter_eq_self]
          intro x hx
          have : x.1 ≠ key := by
            intro hc
            apply hkeys.1
            have hu : u = key := by simpa using h
            rw [hu, ← hc]
            exact List.mem_map.mpr ⟨x, hx, rfl⟩
          simp [this]
        rw [hrest, snapCount_cons]
        dsimp only
        omega
      · rw [if_pos (by simp [h])]
        rw [getGroup_cons_ne _ _ _ _ (by
          cases hres : (u == key)
          · rfl
          · exact absurd hres h)]
        rw [snapCount_cons, snapCount_cons]
        have := ih hkeys.2
        omega
  · intro hne x hx
    exact hne x (List.mem_of_mem_filter hx)

-- freshness / save well-formedness

theorem allIds_append (a b : SnapshotGroups) :
    allIds (a ++ b) = allIds a ++ allIds b := by
  simp [allIds, flattenPairs_append]

theorem allIds_split (pre : SnapshotGroups) (key : String) (l : List Snapshot)
    (post : SnapshotGroups) :
    allIds (pre ++ (key, l) :: post)
      = allIds pre ++ (l.map (fun s => s.id) ++ allIds post) := by
  rw [allIds_append, allIds_cons]

theorem noEmpty_setGroup (g : SnapshotGroups) (key : String) (l : List Snapshot)
    (hne : ∀ e ∈ g, e.2 ≠ []) (hl : l ≠ []) :
    ∀ e ∈ setGroup g key l, e.2 ≠ [] := by
  rcases setGroup_decomp g key l with ⟨_, hset, _⟩ | ⟨pre, l0, post, hg, _, hset, _⟩
  · rw [hset]
    intro e he
    rcases List.mem_append.mp he with hm | hm
    · exact hne e hm
    · rw [List.mem_singleton] at hm
      rw [hm]
      exact hl
  · rw [hset]
    intro e he
    rcases List.mem_append.mp he with hm | hm
    · exact hne e (by rw [hg]; exact List.mem_append_left _ hm)
    · rcases List.mem_cons.mp hm with rfl | hm2
      · exact hl
      · exact hne e (by
          rw [hg]
          exact List.mem_append_right _ (List.mem_cons_of_mem _ hm2))

theorem save_ids_nodup (g : SnapshotGroups) (key : String) (c : Snapshot)
    (tail : List Snapshot) (hids : (allIds g).Nodup) (hfresh : c.id ∉ allIds g)
    (htail : List.Sublist tail (getGroup g key)) :
    (allIds (setGroup g key (tail ++ [c]))).Nodup := by
  rcases setGroup_decomp g key (tail ++ [c])
    with ⟨_, hset, hget⟩ | ⟨pre, l0, post, hg, _, hset, hget⟩
  · rw [hget] at htail
    have htail0 : tail = [] := List.sublist_nil.mp htail
    subst htail0
    rw [hset, allIds_append]
    rw [show allIds [(key, ([] : List Snapshot) ++ [c])] = [c.id] from rfl]
    rw [List.nodup_append]
    refine ⟨hids, List.nodup_singleton _, ?_⟩
    intro x hx hmem
    rw [List.mem_singleton] at hmem
    rw [hmem] at hx
    exact hfresh hx
  · rw [hget] at htail
    rw [hset, allIds_split]
    rw [hg, allIds_split] at hids hfresh
    have htailIds : List.Sublist (tail.map (fun s => s.id)) (l0.map (fun s => s.id)) :=
      List.Sublist.map _ htail
    rw [List.map_append] at *
    rw [List.nodup_append] at hids ⊢
    obtain ⟨hA, hBC, hABC⟩ := hids
    rw [List.nodup_append] at hBC
    obtain ⟨hB, hC, hBdisC⟩ := hBC
    have hcA : c.id ∉ allIds pre := fun hc =>
      hfresh (List.mem_append_left _ hc)
    have hcB : c.id ∉ l0.map (fun s => s.id) := fun hc =>
      hfresh (List.mem_append_right _ (List.mem_append_left _ hc))
    have hcC : c.id ∉ allIds post := fun hc =>
      hfresh (List.mem_append_right _ (List.mem_append_right _ hc))
    refine ⟨hA, ?_, ?_⟩
    · rw [show tail.map (fun s => s.id) ++ [c].map (fun s => s.id) ++ allIds post
        = (tail.map (fun s => s.id) ++ [c.id]) ++ allIds post from by simp]
      rw [List.nodup_append]
      refine ⟨?_, hC, ?_⟩
      · rw [List.nodup_append]
        refine ⟨List.Nodup.sublist htailIds hB, List.nodup_singleton _, ?_⟩
        intro x hx hmem
        rw [List.mem_singleton] at hmem
        rw [hmem] at hx
        exact hcB (htailIds.subset hx)
      · intro x hx hmem
        rcases List.mem_append.mp hx with hm | hm
        · exact hBdisC (htailIds.subset hm) hmem
        · rw [List.mem_singleton] at hm
          rw [hm] at hmem
          exact hcC hmem
    · intro x hx hmem
      rcases List.mem_append.mp hmem with hm | hm
      · rcases List.mem_append.mp hm with hm2 | hm2
        · exact hABC hx (List.mem_append_left _ (htailIds.subset hm2))
        · rw [show ([c] : List Snapshot).map (fun s => s.id) = [c.id] from rfl] at hm2
          rw [List.mem_singleton] at hm2
          rw [hm2] at hx
          exact hcA hx
      · exact hABC hx (List.mem_append_right _ hm)

-- cleanup and save preserve well-formedness

theorem performAutomaticCleanup_wf (g : SnapshotGroups) (md : StoreMetadata)
    (st : Settings) (now : Nat)
    (hkeys : (g.map Prod.fst).Nodup) (hids : (allIds g).Nodup)
    (hne : ∀ e ∈ g, e.2 ≠ [])
    (hinv1 : md.totalSize = sumSizes g)
    (hinv2 : md.snapshotCount = (snapCount g : Int)) :
    (performAutomaticCleanup g md st now).2.totalSize
        = sumSizes (performAutomaticCleanup g md st now).1
    ∧ (performAutomaticCleanup g md st now).2.snapshotCount
        = (snapCount (performAutomaticCleanup g md st now).1 : Int)
    ∧ ((performAutomaticCleanup g md st now).1.map Prod.fst).Nodup
    ∧ (allIds (performAutomaticCleanup g md st now).1).Nodup
    ∧ ∀ e ∈ (performAutomaticCleanup g md st now).1, e.2 ≠ [] := by
  have hps := performAutomaticCleanup_spec g md st now hkeys hids hne
  have hsums := sum_sizes_filterIds g (evictCount st.maxTotalSize md.totalSize
    (List.map (fun p => (p.1.metadata.size : Int)) (sortByTimestamp (flattenPairs g)))) hids
  have hkfl : List.Sublist
      (allIds (filterIds g (List.map (fun p => p.1.id)
        (List.take (evictCount st.maxTotalSize md.totalSize
          (List.map (fun p => (p.1.metadata.size : Int)) (sortByTimestamp (flattenPairs g))))
          (sortByTimestamp (flattenPairs g))))))
      (allIds g) := by
    unfold allIds
    rw [flattenPairs_filterIds]
    exact List.Sublist.map _ (List.filter_sublist _)
  have hklen : (evictCount st.maxTotalSize md.totalSize
      (List.map (fun p => (p.1.metadata.size : Int)) (sortByTimestamp (flattenPairs g))))
      ≤ (sortByTimestamp (flattenPairs g)).length := by
    have h1 := evictCount_le_length st.maxTotalSize md.totalSize
      (List.map (fun p => (p.1.metadata.size : Int)) (sortByTimestamp (flattenPairs g)))
    rw [List.length_map] at h1
    exact h1
  refine ⟨?_, ?_, ?_, ?_, ?_⟩
  · rw [hps]
    dsimp only
    rw [hsums.1, hinv1]
  · rw [hps]
    dsimp only
    rw [hsums.2, hinv2]
    have htk : (List.take (evictCount st.maxTotalSize md.totalSize
        (List.map (fun p => (p.1.metadata.size : Int)) (sortByTimestamp (flattenPairs g))))
        (sortByTimestamp (flattenPairs g))).length
        = evictCount st.maxTotalSize md.totalSize
          (List.map (fun p => (p.1.metadata.size : Int)) (sortByTimestamp (flattenPairs g))) := by
      rw [List.length_take]
      omega
    rw [htk]
  · rw [hps]
    dsimp only
    exact List.Nodup.sublist (filterIds_keys_sublist _ _) hkeys
  · rw [hps]
    dsimp only
    exact List.Nodup.sublist hkfl hids
  · rw [hps]
    dsimp only
    exact filterIds_no_empty _ _

-- the save path preserves well-formedness

theorem groupSizes_append_single (tail : List Snapshot) (c : Snapshot) :
    groupSizes (tail ++ [c]) = groupSizes tail + c.metadata.size := by
  simp [groupSizes]

theorem groupSizes_cons (snap : Snapshot) (rest : List Snapshot) :
    groupSizes (snap :: rest) = snap.metadata.size + groupSizes rest := by
  simp [groupSizes]

theorem setGroup_post_wf (g : SnapshotGroups) (key : String) (c : Snapshot)
    (tail : List Snapshot)
    (hkeys : (g.map Prod.fst).Nodup) (hids : (allIds g).Nodup)
    (hne : ∀ e ∈ g, e.2 ≠ []) (hfresh : c.id ∉ allIds g)
    (htail : List.Sublist tail (getGroup g key)) :
    ((setGroup g key (tail ++ [c])).map Prod.fst).Nodup
    ∧ (allIds (setGroup g key (tail ++ [c]))).Nodup
    ∧ (∀ e ∈ setGroup g key (tail ++ [c]), e.2 ≠ [])
    ∧ sumSizes (setGroup g key (tail ++ [c]))
        = sumSizes g - groupSizes (getGroup g key) + groupSizes tail + c.metadata.size
    ∧ (snapCount (setGroup g key (tail ++ [c])) : Int)
        = (snapCount g : Int) - (getGroup g key).length + tail.length + 1 := by
  refine ⟨keys_setGroup_nodup g key _ hkeys, save_ids_nodup g key c tail hids hfresh htail,
    noEmpty_setGroup g key _ hne (by simp), ?_, ?_⟩
  · have h1 := sumSizes_setGroup g key (tail ++ [c])
    rw [groupSizes_append_single] at h1
    omega
  · have h1 := snapCount_setGroup g key (tail ++ [c])
    rw [List.length_append, show ([c] : List Snapshot).length = 1 from rfl] at h1
    have h2 : (getGroup g key).length ≥ tail.length := htail.length_le
    omega

theorem save_finish_wf (g2 : SnapshotGroups) (tot cnt : Int) (lc : Nat)
    (st : Settings) (now : Nat)
    (hkeys2 : (g2.map Prod.fst).Nodup) (hids2 : (allIds g2).Nodup)
    (hne2 : ∀ e ∈ g2, e.2 ≠ [])
    (hmd1 : tot = sumSizes g2)
    (hmd2 : cnt = (snapCount g2 : Int)) :
    storeWF
      { snapshots := (if tot > st.maxTotalSize then
          performAutomaticCleanup g2
            { totalSize := tot, snapshotCount := cnt, lastCleanup := lc } st now
          else (g2, { totalSize := tot, snapshotCount := cnt, lastCleanup := lc })).1,
        settings := st,
        metadata := (if tot > st.maxTotalSize then
          performAutomaticCleanup g2
            { totalSize := tot, snapshotCount := cnt, lastCleanup := lc } st now
          else (g2, { totalSize := tot, snapshotCount := cnt, lastCleanup := lc })).2 } := by
  by_cases hov : tot > st.maxTotalSize
  · rw [if_pos hov]
    obtain ⟨w1, w2, w3, w4, w5⟩ := performAutomaticCleanup_wf g2
      { totalSize := tot, snapshotCount := cnt, lastCleanup := lc } st now
      hkeys2 hids2 hne2 hmd1 hmd2
    exact ⟨⟨w1, w2⟩, w3, w4, w5⟩
  · rw [if_neg hov]
    exact ⟨⟨hmd1, hmd2⟩, hkeys2, hids2, hne2⟩

theorem saveSnapshot_wf (s : StoreState) (key : String) (c : Snapshot) (now : Nat)
    (hwf : storeWF s) (hfresh : c.id ∉ allIds s.snapshots) :
    storeWF (saveSnapshot s key c now).2 := by
  obtain ⟨⟨hinv1, hinv2⟩, hkeys, hids, hne⟩ := hwf
  unfold saveSnapshot
  cases hG : getGroup s.snapshots key with
  | nil =>
    have hpost := setGroup_post_wf s.snapshots key c [] hkeys hids hne hfresh
      (by rw [hG])
    rw [hG] at hpost
    obtain ⟨p1, p2, p3, p4, p5⟩ := hpost
    have hsum : s.metadata.totalSize + (c.metadata.size : Int)
        = sumSizes (setGroup s.snapshots key ([] ++ [c])) := by
      rw [p4, hinv1, show groupSizes ([] : List Snapshot) = 0 from rfl]
      ring
    have hcnt : s.metadata.snapshotCount + 1
        = (snapCount (setGroup s.snapshots key ([] ++ [c])) : Int) := by
      rw [p5, hinv2]
      simp
    dsimp only
    by_cases hlen : ([] : List Snapshot).length ≥ s.settings.maxSnapshotsPerUrl
    · rw [if_pos hlen]
      dsimp only
      exact save_finish_wf _ _ _ _ _ _ p1 p2 p3 hsum hcnt
    · rw [if_neg hlen]
      dsimp only
      exact save_finish_wf _ _ _ _ _ _ p1 p2 p3 hsum hcnt
  | cons oldest rest0 =>
    dsimp only
    by_cases hlen : (oldest :: rest0).length ≥ s.settings.maxSnapshotsPerUrl
    · rw [if_pos hlen]
      dsimp only
      have hpost := setGroup_post_wf s.snapshots key c rest0 hkeys hids hne hfresh
        (by rw [hG]; exact List.sublist_cons_self oldest rest0)
      rw [hG] at hpost
      obtain ⟨p1, p2, p3, p4, p5⟩ := hpost
      have hsum : s.metadata.totalSize - (oldest.metadata.size : Int)
            + (c.metadata.size : Int)
          = sumSizes (setGroup s.snapshots key (rest0 ++ [c])) := by
        rw [p4, hinv1, groupSizes_cons]
        ring
      have hcnt : s.metadata.snapshotCount - 1 + 1
          = (snapCount (setGroup s.snapshots key (rest0 ++ [c])) : Int) := by
        rw [p5, hinv2, List.length_cons]
        push_cast
        ring
      exact save_finish_wf _ _ _ _ _ _ p1 p2 p3 hsum hcnt
    · rw [if_neg hlen]
      dsimp only
      have hpost := setGroup_post_wf s.snapshots key c (oldest :: rest0) hkeys hids hne
        hfresh (by rw [hG])
      rw [hG] at hpost
      obtain ⟨p1, p2, p3, p4, p5⟩ := hpost
      have hsum : s.metadata.totalSize + (c.metadata.size : Int)
          = sumSizes (setGroup s.snapshots key (oldest :: rest0 ++ [c])) := by
        rw [p4, hinv1]
        ring
      have hcnt : s.metadata.snapshotCount + 1
          = (snapCount (setGroup s.snapshots key (oldest :: rest0 ++ [c])) : Int) := by
        rw [p5, hinv2]
        ring
      exact save_finish_wf _ _ _ _ _ _ p1 p2 p3 hsum hcnt

-- every store operation preserves well-formedness

theorem applyOp_wf (s : StoreState) (op : StoreOp) (hwf : storeWF s)
    (hfresh : freshFor s op = true) : storeWF (applyOp s op) := by
  cases op with
  | save url snap now =>
    have hf : snap.id ∉ allIds s.snapshots := by
      rw [freshFor, Bool.not_eq_true'] at hfresh
      intro hm
      rw [List.contains_eq_any_beq] at hfresh
      have : (allIds s.snapshots).any (snap.id == ·) = true :=
        List.any_eq_true.mpr ⟨_, hm, by simp⟩
      rw [this] at hfresh
      cases hfresh
    exact saveSnapshot_wf s url snap now hwf hf
  | del sid =>
    obtain ⟨⟨hinv1, hinv2⟩, hkeys, hids, hne⟩ := hwf
    show storeWF (deleteSnapshot s sid).2
    unfold deleteSnapshot
    cases hr : deleteFromGroups s.snapshots sid with
    | none => exact ⟨⟨hinv1, hinv2⟩, hkeys, hids, hne⟩
    | some r =>
      obtain ⟨d1, d2, d3, d4, d5⟩ := deleteFromGroups_spec s.snapshots sid r hr
      dsimp only
      refine ⟨⟨?_, ?_⟩, hkeys.sublist d3, ?_, d5 hne⟩
      · dsimp only
        rw [d1, hinv1]
      · dsimp only
        rw [d2, hinv2]
      · dsimp only
        have hsub : List.Sublist (allIds r.2) (allIds s.snapshots) := by
          unfold allIds
          exact List.Sublist.map (fun p => p.1.id) d4
        exact hids.sublist hsub
  | rename sid n =>
    show storeWF (match renameSnapshot s sid n with
      | Except.ok r => r.2
      | Except.error _ => s)
    cases hr : renameSnapshot s sid n with
    | error e => exact hwf
    | ok r =>
      obtain ⟨⟨hinv1, hinv2⟩, hkeys, hids, hne⟩ := hwf
      unfold renameSnapshot at hr
      by_cases h1 : (n == "" || (jsTrim n).length == 0) = true
      · rw [if_pos h1] at hr
        cases hr
      · rw [if_neg h1] at hr
        by_cases h2 : n.length > 100
        · rw [if_pos h2] at hr
          cases hr
        · rw [if_neg h2] at hr
          dsimp only at hr
          injection hr with hr
          rw [← hr]
          obtain ⟨rids, rsz, rcnt, rkeys, rne⟩ :=
            renameInGroups_shape s.snapshots sid (jsTrim n)
          refine ⟨⟨?_, ?_⟩, ?_, ?_, rne hne⟩
          · dsimp only
            rw [rsz, hinv1]
          · dsimp only
            rw [rcnt, hinv2]
          · dsimp only
            rw [rkeys]
            exact hkeys
          · dsimp only
            rw [rids]
            exact hids
  | clearGroup url =>
    obtain ⟨⟨hinv1, hinv2⟩, hkeys, hids, hne⟩ := hwf
    show storeWF (clearSnapshotsForUrl s url).2
    unfold clearSnapshotsForUrl
    dsimp only
    by_cases hd : (getGroup s.snapshots url).length > 0
    · rw [if_pos hd]
      obtain ⟨f1, f2, f3, f4, f5⟩ := filter_key_shape s.snapshots url hkeys
      refine ⟨⟨?_, ?_⟩, hkeys.sublist f3, hids.sublist f4, f5 hne⟩
      · dsimp only
        rw [f1, hinv1]
        rfl
      · dsimp only
        rw [f2, hinv2]
    · rw [if_neg hd]
      exact ⟨⟨hinv1, hinv2⟩, hkeys, hids, hne⟩
  | clearAll now =>
    show storeWF (clearAllSnapshots s now).2
    unfold clearAllSnapshots
    dsimp only
    by_cases hd : snapCount s.snapshots > 0
    · rw [if_pos hd]
      refine ⟨⟨rfl, rfl⟩, List.nodup_nil, List.nodup_nil, by simp⟩
    · rw [if_neg hd]
      exact hwf
  | cleanup now =>
    obtain ⟨⟨hinv1, hinv2⟩, hkeys, hids, hne⟩ := hwf
    show storeWF
      { s with
        snapshots := (performAutomaticCleanup s.snapshots s.metadata s.settings now).1,
        metadata := (performAutomaticCleanup s.snapshots s.metadata s.settings now).2 }
    obtain ⟨w1, w2, w3, w4, w5⟩ := performAutomaticCleanup_wf s.snapshots s.metadata
      s.settings now hkeys hids hne hinv1 hinv2
    exact ⟨⟨w1, w2⟩, w3, w4, w5⟩

/-- C1: starting from any well-formed store state (in particular any
state satisfying the metadata invariant together with the representation
properties chrome.storage maintains), every sequence of store operations
— save, delete, rename, clearGroup, clearAll and automatic cleanup, with
freshly generated ids on save — leads to a state whose metadata satisfies
`totalSize` = the sum of `metadata.size` over all snapshots of all groups
and `snapshotCount` = the total number of snapshots, even though each
operation only adjusts the aggregates incrementally. -/
theorem claim_C1 (s t : StoreState) (hwf : storeWF s) (hr : Reaches s t) :
    t.metadata.totalSize = sumSizes t.snapshots
    ∧ t.metadata.snapshotCount = (snapCount t.snapshots : Int) := by
  have hwt : storeWF t := by
    induction hr with
    | refl => exact hwf
    | step t' op hreach hf ih => exact applyOp_wf t' op ih hf
  exact hwt.1

def c1Snap : Snapshot := { id := "id-a", timestamp := 5, name := "a", domContent := "<html></html>", metadata := { size := 10, pageTitle := "t", viewportWidth := 1, viewportHeight := 1, url := "https://a/" } }

def c1State0 : StoreState :=
  { snapshots := [], settings := DEFAULT_SETTINGS, metadata := DEFAULT_METADATA }

theorem claim_C1_witness :
    storeWF c1State0
    ∧ ((applyOp c1State0 (StoreOp.save "https://a/" c1Snap 7)).metadata.totalSize
        = sumSizes (applyOp c1State0 (StoreOp.save "https://a/" c1Snap 7)).snapshots
      ∧ (applyOp c1State0 (StoreOp.save "https://a/" c1Snap 7)).metadata.snapshotCount
        = (snapCount (applyOp c1State0 (StoreOp.save "https://a/" c1Snap 7)).snapshots : Int)) :=
  ⟨by decide,
    claim_C1 c1State0 (applyOp c1State0 (StoreOp.save "https://a/" c1Snap 7))
      (by decide)
      (Reaches.step c1State0 c1State0 (StoreOp.save "https://a/" c1Snap 7)
        (Reaches.refl c1State0) (by decide))⟩

-- attribute lookup / update toolkit for the morph attribute phase

theorem hasAttr_iff (l : List (String × String)) (n : String) :
    hasAttr l n = true ↔ n ∈ l.map Prod.fst := by
  constructor
  · intro h
    obtain ⟨p, hp, he⟩ := List.any_eq_true.mp h
    exact List.mem_map.mpr ⟨p, hp, by simpa using he⟩
  · intro h
    obtain ⟨p, hp, he⟩ := List.mem_map.mp h
    exact List.any_eq_true.mpr ⟨p, hp, by simp [he]⟩

theorem getAttr_cons (p : String × String) (rest : List (String × String)) (n : String) :
    getAttr (p :: rest) n = if (p.1 == n) = true then some p.2 else getAttr rest n := by
  rw [getAttr, getAttr, List.find?_cons]
  by_cases hp : (p.1 == n) = true
  · rw [if_pos hp, hp]
    rfl
  · rw [if_neg hp, (by simpa using hp : (p.1 == n) = false)]

theorem getAttr_eq_some_mem (l : List (String × String)) (n v : String)
    (h : getAttr l n = some v) : (n, v) ∈ l := by
  induction l with
  | nil => cases h
  | cons p rest ih =>
    rw [getAttr_cons] at h
    by_cases hp : (p.1 == n) = true
    · rw [if_pos hp] at h
      injection h with h
      have h1 : p.1 = n := by simpa using hp
      have h2 : (n, v) = p := by rw [← h1, ← h]
      rw [h2]
      exact List.mem_cons_self p rest
    · rw [if_neg hp] at h
      exact List.mem_cons_of_mem p (ih h)

theorem getAttr_of_mem_nodup (l : List (String × String)) (p : String × String)
    (hnodup : (l.map Prod.fst).Nodup) (hm : p ∈ l) :
    getAttr l p.1 = some p.2 := by
  induction l with
  | nil => cases hm
  | cons q rest ih =>
    rw [List.map_cons, List.nodup_cons] at hnodup
    rw [getAttr_cons]
    rcases List.mem_cons.mp hm with rfl | hr
    · rw [if_pos (by simp)]
    · have hq : (q.1 == p.1) = false := by
        rw [beq_eq_false_iff_ne]
        intro hc
        exact hnodup.1 (List.mem_map.mpr ⟨p, hr, hc.symm⟩)
      rw [if_neg (by simp [hq])]
      exact ih hnodup.2 hr

theorem namesNodupB_iff (l : List (String × String)) :
    namesNodupB l = true ↔ (l.map Prod.fst).Nodup := by
  induction l with
  | nil => simp [namesNodupB]
  | cons p rest ih =>
    rw [namesNodupB, Bool.and_eq_true, ih, List.map_cons, List.nodup_cons]
    have : (!(rest.any (fun q => q.1 == p.1))) = true ↔ p.1 ∉ rest.map Prod.fst := by
      rw [Bool.not_eq_true', ← Bool.not_eq_true]
      constructor
      · intro h hc
        obtain ⟨q, hq, he⟩ := List.mem_map.mp hc
        exact h (List.any_eq_true.mpr ⟨q, hq, by simp [he]⟩)
      · intro h hc
        obtain ⟨q, hq, he⟩ := List.any_eq_true.mp hc
        exact h (List.mem_map.mpr ⟨q, hq, by simpa using he⟩)
    rw [this]

theorem names_setAttr (l : List (String × String)) (n v : String) :
    (setAttr l n v).map Prod.fst =
      if hasAttr l n = true then l.map Prod.fst else l.map Prod.fst ++ [n] := by
  rw [setAttr]
  by_cases hh : hasAttr l n = true
  · rw [if_pos hh, if_pos hh, List.map_map]
    apply List.map_congr_left
    intro p hp
    dsimp only [Function.comp]
    by_cases hp1 : (p.1 == n) = true
    · rw [if_pos hp1]
      exact (by simpa using hp1 : p.1 = n).symm
    · rw [if_neg hp1]
  · rw [if_neg hh, if_neg hh, List.map_append]
    rfl

theorem names_setAttr_nodup (l : List (String × String)) (n v : String)
    (h : (l.map Prod.fst).Nodup) : ((setAttr l n v).map Prod.fst).Nodup := by
  rw [names_setAttr]
  by_cases hh : hasAttr l n = true
  · rw [if_pos hh]
    exact h
  · rw [if_neg hh]
    rw [List.nodup_append]
    refine ⟨h, List.nodup_singleton n, ?_⟩
    intro x hx
    rw [List.mem_singleton]
    intro hc
    subst hc
    exact hh ((hasAttr_iff l x).mpr hx)

theorem hasAttr_setAttr (l : List (String × String)) (n v m : String)
    (h : hasAttr (setAttr l n v) m = true) :
    hasAttr l m = true ∨ m = n := by
  rw [hasAttr_iff, names_setAttr] at h
  by_cases hh : hasAttr l n = true
  · rw [if_pos hh] at h
    exact Or.inl ((hasAttr_iff l m).mpr h)
  · rw [if_neg hh] at h
    rcases List.mem_append.mp h with h2 | h2
    · exact Or.inl ((hasAttr_iff l m).mpr h2)
    · exact Or.inr (List.mem_singleton.mp h2)

theorem getAttr_map_update (l : List (String × String)) (n v : String)
    (hh : hasAttr l n = true) :
    getAttr (l.map (fun p => if p.1 == n then (n, v) else p)) n = some v := by
  induction l with
  | nil => cases hh
  | cons p rest ih =>
    rw [List.map_cons]
    by_cases hp : (p.1 == n) = true
    · rw [if_pos hp, getAttr_cons]
      rw [if_pos (by simp)]
    · rw [if_neg hp, getAttr_cons, if_neg (by simp [hp])]
      apply ih
      rw [hasAttr, List.any_cons] at hh
      have hpf : (p.1 == n) = false := by simpa using hp
      rw [hpf, Bool.false_or] at hh
      exact hh

theorem getAttr_setAttr_self (l : List (String × String)) (n v : String) :
    getAttr (setAttr l n v) n = some v := by
  rw [setAttr]
  by_cases hh : hasAttr l n = true
  · rw [if_pos hh]
    exact getAttr_map_update l n v hh
  · rw [if_neg hh]
    induction l with
    | nil =>
      rw [List.nil_append, getAttr_cons]
      rw [if_pos (by simp)]
    | cons p rest ih =>
      rw [List.cons_append, getAttr_cons]
      rw [hasAttr, List.any_cons] at hh
      have hpf : (p.1 == n) = false := by
        by_contra hc
        rw [Bool.not_eq_false] at hc
        rw [hc, Bool.true_or] at hh
        exact hh rfl
      rw [if_neg (by simp [hpf])]
      apply ih
      intro hc
      rw [hasAttr] at hc
      rw [hc, Bool.or_true] at hh
      exact hh rfl

theorem getAttr_setAttr_ne (l : List (String × String)) (n v m : String)
    (hmn : (m == n) = false) :
    getAttr (setAttr l n v) m = getAttr l m := by
  rw [setAttr]
  by_cases hh : hasAttr l n = true
  · rw [if_pos hh]
    clear hh
    induction l with
    | nil => rfl
    | cons p rest ih =>
      rw [List.map_cons, getAttr_cons, getAttr_cons]
      by_cases hp : (p.1 == n) = true
      · have hp1 : p.1 = n := by simpa using hp
        rw [if_pos hp]
        have h1 : (n == m) = false := by
          rw [beq_eq_false_iff_ne]
          intro hc
          rw [beq_eq_false_iff_ne] at hmn
          exact hmn hc.symm
        have h2 : (p.1 == m) = false := by rw [hp1]; exact h1
        rw [if_neg (by simp [h1]), if_neg (by simp [h2])]
        exact ih
      · rw [if_neg hp]
        by_cases hq : (p.1 == m) = true
        · simp only [if_pos hq]
        · simp only [if_neg hq]
          exact ih
  · rw [if_neg hh]
    induction l with
    | nil =>
      rw [List.nil_append, getAttr_cons]
      have : (n == m) = false := by
        rw [beq_eq_false_iff_ne]
        intro hc
        rw [beq_eq_false_iff_ne] at hmn
        exact hmn hc.symm
      rw [if_neg (by simp [this])]
    | cons p rest ih =>
      rw [List.cons_append, getAttr_cons, getAttr_cons]
      by_cases hq : (p.1 == m) = true
      · simp only [if_pos hq]
      · simp only [if_neg hq]
        apply ih
        intro hc
        apply hh
        rw [hasAttr, List.any_cons]
        rw [hasAttr] at hc
        rw [hc, Bool.or_true]

-- the attribute phase of morphElement realizes the target attribute set

theorem setAttrsLoop_getAttr_notin (acc : List (String × String) × Nat)
    (rest : List (String × String)) (m : String)
    (h : hasAttr rest m = false) :
    getAttr (setAttrsLoop acc rest).1 m = getAttr acc.1 m := by
  induction rest generalizing acc with
  | nil => rfl
  | cons q rest' ih =>
    rw [hasAttr, List.any_cons, Bool.or_eq_false_iff] at h
    rw [setAttrsLoop]
    by_cases hskip : (getAttr acc.1 q.1 == some q.2) = true
    · rw [if_pos hskip]
      exact ih acc (by rw [hasAttr]; exact h.2)
    · rw [if_neg hskip]
      rw [ih (setAttr acc.1 q.1 q.2, acc.2 + 1) (by rw [hasAttr]; exact h.2)]
      dsimp only
      apply getAttr_setAttr_ne
      rw [beq_eq_false_iff_ne]
      intro hc
      rw [hc] at h
      simp at h

theorem setAttrsLoop_getAttr_mem (acc : List (String × String) × Nat)
    (rest : List (String × String)) (q : String × String) (hq : q ∈ rest)
    (hnodup : (rest.map Prod.fst).Nodup) :
    getAttr (setAttrsLoop acc rest).1 q.1 = some q.2 := by
  induction rest generalizing acc with
  | nil => cases hq
  | cons p rest' ih =>
    rw [List.map_cons, List.nodup_cons] at hnodup
    rw [setAttrsLoop]
    rcases List.mem_cons.mp hq with rfl | hr
    · have hnot : hasAttr rest' q.1 = false := by
        rw [← Bool.not_eq_true]
        intro hc
        exact hnodup.1 ((hasAttr_iff rest' q.1).mp hc)
      by_cases hskip : (getAttr acc.1 q.1 == some q.2) = true
      · rw [if_pos hskip]
        rw [setAttrsLoop_getAttr_notin acc rest' q.1 hnot]
        simpa using hskip
      · rw [if_neg hskip]
        rw [setAttrsLoop_getAttr_notin _ rest' q.1 hnot]
        exact getAttr_setAttr_self acc.1 q.1 q.2
    · by_cases hskip : (getAttr acc.1 p.1 == some p.2) = true
      · rw [if_pos hskip]
        exact ih acc hr hnodup.2
      · rw [if_neg hskip]
        exact ih _ hr hnodup.2

theorem setAttrsLoop_names (acc : List (String × String) × Nat)
    (rest : List (String × String)) (m : String)
    (h : hasAttr (setAttrsLoop acc rest).1 m = true) :
    hasAttr acc.1 m = true ∨ hasAttr rest m = true := by
  induction rest generalizing acc with
  | nil => exact Or.inl h
  | cons q rest' ih =>
    rw [setAttrsLoop] at h
    have hstep : ∀ r : Or (hasAttr (setAttr acc.1 q.1 q.2) m = true)
        (hasAttr rest' m = true), hasAttr acc.1 m = true ∨ hasAttr (q :: rest') m = true := by
      intro r
      rcases r with h2 | h2
      · rcases hasAttr_setAttr acc.1 q.1 q.2 m h2 with h3 | h3
        · exact Or.inl h3
        · right
          rw [hasAttr, List.any_cons, h3]
          simp
      · right
        rw [hasAttr, List.any_cons]
        rw [hasAttr] at h2
        rw [h2, Bool.or_true]
    by_cases hskip : (getAttr acc.1 q.1 == some q.2) = true
    · rw [if_pos hskip] at h
      rcases ih acc h with h2 | h2
      · exact Or.inl h2
      · right
        rw [hasAttr, List.any_cons]
        rw [hasAttr] at h2
        rw [h2, Bool.or_true]
    · rw [if_neg hskip] at h
      exact hstep (ih _ h)

theorem setAttrsLoop_nodup (acc : List (String × String) × Nat)
    (rest : List (String × String))
    (h : (acc.1.map Prod.fst).Nodup) :
    ((setAttrsLoop acc rest).1.map Prod.fst).Nodup := by
  induction rest generalizing acc with
  | nil => exact h
  | cons q rest' ih =>
    rw [setAttrsLoop]
    by_cases hskip : (getAttr acc.1 q.1 == some q.2) = true
    · rw [if_pos hskip]
      exact ih acc h
    · rw [if_neg hskip]
      exact ih _ (names_setAttr_nodup acc.1 q.1 q.2 h)

theorem kept_names_nodup (ca ta : List (String × String))
    (hca : (ca.map Prod.fst).Nodup) :
    (((ca.filter (fun p => hasAttr ta p.1)).map Prod.fst)).Nodup :=
  hca.sublist (List.Sublist.map Prod.fst (List.filter_sublist ca))

theorem syncAttributes_attrsEqual (ca ta : List (String × String))
    (hca : (ca.map Prod.fst).Nodup) (hta : (ta.map Prod.fst).Nodup) :
    attrsEqual (syncAttributes ca ta).1 ta = true := by
  have hkept : (((ca.filter (fun p => hasAttr ta p.1)).map Prod.fst)).Nodup :=
    kept_names_nodup ca ta hca
  have hres : (syncAttributes ca ta).1
      = (setAttrsLoop (ca.filter (fun p => hasAttr ta p.1), 0) ta).1 := rfl
  have hrn : ((syncAttributes ca ta).1.map Prod.fst).Nodup := by
    rw [hres]
    exact setAttrsLoop_nodup _ ta hkept
  have hmemta : ∀ q ∈ ta, getAttr (syncAttributes ca ta).1 q.1 = some q.2 := by
    intro q hq
    rw [hres]
    exact setAttrsLoop_getAttr_mem _ ta q hq hta
  have hsub1 : ∀ m ∈ (syncAttributes ca ta).1.map Prod.fst, m ∈ ta.map Prod.fst := by
    intro m hm
    have h2 : hasAttr (syncAttributes ca ta).1 m = true := (hasAttr_iff _ m).mpr hm
    rw [hres] at h2
    rcases setAttrsLoop_names _ ta m h2 with h3 | h3
    · obtain ⟨p, hp, hpm⟩ := List.mem_map.mp ((hasAttr_iff _ m).mp h3)
      have := List.of_mem_filter hp
      subst hpm
      exact (hasAttr_iff ta p.1).mp this
    · exact (hasAttr_iff ta m).mp h3
  have hsub2 : ∀ m ∈ ta.map Prod.fst, m ∈ (syncAttributes ca ta).1.map Prod.fst := by
    intro m hm
    obtain ⟨q, hq, hqm⟩ := List.mem_map.mp hm
    have h2 := hmemta q hq
    have h3 := getAttr_eq_some_mem _ q.1 q.2 h2
    subst hqm
    exact List.mem_map.mpr ⟨(q.1, q.2), h3, rfl⟩
  have hlen : (syncAttributes ca ta).1.length = ta.length := by
    have e1 : ((syncAttributes ca ta).1.map Prod.fst).length ≤ (ta.map Prod.fst).length :=
      (hrn.subperm hsub1).length_le
    have e2 : (ta.map Prod.fst).length ≤ ((syncAttributes ca ta).1.map Prod.fst).length :=
      (hta.subperm hsub2).length_le
    rw [List.length_map, List.length_map] at e1 e2
    omega
  rw [attrsEqual, Bool.and_eq_true]
  constructor
  · simp [hlen]
  · rw [List.all_eq_true]
    intro p hp
    have hg : getAttr (syncAttributes ca ta).1 p.1 = some p.2 :=
      getAttr_of_mem_nodup _ p hrn hp
    have hmem : p.1 ∈ ta.map Prod.fst :=
      hsub1 p.1 (List.mem_map.mpr ⟨p, hp, rfl⟩)
    obtain ⟨q, hq, hqm⟩ := List.mem_map.mp hmem
    have h2 := hmemta q hq
    rw [hqm, hg] at h2
    injection h2 with h2
    apply List.any_eq_true.mpr
    refine ⟨q, hq, ?_⟩
    rw [Bool.and_eq_true]
    constructor
    · simp [hqm]
    · simp [h2]

theorem syncAttributes_nodup (ca ta : List (String × String))
    (hca : (ca.map Prod.fst).Nodup) :
    (((syncAttributes ca ta).1).map Prod.fst).Nodup :=
  setAttrsLoop_nodup _ ta (kept_names_nodup ca ta hca)

-- isEqualNode reflexivity and the morph convergence induction

theorem attrsEqual_refl (a : List (String × String)) : attrsEqual a a = true := by
  rw [attrsEqual, Bool.and_eq_true]
  constructor
  · simp
  · rw [List.all_eq_true]
    intro p hp
    exact List.any_eq_true.mpr ⟨p, hp, by simp⟩

theorem sizeOf_node_pos (c : DomNode) : 1 ≤ sizeOf c := by
  cases c with
  | element t a ch => rw [DomNode.element.sizeOf_spec]; omega
  | text s => rw [DomNode.text.sizeOf_spec]; omega
  | comment s => rw [DomNode.comment.sizeOf_spec]; omega
  | doctype d => rw [DomNode.doctype.sizeOf_spec]; omega

theorem sizeOf_forest_pos (l : List DomNode) : 1 ≤ sizeOf l := by
  cases l with
  | nil => simp
  | cons c cs => rw [List.cons.sizeOf_spec]; omega

theorem childrenEqualNode_refl_aux (n : Nat) :
    ∀ l : List DomNode, sizeOf l ≤ n → childrenEqualNode l l = true := by
  induction n with
  | zero =>
    intro l h
    have := sizeOf_forest_pos l
    omega
  | succ n ih =>
    intro l h
    cases l with
    | nil => rfl
    | cons c cs =>
      rw [childrenEqualNode, Bool.and_eq_true]
      rw [List.cons.sizeOf_spec] at h
      refine ⟨?_, ih cs (by omega)⟩
      cases c with
      | text s => rw [isEqualNode]; simp
      | comment s => rw [isEqualNode]; simp
      | doctype d => rw [isEqualNode]; simp
      | element t a ch =>
        rw [isEqualNode, Bool.and_eq_true, Bool.and_eq_true]
        rw [DomNode.element.sizeOf_spec] at h
        exact ⟨⟨by simp, attrsEqual_refl a⟩, ih ch (by omega)⟩

theorem childrenEqualNode_refl (l : List DomNode) : childrenEqualNode l l = true :=
  childrenEqualNode_refl_aux (sizeOf l) l le_rfl

theorem isEqualNode_refl (node : DomNode) : isEqualNode node node = true := by
  cases node with
  | text s => rw [isEqualNode]; simp
  | comment s => rw [isEqualNode]; simp
  | doctype d => rw [isEqualNode]; simp
  | element t a ch =>
    rw [isEqualNode, Bool.and_eq_true, Bool.and_eq_true]
    exact ⟨⟨by simp, attrsEqual_refl a⟩, childrenEqualNode_refl ch⟩

theorem morphChildList_conv_aux (n : Nat) :
    ∀ cs ts : List DomNode, sizeOf cs + sizeOf ts ≤ n →
      wfForest cs = true → wfForest ts = true →
      childrenEqualNode (morphChildList cs ts).1 ts = true
      ∧ wfForest (morphChildList cs ts).1 = true := by
  induction n with
  | zero =>
    intro cs ts h
    have := sizeOf_forest_pos cs
    omega
  | succ n ih =>
    intro cs ts h hwc hwt
    cases cs with
    | nil =>
      cases ts with
      | nil => exact ⟨rfl, rfl⟩
      | cons t ts' =>
        rw [morphChildList]
        dsimp only
        rw [wfForest, Bool.and_eq_true] at hwt
        rw [List.cons.sizeOf_spec] at h
        have hts := sizeOf_node_pos t
        have hrec := ih [] ts' (by rw [List.nil.sizeOf_spec]; rw [List.nil.sizeOf_spec] at h; omega) rfl hwt.2
        constructor
        · rw [childrenEqualNode, Bool.and_eq_true]
          exact ⟨isEqualNode_refl t, hrec.1⟩
        · rw [wfForest, Bool.and_eq_true]
          exact ⟨hwt.1, hrec.2⟩
    | cons c cs' =>
      cases ts with
      | nil =>
        rw [morphChildList]
        exact ⟨rfl, rfl⟩
      | cons t ts' =>
        rw [wfForest, Bool.and_eq_true] at hwc hwt
        rw [List.cons.sizeOf_spec, List.cons.sizeOf_spec] at h
        have hszc := sizeOf_node_pos c
        have hszt := sizeOf_node_pos t
        have hrec := ih cs' ts' (by omega) hwc.2 hwt.2
        have hstep : ∀ hd : DomNode × Nat, isEqualNode hd.1 t = true →
            wfNode hd.1 = true →
            childrenEqualNode (hd.1 :: (morphChildList cs' ts').1) (t :: ts') = true
            ∧ wfForest (hd.1 :: (morphChildList cs' ts').1) = true := by
          intro hd h1 h2
          constructor
          · rw [childrenEqualNode, Bool.and_eq_true]
            exact ⟨h1, hrec.1⟩
          · rw [wfForest, Bool.and_eq_true]
            exact ⟨h2, hrec.2⟩
        cases c with
        | text s1 =>
          cases t with
          | text s2 =>
            rw [morphChildList]
            by_cases hs : (s1 == s2) = true
            · rw [if_pos hs]
              exact hstep (DomNode.text s1, 0) (by rw [isEqualNode]; exact hs) rfl
            · rw [if_neg hs]
              exact hstep (DomNode.text s2, 1) (isEqualNode_refl _) rfl
          | comment s2 =>
            rw [morphChildList]
            all_goals try exact hstep (DomNode.comment s2, 1) (isEqualNode_refl _) hwt.1
            all_goals intros
            all_goals simp_all
          | doctype d2 =>
            rw [morphChildList]
            all_goals try exact hstep (DomNode.doctype d2, 1) (isEqualNode_refl _) hwt.1
            all_goals intros
            all_goals simp_all
          | element t2 a2 ch2 =>
            rw [morphChildList]
            all_goals try exact hstep (DomNode.element t2 a2 ch2, 1) (isEqualNode_refl _) hwt.1
            all_goals intros
            all_goals simp_all
        | comment s1 =>
          cases t with
          | text s2 =>
            rw [morphChildList]
            all_goals try exact hstep (DomNode.text s2, 1) (isEqualNode_refl _) hwt.1
            all_goals intros
            all_goals simp_all
          | comment s2 =>
            rw [morphChildList]
            all_goals try exact hstep (DomNode.comment s2, 1) (isEqualNode_refl _) hwt.1
            all_goals intros
            all_goals simp_all
          | doctype d2 =>
            rw [morphChildList]
            all_goals try exact hstep (DomNode.doctype d2, 1) (isEqualNode_refl _) hwt.1
            all_goals intros
            all_goals simp_all
          | element t2 a2 ch2 =>
            rw [morphChildList]
            all_goals try exact hstep (DomNode.element t2 a2 ch2, 1) (isEqualNode_refl _) hwt.1
            all_goals intros
            all_goals simp_all
        | doctype d1 =>
          cases t with
          | text s2 =>
            rw [morphChildList]
            all_goals try exact hstep (DomNode.text s2, 1) (isEqualNode_refl _) hwt.1
            all_goals intros
            all_goals simp_all
          | comment s2 =>
            rw [morphChildList]
            all_goals try exact hstep (DomNode.comment s2, 1) (isEqualNode_refl _) hwt.1
            all_goals intros
            all_goals simp_all
          | doctype d2 =>
            rw [morphChildList]
            all_goals try exact hstep (DomNode.doctype d2, 1) (isEqualNode_refl _) hwt.1
            all_goals intros
            all_goals simp_all
          | element t2 a2 ch2 =>
            rw [morphChildList]
            all_goals try exact hstep (DomNode.element t2 a2 ch2, 1) (isEqualNode_refl _) hwt.1
            all_goals intros
            all_goals simp_all
        | element ct ca cc =>
          cases t with
          | text s2 =>
            rw [morphChildList]
            all_goals try exact hstep (DomNode.text s2, 1) (isEqualNode_refl _) hwt.1
            all_goals intros
            all_goals simp_all
          | comment s2 =>
            rw [morphChildList]
            all_goals try exact hstep (DomNode.comment s2, 1) (isEqualNode_refl _) hwt.1
            all_goals intros
            all_goals simp_all
          | doctype d2 =>
            rw [morphChildList]
            all_goals try exact hstep (DomNode.doctype d2, 1) (isEqualNode_refl _) hwt.1
            all_goals intros
            all_goals simp_all
          | element tt ta tc =>
            rw [morphChildList]
            by_cases htag : (ct == tt) = true
            · rw [if_pos htag]
              rw [morphElement]
              by_cases hg : isEqualNode (DomNode.element ct ca cc)
                  (DomNode.element tt ta tc) = true
              · rw [if_pos hg]
                exact hstep (DomNode.element ct ca cc, 0) hg hwc.1
              · rw [if_neg hg]
                dsimp only
                rw [wfNode, Bool.and_eq_true] at hwc hwt
                rw [DomNode.element.sizeOf_spec, DomNode.element.sizeOf_spec] at h
                have hkid := ih cc tc (by omega) hwc.1.2 hwt.1.2
                refine hstep
                  (DomNode.element ct (syncAttributes ca ta).1 (morphChildList cc tc).1, 0)
                  ?_ ?_
                · rw [isEqualNode, Bool.and_eq_true, Bool.and_eq_true]
                  refine ⟨⟨htag, ?_⟩, hkid.1⟩
                  exact syncAttributes_attrsEqual ca ta
                    ((namesNodupB_iff ca).mp hwc.1.1) ((namesNodupB_iff ta).mp hwt.1.1)
                · rw [wfNode, Bool.and_eq_true]
                  refine ⟨?_, hkid.2⟩
                  exact (namesNodupB_iff _).mpr
                    (syncAttributes_nodup ca ta ((namesNodupB_iff ca).mp hwc.1.1))
            · rw [if_neg htag]
              exact hstep (DomNode.element tt ta tc, 1) (isEqualNode_refl _) hwt.1

theorem morphChildList_conv (cs ts : List DomNode)
    (hwc : wfForest cs = true) (hwt : wfForest ts = true) :
    childrenEqualNode (morphChildList cs ts).1 ts = true
    ∧ wfForest (morphChildList cs ts).1 = true :=
  morphChildList_conv_aux (sizeOf cs + sizeOf ts) cs ts le_rfl hwc hwt

theorem morphElement_shape (ct tt : String) (ca ta : List (String × String))
    (cc tc : List DomNode)
    (hwc : wfNode (DomNode.element ct ca cc) = true)
    (hwt : wfNode (DomNode.element tt ta tc) = true) :
    ∃ A C, (morphElement (DomNode.element ct ca cc) (DomNode.element tt ta tc)).1
        = DomNode.element ct A C
      ∧ attrsEqual A ta = true ∧ childrenEqualNode C tc = true
      ∧ namesNodupB A = true ∧ wfForest C = true := by
  rw [wfNode, Bool.and_eq_true] at hwc hwt
  rw [morphElement]
  by_cases hg : isEqualNode (DomNode.element ct ca cc) (DomNode.element tt ta tc) = true
  · rw [if_pos hg]
    rw [isEqualNode, Bool.and_eq_true, Bool.and_eq_true] at hg
    exact ⟨ca, cc, rfl, hg.1.2, hg.2, hwc.1, hwc.2⟩
  · rw [if_neg hg]
    dsimp only
    have hkid := morphChildList_conv cc tc hwc.2 hwt.2
    refine ⟨_, _, rfl, ?_, hkid.1, ?_, hkid.2⟩
    · exact syncAttributes_attrsEqual ca ta
        ((namesNodupB_iff ca).mp hwc.1) ((namesNodupB_iff ta).mp hwt.1)
    · exact (namesNodupB_iff _).mpr
        (syncAttributes_nodup ca ta ((namesNodupB_iff ca).mp hwc.1))

-- attribute sorting: two isEqualNode-equal well-formed trees normalize equally

theorem attrLe_total (p q : String × String) :
    attrLe p q = true ∨ attrLe q p = true := by
  rw [attrLe, attrLe]
  simp only [Bool.or_eq_true, Bool.and_eq_true, decide_eq_true_eq, beq_iff_eq]
  rcases lt_trichotomy p.1 q.1 with h | h | h
  · exact Or.inl (Or.inl h)
  · rcases le_total p.2 q.2 with h2 | h2
    · exact Or.inl (Or.inr ⟨h, h2⟩)
    · exact Or.inr (Or.inr ⟨h.symm, h2⟩)
  · exact Or.inr (Or.inl h)

theorem attrLe_trans (p q r : String × String)
    (h1 : attrLe p q = true) (h2 : attrLe q r = true) : attrLe p r = true := by
  rw [attrLe] at h1 h2 ⊢
  simp only [Bool.or_eq_true, Bool.and_eq_true, decide_eq_true_eq, beq_iff_eq] at h1 h2 ⊢
  rcases h1 with h1 | ⟨h1a, h1b⟩ <;> rcases h2 with h2 | ⟨h2a, h2b⟩
  · exact Or.inl (lt_trans h1 h2)
  · exact Or.inl (by rw [← h2a]; exact h1)
  · exact Or.inl (by rw [h1a]; exact h2)
  · exact Or.inr ⟨h1a.trans h2a, h1b.trans h2b⟩

theorem attrLe_antisymm (p q : String × String)
    (h1 : attrLe p q = true) (h2 : attrLe q p = true) : p = q := by
  rw [attrLe] at h1 h2
  simp only [Bool.or_eq_true, Bool.and_eq_true, decide_eq_true_eq, beq_iff_eq] at h1 h2
  rcases h1 with h1 | ⟨h1a, h1b⟩ <;> rcases h2 with h2 | ⟨h2a, h2b⟩
  · exact absurd h2 (lt_asymm h1)
  · rw [h2a] at h1
    exact absurd h1 (lt_irrefl p.1)
  · rw [h1a] at h2
    exact absurd h2 (lt_irrefl q.1)
  · obtain ⟨p1, p2⟩ := p
    obtain ⟨q1, q2⟩ := q
    dsimp only at h1a h1b h2a h2b
    rw [h1a, le_antisymm h1b h2b]

theorem insertAttrSorted_perm (x : String × String) (l : List (String × String)) :
    List.Perm (insertAttrSorted x l) (x :: l) := by
  induction l with
  | nil => exact List.Perm.refl _
  | cons y rest ih =>
    rw [insertAttrSorted]
    by_cases h : attrLe x y = true
    · rw [if_pos h]
    · rw [if_neg h]
      exact (List.Perm.cons y ih).trans (List.Perm.swap x y rest)

theorem sortAttrs_perm (l : List (String × String)) :
    List.Perm (sortAttrs l) l := by
  induction l with
  | nil => exact List.Perm.refl _
  | cons x rest ih =>
    rw [sortAttrs]
    exact (insertAttrSorted_perm x (sortAttrs rest)).trans (List.Perm.cons x ih)

theorem insertAttrSorted_sorted (x : String × String) (l : List (String × String))
    (hs : List.Sorted (fun a b => attrLe a b = true) l) :
    List.Sorted (fun a b => attrLe a b = true) (insertAttrSorted x l) := by
  induction l with
  | nil => simp [insertAttrSorted]
  | cons y rest ih =>
    rw [insertAttrSorted]
    rw [List.sorted_cons] at hs
    by_cases h : attrLe x y = true
    · rw [if_pos h]
      rw [List.sorted_cons]
      constructor
      · intro b hb
        rcases List.mem_cons.mp hb with rfl | hb2
        · exact h
        · exact attrLe_trans x y b h (hs.1 b hb2)
      · exact List.sorted_cons.mpr hs
    · rw [if_neg h]
      have hyx : attrLe y x = true := by
        rcases attrLe_total x y with h2 | h2
        · exact absurd h2 h
        · exact h2
      rw [List.sorted_cons]
      constructor
      · intro b hb
        have hmem := (insertAttrSorted_perm x rest).mem_iff.mp hb
        rcases List.mem_cons.mp hmem with rfl | hb2
        · exact hyx
        · exact hs.1 b hb2
      · exact ih hs.2

theorem sortAttrs_sorted (l : List (String × String)) :
    List.Sorted (fun a b => attrLe a b = true) (sortAttrs l) := by
  induction l with
  | nil => simp [sortAttrs]
  | cons x rest ih =>
    rw [sortAttrs]
    exact insertAttrSorted_sorted x (sortAttrs rest) ih

theorem sortAttrs_eq_of_perm (a b : List (String × String))
    (h : List.Perm a b) : sortAttrs a = sortAttrs b := by
  haveI : IsAntisymm (String × String) (fun p q => attrLe p q = true) :=
    ⟨attrLe_antisymm⟩
  exact List.eq_of_perm_of_sorted
    ((sortAttrs_perm a).trans (h.trans (sortAttrs_perm b).symm))
    (sortAttrs_sorted a) (sortAttrs_sorted b)

theorem attrsEqual_to_perm (a b : List (String × String))
    (h : attrsEqual a b = true) (hna : (a.map Prod.fst).Nodup) :
    List.Perm a b := by
  rw [attrsEqual, Bool.and_eq_true] at h
  have hlen : a.length = b.length := by simpa using h.1
  have hsub : ∀ p ∈ a, p ∈ b := by
    intro p hp
    have h2 := List.all_eq_true.mp h.2 p hp
    obtain ⟨q, hq, he⟩ := List.any_eq_true.mp h2
    rw [Bool.and_eq_true] at he
    have e1 : q.1 = p.1 := by simpa using he.1
    have e2 : q.2 = p.2 := by simpa using he.2
    have heq : q = p := by
      obtain ⟨q1, q2⟩ := q
      obtain ⟨p1, p2⟩ := p
      dsimp only at e1 e2
      rw [e1, e2]
    rw [← heq]
    exact hq
  have hda : a.Nodup := hna.of_map
  exact (hda.subperm hsub).perm_of_length_le (by omega)

theorem normalize_eq_aux (n : Nat) :
    ∀ c1 c2 : List DomNode, sizeOf c1 + sizeOf c2 ≤ n →
      wfForest c1 = true → wfForest c2 = true →
      childrenEqualNode c1 c2 = true →
      normalizeForest c1 = normalizeForest c2 := by
  induction n with
  | zero =>
    intro c1 c2 h _ _ _
    have h1 := sizeOf_forest_pos c1
    omega
  | succ n ih =>
    intro c1 c2 h hw1 hw2 he
    cases c1 with
    | nil =>
      cases c2 with
      | nil => rfl
      | cons b bs =>
        cases he
    | cons a as =>
      cases c2 with
      | nil =>
        cases he
      | cons b bs =>
        rw [childrenEqualNode, Bool.and_eq_true] at he
        rw [wfForest, Bool.and_eq_true] at hw1 hw2
        rw [List.cons.sizeOf_spec, List.cons.sizeOf_spec] at h
        have hsa := sizeOf_node_pos a
        have hsb := sizeOf_node_pos b
        have htail : normalizeForest as = normalizeForest bs :=
          ih as bs (by omega) hw1.2 hw2.2 he.2
        rw [normalizeForest, normalizeForest, htail]
        have hhead : normalizeNode a = normalizeNode b := by
          cases a with
          | text s1 =>
            cases b with
            | text s2 =>
              have he1 := he.1
              rw [isEqualNode] at he1
              have : s1 = s2 := by simpa using he1
              rw [this]
            | comment s2 =>
              cases he.1
            | doctype d2 =>
              cases he.1
            | element t2 a2 ch2 =>
              cases he.1
          | comment s1 =>
            cases b with
            | text s2 =>
              cases he.1
            | comment s2 =>
              have he1 := he.1
              rw [isEqualNode] at he1
              have : s1 = s2 := by simpa using he1
              rw [this]
            | doctype d2 =>
              cases he.1
            | element t2 a2 ch2 =>
              cases he.1
          | doctype d1 =>
            cases b with
            | text s2 =>
              cases he.1
            | comment s2 =>
              cases he.1
            | doctype d2 =>
              have he1 := he.1
              rw [isEqualNode] at he1
              have : d1 = d2 := by simpa using he1
              rw [this]
            | element t2 a2 ch2 =>
              cases he.1
          | element t1 a1 ch1 =>
            cases b with
            | text s2 =>
              cases he.1
            | comment s2 =>
              cases he.1
            | doctype d2 =>
              cases he.1
            | element t2 a2 ch2 =>
              have he1 := he.1
              rw [isEqualNode, Bool.and_eq_true, Bool.and_eq_true] at he1
              have hn1 := hw1.1
              have hn2 := hw2.1
              rw [wfNode, Bool.and_eq_true] at hn1 hn2
              have et : t1 = t2 := by simpa using he1.1.1
              have eattrs : sortAttrs a1 = sortAttrs a2 :=
                sortAttrs_eq_of_perm a1 a2
                  (attrsEqual_to_perm a1 a2 he1.1.2 ((namesNodupB_iff a1).mp hn1.1))
              have ech : normalizeForest ch1 = normalizeForest ch2 := by
                rw [DomNode.element.sizeOf_spec, DomNode.element.sizeOf_spec] at h
                exact ih ch1 ch2 (by omega) hn1.2 hn2.2 he1.2
              rw [normalizeNode, normalizeNode, et, eattrs, ech]
        rw [hhead]

theorem normalize_eq_of_isEqual (a b : DomNode)
    (hwa : wfNode a = true) (hwb : wfNode b = true)
    (h : isEqualNode a b = true) : normalizeNode a = normalizeNode b := by
  have hfa : wfForest [a] = true := by
    rw [wfForest, hwa, Bool.true_and]
    rfl
  have hfb : wfForest [b] = true := by
    rw [wfForest, hwb, Bool.true_and]
    rfl
  have hce : childrenEqualNode [a] [b] = true := by
    rw [childrenEqualNode, h, Bool.true_and]
    rfl
  have h2 := normalize_eq_aux (sizeOf [a] + sizeOf [b]) [a] [b] le_rfl hfa hfb hce
  rw [normalizeForest, normalizeForest] at h2
  injection h2

/-- C7 (amended): `morphElement` on an element pair preserves the live
tag name and the live ordering of kept attributes: the result is an
element with the live tag whose attribute list equals the target list as
a set (`attrsEqual`) and whose children are pairwise `isEqualNode`-equal
to the target children; when the tag names agree the result is
`isEqualNode`-equal to the target and serializes identically only after
order-normalizing every attribute list (`normalizeNode`).  The claim's
verbatim serialized-form equality is refuted by
`claim_C7_counterexample`: kept live attributes retain their live order,
and a differing live tag is never rewritten. -/
theorem claim_C7 (ct tt : String) (ca ta : List (String × String))
    (cc tc : List DomNode) (opts : SerializationOptions)
    (hwc : wfNode (DomNode.element ct ca cc) = true)
    (hwt : wfNode (DomNode.element tt ta tc) = true) :
    ∃ A C,
      (morphElement (DomNode.element ct ca cc) (DomNode.element tt ta tc)).1
        = DomNode.element ct A C
      ∧ attrsEqual A ta = true
      ∧ childrenEqualNode C tc = true
      ∧ (ct = tt →
          isEqualNode
            (morphElement (DomNode.element ct ca cc) (DomNode.element tt ta tc)).1
            (DomNode.element tt ta tc) = true
          ∧ serializeNode opts
              (normalizeNode (morphElement (DomNode.element ct ca cc)
                (DomNode.element tt ta tc)).1)
            = serializeNode opts (normalizeNode (DomNode.element tt ta tc))) := by
  obtain ⟨A, C, hres, hattrs, hch, hA, hC⟩ := morphElement_shape ct tt ca ta cc tc hwc hwt
  refine ⟨A, C, hres, hattrs, hch, ?_⟩
  intro htag
  subst htag
  have hiso2 : isEqualNode (DomNode.element ct A C) (DomNode.element ct ta tc) = true := by
    rw [isEqualNode, Bool.and_eq_true, Bool.and_eq_true]
    exact ⟨⟨by simp, hattrs⟩, hch⟩
  constructor
  · rw [hres]
    exact hiso2
  · have hwfres : wfNode (DomNode.element ct A C) = true := by
      rw [wfNode, Bool.and_eq_true]
      exact ⟨hA, hC⟩
    rw [hres, normalize_eq_of_isEqual (DomNode.element ct A C)
      (DomNode.element ct ta tc) hwfres hwt hiso2]

/-- C7 as literally stated is false: with live attributes
`a="1" b="2"` and target attributes `b="2" a="1"` (equal as sets, so the
morph is a guarded no-op), the live serialization keeps the live
attribute order and differs verbatim from the target serialization. -/
theorem claim_C7_counterexample :
    (serializeNode DEFAULT_OPTIONS
        (morphElement
          (DomNode.element "div" [("a", "1"), ("b", "2")] [])
          (DomNode.element "div" [("b", "2"), ("a", "1")] [])).1
      == serializeNode DEFAULT_OPTIONS
        (DomNode.element "div" [("b", "2"), ("a", "1")] [])) = false := by
  rw [morphElement, if_pos (show isEqualNode
    (DomNode.element "div" [("a", "1"), ("b", "2")] [])
    (DomNode.element "div" [("b", "2"), ("a", "1")] []) = true by decide)]
  dsimp only
  rw [serializeNode, serializeNode, serializeChildren, forestTextContent]
  rw [show "div".toLower = "div" from by rw [String.toLower, String.map_eq]; decide]
  decide

theorem claim_C7_witness :
    wfNode (DomNode.element "div" [("x", "1")] []) = true
    ∧ wfNode (DomNode.element "div" [("y", "2")] [DomNode.text "hi"]) = true
    ∧ (∃ A C,
        (morphElement (DomNode.element "div" [("x", "1")] [])
            (DomNode.element "div" [("y", "2")] [DomNode.text "hi"])).1
          = DomNode.element "div" A C
        ∧ attrsEqual A [("y", "2")] = true
        ∧ childrenEqualNode C [DomNode.text "hi"] = true
        ∧ ("div" = "div" →
            isEqualNode
              (morphElement (DomNode.element "div" [("x", "1")] [])
                (DomNode.element "div" [("y", "2")] [DomNode.text "hi"])).1
              (DomNode.element "div" [("y", "2")] [DomNode.text "hi"]) = true
            ∧ serializeNode DEFAULT_OPTIONS
                (normalizeNode (morphElement (DomNode.element "div" [("x", "1")] [])
                  (DomNode.element "div" [("y", "2")] [DomNode.text "hi"])).1)
              = serializeNode DEFAULT_OPTIONS
                (normalizeNode (DomNode.element "div" [("y", "2")] [DomNode.text "hi"])))) :=
  ⟨by decide, by decide,
    claim_C7 "div" "div" [("x", "1")] [("y", "2")] [] [DomNode.text "hi"]
      DEFAULT_OPTIONS (by decide) (by decide)⟩

-- heap frame toolkit: the primitive operations never touch the target region

theorem framePreserved_refl (h : DomHeap) (T : List Nat) (hinv : frameInv h T) :
    framePreserved h h T :=
  ⟨fun _ _ => rfl, le_rfl, hinv⟩

theorem framePreserved_trans (h1 h2 h3 : DomHeap) (T : List Nat)
    (a : framePreserved h1 h2 T) (b : framePreserved h2 h3 T) :
    framePreserved h1 h3 T :=
  ⟨fun t ht => (b.1 t ht).trans (a.1 t ht), le_trans a.2.1 b.2.1, b.2.2⟩

theorem writeNode_nodes (h : DomHeap) (id : Nat) (d : HNodeData) (i : Nat) :
    (writeNode h id d).nodes i = if i = id then some d else h.nodes i := rfl

theorem writeNode_nextId (h : DomHeap) (id : Nat) (d : HNodeData) :
    (writeNode h id d).nextId = h.nextId := rfl

theorem childIdsAt_writeNode (h : DomHeap) (id : Nat) (d : HNodeData) (i : Nat) :
    childIdsAt (writeNode h id d) i
      = if i = id then d.childIds else childIdsAt h i := by
  rw [childIdsAt, childIdsAt, writeNode_nodes]
  by_cases hi : i = id
  · rw [if_pos hi, if_pos hi]
  · rw [if_neg hi, if_neg hi]

theorem allocNode_nodes (h : DomHeap) (d : HNodeData) (i : Nat) :
    (allocNode h d).2.nodes i = if i = h.nextId then some d else h.nodes i := rfl

theorem allocNode_nextId (h : DomHeap) (d : HNodeData) :
    (allocNode h d).2.nextId = h.nextId + 1 := rfl

theorem allocNode_fst (h : DomHeap) (d : HNodeData) :
    (allocNode h d).1 = h.nextId := rfl

theorem childIdsAt_allocNode (h : DomHeap) (d : HNodeData) (i : Nat) :
    childIdsAt (allocNode h d).2 i
      = if i = h.nextId then d.childIds else childIdsAt h i := by
  rw [childIdsAt, childIdsAt, allocNode_nodes]
  by_cases hi : i = h.nextId
  · rw [if_pos hi, if_pos hi]
  · rw [if_neg hi, if_neg hi]

theorem writeNode_frame (h : DomHeap) (T : List Nat) (id : Nat) (d : HNodeData)
    (hinv : frameInv h T) (hid : id ∉ T) (d0 : HNodeData)
    (hsome : h.nodes id = some d0)
    (hch : ∀ j ∈ d.childIds, j ∉ T) :
    framePreserved h (writeNode h id d) T := by
  obtain ⟨hb, hcl, hiso, hbel⟩ := hinv
  have hidlt : id < h.nextId := by
    by_contra hc
    rw [hb id (by omega)] at hsome
    cases hsome
  refine ⟨?_, ?_, ?_, ?_, ?_, ?_⟩
  · intro t ht
    rw [writeNode_nodes, if_neg ?hne]
    intro hc
    rw [hc] at ht
    exact hid ht
  · rw [writeNode_nextId]
  · intro i hi
    rw [writeNode_nextId] at hi
    rw [writeNode_nodes, if_neg (by omega)]
    exact hb i hi
  · intro t ht j hj
    rw [childIdsAt_writeNode, if_neg (by intro hc; rw [hc] at ht; exact hid ht)] at hj
    exact hcl t ht j hj
  · intro i hlt hiT j hj
    rw [writeNode_nextId] at hlt
    rw [childIdsAt_writeNode] at hj
    by_cases hi : i = id
    · rw [if_pos hi] at hj
      exact hch j hj
    · rw [if_neg hi] at hj
      exact hiso i hlt hiT j hj
  · intro t ht
    rw [writeNode_nextId]
    exact hbel t ht

theorem allocNode_frame (h : DomHeap) (T : List Nat) (d : HNodeData)
    (hinv : frameInv h T)
    (hch : ∀ j ∈ d.childIds, j ∉ T) :
    framePreserved h (allocNode h d).2 T := by
  obtain ⟨hb, hcl, hiso, hbel⟩ := hinv
  refine ⟨?_, ?_, ?_, ?_, ?_, ?_⟩
  · intro t ht
    rw [allocNode_nodes, if_neg ?hne2]
    have := hbel t ht
    omega
  · rw [allocNode_nextId]
    omega
  · intro i hi
    rw [allocNode_nextId] at hi
    rw [allocNode_nodes, if_neg (by omega)]
    exact hb i (by omega)
  · intro t ht j hj
    rw [childIdsAt_allocNode, if_neg (by have := hbel t ht; omega)] at hj
    exact hcl t ht j hj
  · intro i hlt hiT j hj
    rw [allocNode_nextId] at hlt
    rw [childIdsAt_allocNode] at hj
    by_cases hi : i = h.nextId
    · rw [if_pos hi] at hj
      exact hch j hj
    · rw [if_neg hi] at hj
      exact hiso i (by omega) hiT j hj
  · intro t ht
    rw [allocNode_nextId]
    have := hbel t ht
    omega

theorem updateChildrenAt_frame (h : DomHeap) (T : List Nat) (parent : Nat)
    (f : List Nat → List Nat)
    (hinv : frameInv h T) (hparent : parent ∉ T)
    (hf : ∀ kids : List Nat, (∀ j ∈ kids, j ∉ T) → ∀ j ∈ f kids, j ∉ T) :
    framePreserved h (updateChildrenAt h parent f) T := by
  rw [updateChildrenAt]
  cases hn : h.nodes parent with
  | none => exact framePreserved_refl h T hinv
  | some d =>
    cases d with
    | element t a kids =>
      have hplt : parent < h.nextId := by
        by_contra hc
        rw [hinv.1 parent (by omega)] at hn
        cases hn
      have hkids : ∀ j ∈ kids, j ∉ T := by
        intro j hj
        have h2 := hinv.2.2.1 parent hplt hparent j
        apply h2
        rw [childIdsAt, hn]
        exact hj
      exact writeNode_frame h T parent (HNodeData.element t a (f kids)) hinv hparent
        (HNodeData.element t a kids) hn (hf kids hkids)
    | text s => exact framePreserved_refl h T hinv
    | comment s => exact framePreserved_refl h T hinv

theorem below_not_mem (h : DomHeap) (T : List Nat) (hbel : targetBelow h T)
    (j : Nat) (hj : h.nextId ≤ j) : j ∉ T := by
  intro hc
  have := hbel j hc
  omega

theorem cloneH_frame (fuel : Nat) :
    ∀ h id (T : List Nat), frameInv h T →
      framePreserved h (cloneH h id fuel).2 T
      ∧ h.nextId ≤ (cloneH h id fuel).1 := by
  induction fuel with
  | zero =>
    intro h id T hinv
    rw [cloneH]
    constructor
    · exact allocNode_frame h T (HNodeData.text "") hinv (by intro j hj; cases hj)
    · rw [allocNode_fst]
  | succ fuel ih =>
    intro h id T hinv
    have hlist : ∀ ids h2, frameInv h2 T →
        framePreserved h2 (cloneListH h2 ids fuel).2 T
        ∧ ∀ j ∈ (cloneListH h2 ids fuel).1, h2.nextId ≤ j := by
      intro ids
      induction ids with
      | nil =>
        intro h2 hinv2
        rw [cloneListH]
        exact ⟨framePreserved_refl h2 T hinv2, by intro j hj; cases hj⟩
      | cons i0 rest ihl =>
        intro h2 hinv2
        rw [cloneListH]
        dsimp only
        have h1 := ih h2 i0 T hinv2
        have h2r := ihl (cloneH h2 i0 fuel).2 h1.1.2.2
        constructor
        · exact framePreserved_trans _ _ _ T h1.1 h2r.1
        · intro j hj
          rcases List.mem_cons.mp hj with rfl | hj2
          · exact h1.2
          · exact le_trans h1.1.2.1 (h2r.2 j hj2)
    rw [cloneH]
    cases hn : h.nodes id with
    | none =>
      dsimp only
      constructor
      · exact allocNode_frame h T (HNodeData.text "") hinv (by intro j hj; cases hj)
      · rw [allocNode_fst]
    | some d =>
      cases d with
      | text s =>
        dsimp only
        constructor
        · exact allocNode_frame h T (HNodeData.text s) hinv (by intro j hj; cases hj)
        · rw [allocNode_fst]
      | comment s =>
        dsimp only
        constructor
        · exact allocNode_frame h T (HNodeData.comment s) hinv (by intro j hj; cases hj)
        · rw [allocNode_fst]
      | element t a children =>
        dsimp only
        have hr := hlist children h hinv
        constructor
        · refine framePreserved_trans _ _ _ T hr.1
            (allocNode_frame _ T _ hr.1.2.2 ?_)
          intro j hj
          exact below_not_mem h T hinv.2.2.2 j (hr.2 j hj)
        · rw [allocNode_fst]
          exact hr.1.2.1

theorem cloneListH_frame (fuel : Nat) (ids : List Nat) :
    ∀ h (T : List Nat), frameInv h T →
      framePreserved h (cloneListH h ids fuel).2 T
      ∧ ∀ j ∈ (cloneListH h ids fuel).1, h.nextId ≤ j := by
  induction ids with
  | nil =>
    intro h T hinv
    rw [cloneListH]
    exact ⟨framePreserved_refl h T hinv, by intro j hj; cases hj⟩
  | cons i0 rest ihl =>
    intro h T hinv
    rw [cloneListH]
    dsimp only
    have h1 := cloneH_frame fuel h i0 T hinv
    have h2r := ihl (cloneH h i0 fuel).2 T h1.1.2.2
    constructor
    · exact framePreserved_trans _ _ _ T h1.1 h2r.1
    · intro j hj
      rcases List.mem_cons.mp hj with rfl | hj2
      · exact h1.2
      · exact le_trans h1.1.2.1 (h2r.2 j hj2)

-- the morph loop never touches the target region

theorem morphH_frame (fuel : Nat) :
    ∀ h current target (T : List Nat), frameInv h T → current ∉ T →
      framePreserved h (morphH fuel h current target) T := by
  induction fuel with
  | zero =>
    intro h current target T hinv hcur
    rw [morphH]
    exact framePreserved_refl h T hinv
  | succ fuel ih =>
    intro h current target T hinv hcur
    have hch : ∀ m (cs ts : List Nat) h2 parent,
        cs.length + ts.length ≤ m → frameInv h2 T → parent ∉ T →
        (∀ c ∈ cs, c ∉ T) →
        framePreserved h2 (morphChildrenH fuel h2 parent cs ts) T := by
      intro m
      induction m with
      | zero =>
        intro cs ts h2 parent hlen hinv2 hpar hcs
        cases cs with
        | nil =>
          cases ts with
          | nil =>
            rw [morphChildrenH]
            exact framePreserved_refl h2 T hinv2
          | cons t ts' => simp at hlen
        | cons c cs' => simp at hlen
      | succ m ihm =>
        intro cs ts h2 parent hlen hinv2 hpar hcs
        cases cs with
        | nil =>
          cases ts with
          | nil =>
            rw [morphChildrenH]
            exact framePreserved_refl h2 T hinv2
          | cons t ts' =>
            rw [morphChildrenH]
            try dsimp only
            have hc := cloneH_frame fuel h2 t T hinv2
            have hu := updateChildrenAt_frame (cloneH h2 t fuel).2 T parent
              (fun kids => kids ++ [(cloneH h2 t fuel).1]) hc.1.2.2 hpar ?hf
            case hf =>
              intro kids hkids j hj
              rcases List.mem_append.mp hj with hj2 | hj2
              · exact hkids j hj2
              · rw [List.mem_singleton] at hj2
                subst hj2
                exact below_not_mem h2 T hinv2.2.2.2 _ hc.2
            have hrec := ihm [] ts' _ parent (by simp at hlen ⊢; omega)
              hu.2.2 hpar (by intro c hc2; cases hc2)
            exact framePreserved_trans _ _ _ T
              (framePreserved_trans _ _ _ T hc.1 hu) hrec
        | cons c cs' =>
          cases ts with
          | nil =>
            rw [morphChildrenH]
            try dsimp only
            have hu := updateChildrenAt_frame h2 T parent (fun kids => kids.erase c)
              hinv2 hpar ?hf2
            case hf2 =>
              intro kids hkids j hj
              exact hkids j (List.mem_of_mem_erase hj)
            have hrec := ihm cs' [] _ parent (by simp at hlen ⊢; omega)
              hu.2.2 hpar (fun x hx => hcs x (List.mem_cons_of_mem c hx))
            exact framePreserved_trans _ _ _ T hu hrec
          | cons t ts' =>
            rw [morphChildrenH]
            try dsimp only
            have hcT : c ∉ T := hcs c (List.mem_cons_self c cs')
            have hcs' : ∀ x ∈ cs', x ∉ T := fun x hx => hcs x (List.mem_cons_of_mem c hx)
            have hlen' : cs'.length + ts'.length ≤ m := by
              simp at hlen
              omega
            have hstep : ∀ h3, framePreserved h2 h3 T →
                framePreserved h2 (morphChildrenH fuel h3 parent cs' ts') T := by
              intro h3 hpre
              exact framePreserved_trans _ _ _ T hpre
                (ihm cs' ts' h3 parent hlen' hpre.2.2 hpar hcs')
            cases hnc : h2.nodes c with
            | none =>
              cases hnt : h2.nodes t with
              | none =>
                try dsimp only
                apply hstep
                have hcl := cloneH_frame fuel h2 t T hinv2
                refine framePreserved_trans _ _ _ T hcl.1
                  (updateChildrenAt_frame _ T parent _ hcl.1.2.2 hpar ?_)
                intro kids hkids j hj
                obtain ⟨k, hk, hkj⟩ := List.mem_map.mp hj
                by_cases hkc : k = c
                · rw [if_pos hkc] at hkj
                  subst hkj
                  exact below_not_mem h2 T hinv2.2.2.2 _ hcl.2
                · rw [if_neg hkc] at hkj
                  subst hkj
                  exact hkids k hk
              | some dt =>
                cases dt with
                | element tt ta tc =>
                  try dsimp only
                  apply hstep
                  have hcl := cloneH_frame fuel h2 t T hinv2
                  refine framePreserved_trans _ _ _ T hcl.1
                    (updateChildrenAt_frame _ T parent _ hcl.1.2.2 hpar ?_)
                  intro kids hkids j hj
                  obtain ⟨k, hk, hkj⟩ := List.mem_map.mp hj
                  by_cases hkc : k = c
                  · rw [if_pos hkc] at hkj
                    subst hkj
                    exact below_not_mem h2 T hinv2.2.2.2 _ hcl.2
                  · rw [if_neg hkc] at hkj
                    subst hkj
                    exact hkids k hk
                | text s2 =>
                  try dsimp only
                  apply hstep
                  have hcl := cloneH_frame fuel h2 t T hinv2
                  refine framePreserved_trans _ _ _ T hcl.1
                    (updateChildrenAt_frame _ T parent _ hcl.1.2.2 hpar ?_)
                  intro kids hkids j hj
                  obtain ⟨k, hk, hkj⟩ := List.mem_map.mp hj
                  by_cases hkc : k = c
                  · rw [if_pos hkc] at hkj
                    subst hkj
                    exact below_not_mem h2 T hinv2.2.2.2 _ hcl.2
                  · rw [if_neg hkc] at hkj
                    subst hkj
                    exact hkids k hk
                | comment s2 =>
                  try dsimp only
                  apply hstep
                  have hcl := cloneH_frame fuel h2 t T hinv2
                  refine framePreserved_trans _ _ _ T hcl.1
                    (updateChildrenAt_frame _ T parent _ hcl.1.2.2 hpar ?_)
                  intro kids hkids j hj
                  obtain ⟨k, hk, hkj⟩ := List.mem_map.mp hj
                  by_cases hkc : k = c
                  · rw [if_pos hkc] at hkj
                    subst hkj
                    exact below_not_mem h2 T hinv2.2.2.2 _ hcl.2
                  · rw [if_neg hkc] at hkj
                    subst hkj
                    exact hkids k hk
            | some dc =>
              cases hnt : h2.nodes t with
              | none =>
                cases dc <;>
                  (try dsimp only
                   apply hstep
                   have hcl := cloneH_frame fuel h2 t T hinv2
                   refine framePreserved_trans _ _ _ T hcl.1
                     (updateChildrenAt_frame _ T parent _ hcl.1.2.2 hpar ?_)
                   intro kids hkids j hj
                   obtain ⟨k, hk, hkj⟩ := List.mem_map.mp hj
                   by_cases hkc : k = c
                   · rw [if_pos hkc] at hkj
                     subst hkj
                     exact below_not_mem h2 T hinv2.2.2.2 _ hcl.2
                   · rw [if_neg hkc] at hkj
                     subst hkj
                     exact hkids k hk)
              | some dt =>
                cases dc with
                | text s1 =>
                  cases dt with
                  | text s2 =>
                    try dsimp only
                    apply hstep
                    by_cases hs : (s1 == s2) = true
                    · rw [if_pos hs]
                      exact framePreserved_refl h2 T hinv2
                    · rw [if_neg hs]
                      exact writeNode_frame h2 T c (HNodeData.text s2) hinv2 hcT
                        (HNodeData.text s1) hnc (by intro j hj; cases hj)
                  | element tt ta tc =>
                    try dsimp only
                    apply hstep
                    have hcl := cloneH_frame fuel h2 t T hinv2
                    refine framePreserved_trans _ _ _ T hcl.1
                      (updateChildrenAt_frame _ T parent _ hcl.1.2.2 hpar ?_)
                    intro kids hkids j hj
                    obtain ⟨k, hk, hkj⟩ := List.mem_map.mp hj
                    by_cases hkc : k = c
                    · rw [if_pos hkc] at hkj
                      subst hkj
                      exact below_not_mem h2 T hinv2.2.2.2 _ hcl.2
                    · rw [if_neg hkc] at hkj
                      subst hkj
                      exact hkids k hk
                  | comment s2 =>
                    try dsimp only
                    apply hstep
                    have hcl := cloneH_frame fuel h2 t T hinv2
                    refine framePreserved_trans _ _ _ T hcl.1
                      (updateChildrenAt_frame _ T parent _ hcl.1.2.2 hpar ?_)
                    intro kids hkids j hj
                    obtain ⟨k, hk, hkj⟩ := List.mem_map.mp hj
                    by_cases hkc : k = c
                    · rw [if_pos hkc] at hkj
                      subst hkj
                      exact below_not_mem h2 T hinv2.2.2.2 _ hcl.2
                    · rw [if_neg hkc] at hkj
                      subst hkj
                      exact hkids k hk
                | element ct ca cc =>
                  cases dt with
                  | element tt ta tc =>
                    try dsimp only
                    apply hstep
                    by_cases htag : (ct == tt) = true
                    · rw [if_pos htag]
                      exact ih h2 c t T hinv2 hcT
                    · rw [if_neg htag]
                      have hcl := cloneH_frame fuel h2 t T hinv2
                      refine framePreserved_trans _ _ _ T hcl.1
                        (updateChildrenAt_frame _ T parent _ hcl.1.2.2 hpar ?_)
                      intro kids hkids j hj
                      obtain ⟨k, hk, hkj⟩ := List.mem_map.mp hj
                      by_cases hkc : k = c
                      · rw [if_pos hkc] at hkj
                        subst hkj
                        exact below_not_mem h2 T hinv2.2.2.2 _ hcl.2
                      · rw [if_neg hkc] at hkj
                        subst hkj
                        exact hkids k hk
                  | text s2 =>
                    try dsimp only
                    apply hstep
                    have hcl := cloneH_frame fuel h2 t T hinv2
                    refine framePreserved_trans _ _ _ T hcl.1
                      (updateChildrenAt_frame _ T parent _ hcl.1.2.2 hpar ?_)
                    intro kids hkids j hj
                    obtain ⟨k, hk, hkj⟩ := List.mem_map.mp hj
                    by_cases hkc : k = c
                    · rw [if_pos hkc] at hkj
                      subst hkj
                      exact below_not_mem h2 T hinv2.2.2.2 _ hcl.2
                    · rw [if_neg hkc] at hkj
                      subst hkj
                      exact hkids k hk
                  | comment s2 =>
                    try dsimp only
                    apply hstep
                    have hcl := cloneH_frame fuel h2 t T hinv2
                    refine framePreserved_trans _ _ _ T hcl.1
                      (updateChildrenAt_frame _ T parent _ hcl.1.2.2 hpar ?_)
                    intro kids hkids j hj
                    obtain ⟨k, hk, hkj⟩ := List.mem_map.mp hj
                    by_cases hkc : k = c
                    · rw [if_pos hkc] at hkj
                      subst hkj
                      exact below_not_mem h2 T hinv2.2.2.2 _ hcl.2
                    · rw [if_neg hkc] at hkj
                      subst hkj
                      exact hkids k hk
                | comment s1 =>
                  cases dt <;>
                    (try dsimp only
                     apply hstep
                     have hcl := cloneH_frame fuel h2 t T hinv2
                     refine framePreserved_trans _ _ _ T hcl.1
                       (updateChildrenAt_frame _ T parent _ hcl.1.2.2 hpar ?_)
                     intro kids hkids j hj
                     obtain ⟨k, hk, hkj⟩ := List.mem_map.mp hj
                     by_cases hkc : k = c
                     · rw [if_pos hkc] at hkj
                       subst hkj
                       exact below_not_mem h2 T hinv2.2.2.2 _ hcl.2
                     · rw [if_neg hkc] at hkj
                       subst hkj
                       exact hkids k hk)
    rw [morphH]
    by_cases hg : isEqualNodeH h current target (fuel + 1) = true
    · rw [if_pos hg]
      exact framePreserved_refl h T hinv
    · rw [if_neg hg]
      cases hnc : h.nodes current with
      | none =>
        cases hnt : h.nodes target with
        | none => exact framePreserved_refl h T hinv
        | some dt =>
          cases dt <;> exact framePreserved_refl h T hinv
      | some dc =>
        cases hnt : h.nodes target with
        | none =>
          cases dc <;> exact framePreserved_refl h T hinv
        | some dt =>
          cases dc with
          | text s1 => cases dt <;> exact framePreserved_refl h T hinv
          | comment s1 => cases dt <;> exact framePreserved_refl h T hinv
          | element ct ca cc =>
            cases dt with
            | text s2 => exact framePreserved_refl h T hinv
            | comment s2 => exact framePreserved_refl h T hinv
            | element tt ta tc =>
              try dsimp only
              have hcurlt : current < h.nextId := by
                by_contra hcx
                rw [hinv.1 current (by omega)] at hnc
                cases hnc
              have hcc : ∀ x ∈ cc, x ∉ T := by
                intro x hx
                apply hinv.2.2.1 current hcurlt hcur x
                rw [childIdsAt, hnc]
                exact hx
              have hw := writeNode_frame h T current
                (HNodeData.element ct (syncAttributes ca ta).1 cc) hinv hcur
                (HNodeData.element ct ca cc) hnc (by intro j hj; exact hcc j hj)
              have hrec := hch (cc.length + (childIdsAt h target).length) cc
                (childIdsAt h target) _ current le_rfl hw.2.2 hcur hcc
              exact framePreserved_trans _ _ _ T hw hrec

-- the reachable target tree is literally unchanged

theorem self_mem_reachH (n : Nat) (h : DomHeap) (id : Nat) :
    id ∈ reachH n h id := by
  cases n with
  | zero => rw [reachH]; exact List.mem_singleton.mpr rfl
  | succ n => rw [reachH]; exact List.mem_cons_self _ _

theorem reachH_congr (n : Nat) (h h2 : DomHeap) (T : List Nat)
    (hcl : targetClosed h T) (heq : ∀ t ∈ T, h2.nodes t = h.nodes t) :
    ∀ root ∈ T, reachH n h2 root = reachH n h root := by
  induction n with
  | zero => intro root _; rfl
  | succ n ihn =>
    intro root hroot
    rw [reachH, reachH]
    have hc : childIdsAt h2 root = childIdsAt h root := by
      rw [childIdsAt, childIdsAt, heq root hroot]
    rw [hc]
    have hsub : ∀ j ∈ childIdsAt h root, j ∈ T := hcl root hroot
    have hmap : ∀ l : List Nat, (∀ j ∈ l, j ∈ T) →
        l.flatMap (reachH n h2) = l.flatMap (reachH n h) := by
      intro l
      induction l with
      | nil => intro _; rfl
      | cons j rest ihl =>
        intro hm
        rw [List.flatMap_cons, List.flatMap_cons,
          ihn j (hm j (List.mem_cons_self j rest)),
          ihl (fun x hx => hm x (List.mem_cons_of_mem j hx))]
    rw [hmap (childIdsAt h root) hsub]

/-- C10: `morphElement` never mutates the target tree.  In the heap
model (where `cloneNode(true)` allocates fresh ids), if the region
reachable from the target root is closed under child edges, allocated,
and un-aliased from the rest of the heap, and the live root lies outside
it, then after `morphH` every node of that region holds its exact
original payload and the tree reachable from the target root is
literally unchanged: every node the morph inserts into the live tree is
a fresh deep clone of the corresponding target node, never the target
node itself. -/
theorem claim_C10 (fuel n : Nat) (h : DomHeap) (current target : Nat)
    (hinv : frameInv h (reachH n h target))
    (hcur : current ∉ reachH n h target) :
    (∀ t ∈ reachH n h target,
        (morphH fuel h current target).nodes t = h.nodes t)
    ∧ reachH n (morphH fuel h current target) target = reachH n h target := by
  have hm := morphH_frame fuel h current target (reachH n h target) hinv hcur
  exact ⟨hm.1, reachH_congr n h (morphH fuel h current target) (reachH n h target)
    hinv.2.1 hm.1 target (self_mem_reachH n h target)⟩

def c10Heap : DomHeap :=
  { nodes := fun i =>
      if i = 0 then some (HNodeData.element "div" [] [])
      else if i = 1 then some (HNodeData.element "p" [("k", "v")] [2])
      else if i = 2 then some (HNodeData.text "x")
      else none,
    nextId := 3 }

theorem claim_C10_witness :
    frameInv c10Heap (reachH 1 c10Heap 1)
    ∧ (0 : Nat) ∉ reachH 1 c10Heap 1
    ∧ ((∀ t ∈ reachH 1 c10Heap 1,
          (morphH 5 c10Heap 0 1).nodes t = c10Heap.nodes t)
      ∧ reachH 1 (morphH 5 c10Heap 0 1) 1 = reachH 1 c10Heap 1) := by
  have hb : heapBounded c10Heap := by
    intro i hi
    replace hi : 3 ≤ i := hi
    show (if i = 0 then some (HNodeData.element "div" [] [])
      else if i = 1 then some (HNodeData.element "p" [("k", "v")] [2])
      else if i = 2 then some (HNodeData.text "x")
      else none) = none
    rw [if_neg (by omega), if_neg (by omega), if_neg (by omega)]
  have hinv : frameInv c10Heap (reachH 1 c10Heap 1) :=
    ⟨hb, by unfold targetClosed; decide, by unfold targetIsolated; decide,
      by unfold targetBelow; decide⟩
  have hcur : (0 : Nat) ∉ reachH 1 c10Heap 1 := by decide
  exact ⟨hinv, hcur, claim_C10 5 1 c10Heap 0 1 hinv hcur⟩
